import Mathlib

/-!
# `bdb4pl.c`: the Berkeley DB binding of SWI-Prolog

A shallow embedding of the transaction stack, the cursor iteration engine and
the status translator of `src/bdb4pl.c`, followed by the properties proved
about them.

Conventions of the embedding

* C `int` status codes are `Int`; pointers are `Option Nat` (`none` is `NULL`).
* A foreign function returns its C return value together with the exception it
  left pending in the host (`Ret`).
* Every call into the Berkeley DB library goes through a `Native` interface and
  is recorded in the `trace` of the machine state, together with the buffers
  the code releases.
* Loops that run until the store says stop (`for(;;)` around `c_get`) take a
  fuel argument; the theorems show how much fuel gives a result.
-/

namespace Bdb4pl

/-! ## Host terms and errors -/

/-- A host (Prolog) term as the foreign code sees it through a `term_t`.
Text is a list of code points.  `blob p` is a `db_blob` atom whose data pointer
is `p`; `var` is an unbound variable; `compound name args` is `name(args...)`
with the arguments as a `cons` list. -/
inductive term_t where
  | var
  | atom (text : List Nat)
  | string (text : List Nat)
  | integer (v : Int)
  | blob (p : Nat)
  | nil
  | cons (head tail : term_t)
  | compound (name : List Nat) (args : term_t)
  deriving DecidableEq, Repr

/-- The message argument of `pl_error`: either `db_strerror(code)` or a
literal C string. -/
inductive Msg where
  | strerror (code : Int)
  | text (s : String)
  deriving DecidableEq, Repr

/-- The exceptions the code raises in the host. -/
inductive PlError where
  /-- raised by `pl_error(ERR_PACKAGE_ID, pkg, id, msg)` -/
  | package_id (pkg id : String) (msg : Msg)
  /-- raised by `pl_error(ERR_PACKAGE_INT, pkg, code, msg)` -/
  | package_int (pkg : String) (code : Int) (msg : Msg)
  /-- raised by `PL_permission_error(action, type, culprit)` -/
  | permission_error (action type : String) (culprit : term_t)
  /-- raised by `PL_type_error(expected, culprit)` and the `_ex` getters -/
  | type_error (expected : String) (culprit : term_t)
  /-- raised by `PL_domain_error(domain, culprit)` -/
  | domain_error (domain : String) (culprit : term_t)
  /-- raised by a text conversion that cannot represent a character -/
  | representation_error (what : String)
  /-- raised by `PL_resource_error(what)` -/
  | resource_error (what : String)
  deriving DecidableEq, Repr

/-- What a C function of the binding hands back: its `int` return value
(`TRUE`/`FALSE`) and the exception it left pending, if any. -/
structure Ret where
  rc : Bool
  exc : Option PlError
  deriving DecidableEq, Repr

/-- The C statement `return TRUE;`. -/
def Ret.TRUE : Ret := ⟨true, none⟩

/-- The C statement `return FALSE;` with nothing raised. -/
def Ret.FALSE : Ret := ⟨false, none⟩

/-- The host's `pl_error`, `PL_type_error`, ...: raise `e` and return `FALSE`. -/
def Ret.raise (e : PlError) : Ret := ⟨false, some e⟩

/-! ## Constants of `db.h` -/

/-- The constants of Berkeley DB's `db.h` (and the two of `bdb4pl.h`) that
`bdb4pl.c` refers to.  Their values differ between releases of the library, so
they are a parameter. -/
structure db_h where
  DB_NOTFOUND : Int
  DB_LOCK_DEADLOCK : Int
  DB_RUNRECOVERY : Int
  DB_KEYEMPTY : Int
  EINVAL : Int
  DB_INIT_TXN : Nat
  DB_THREAD : Nat
  DB_DUP : Nat
  DB_RDONLY : Nat
  DB_CREATE : Nat
  DB_AUTO_COMMIT : Nat
  /-- whether `DB41` is defined (the `open` method takes a transaction) -/
  DB41 : Bool
  /-- the constant `DBH_MAGIC` of `bdb4pl.h` -/
  DBH_MAGIC : Nat
  deriving Repr

/-- What every release of `db.h` guarantees about its status codes: the
library's own codes are negative and pairwise distinct (`db.h` reserves
-30800 to -30999 for them), `errno` values are positive, and the flag
constants are nonzero bit masks. -/
def db_h.Valid (K : db_h) : Prop :=
  K.DB_NOTFOUND < 0 ∧ K.DB_LOCK_DEADLOCK < 0 ∧ K.DB_RUNRECOVERY < 0 ∧
  K.DB_KEYEMPTY < 0 ∧ 0 < K.EINVAL ∧
  K.DB_NOTFOUND ≠ K.DB_LOCK_DEADLOCK ∧ K.DB_NOTFOUND ≠ K.DB_RUNRECOVERY ∧
  K.DB_LOCK_DEADLOCK ≠ K.DB_RUNRECOVERY ∧
  K.DB_INIT_TXN ≠ 0 ∧ K.DB_THREAD ≠ 0 ∧ K.DB_DUP ≠ 0

instance (K : db_h) : Decidable K.Valid := by
  unfold db_h.Valid; infer_instance

/-- The values of Berkeley DB 5.3 (`db.h`), used where a concrete header is
needed. -/
def db53 : db_h where
  DB_NOTFOUND := -30988
  DB_LOCK_DEADLOCK := -30993
  DB_RUNRECOVERY := -30973
  DB_KEYEMPTY := -30995
  EINVAL := 22
  DB_INIT_TXN := 0x2000
  DB_THREAD := 0x20
  DB_DUP := 0x10
  DB_RDONLY := 0x400
  DB_CREATE := 0x1
  DB_AUTO_COMMIT := 0x100
  DB41 := true
  DBH_MAGIC := 277484232

/-! ## Status translator -/

/-- Source `db_status(rval)`, lines 346-366. -/
def db_status (K : db_h) (rval : Int) : Ret :=
  if rval = 0 then
    Ret.TRUE
  else if rval = K.DB_LOCK_DEADLOCK then
    Ret.raise (.package_id "db" "deadlock" (.strerror rval))
  else if rval = K.DB_RUNRECOVERY then
    Ret.raise (.package_id "db" "run_recovery" (.strerror rval))
  else if rval < 0 then
    Ret.FALSE                       -- normal failure
  else
    Ret.raise (.package_int "db" rval (.strerror rval))

/-! ## The Berkeley DB library as seen by the binding -/

/-- A native database handle (`DB *`). -/
abbrev DB := Nat
/-- A native cursor (`DBC *`). -/
abbrev DBC := Nat
/-- A native transaction id (`DB_TXN *`). -/
abbrev DB_TXN := Nat

/-- A `DBT`: the bytes at `data` and the declared `size`.  `memset(&dbt, 0, ..)`
is `⟨[], 0⟩`. -/
structure DBT where
  data : List Nat
  size : Nat
  deriving DecidableEq, Repr

/-- The zeroed `DBT`. -/
def DBT.zero : DBT := ⟨[], 0⟩

/-- The access methods of `db.h`. -/
inductive DBTYPE where
  | DB_BTREE
  | DB_HASH
  | DB_RECNO
  | DB_UNKNOWN
  deriving DecidableEq, Repr

/-- The positioning flags the binding passes to `c_get`. -/
inductive c_get_flag where
  | DB_SET
  | DB_FIRST
  | DB_NEXT
  deriving DecidableEq, Repr

/-- Everything the binding does to the outside world, in the order it happens:
the calls into the library and the release of buffers and contexts. -/
inductive Event where
  | db_create
  | db_open (db : DB) (flags : Nat)
  | db_close (db : DB)
  | set_flags (db : DB) (flags : Nat)
  | cursor (db : DB) (txn : Option DB_TXN)
  | c_get (c : DBC) (flag : c_get_flag) (key : DBT)
  | c_del (c : DBC)
  | c_close (c : DBC)
  | get (db : DB) (txn : Option DB_TXN) (key : DBT)
  | put (db : DB) (txn : Option DB_TXN) (key data : DBT)
  | del (db : DB) (txn : Option DB_TXN) (key : DBT)
  | txn_begin (parent : Option DB_TXN)
  | txn_commit (tid : DB_TXN)
  | txn_abort (tid : DB_TXN)
  | free_dbt (d : DBT)
  | free_ctx (c : DBC)
  deriving DecidableEq, Repr

/-- The methods of the library the binding calls, over a world `W` the library
keeps.  Each returns its status first.  Nothing is assumed about them: a
`Native` may fail any call with any status. -/
structure Native (W : Type) where
  db_create : W → Int × DB × W
  db_open : W → DB → List Nat → Option (List Nat) → DBTYPE → Nat → Int × W
  db_close : W → DB → Int × W
  set_flags : W → DB → Nat → Int × W
  cursor : W → DB → Option DB_TXN → Int × DBC × W
  /-- the call `c_get(cursor, &key, &data, flag)`: returns status, key, data -/
  c_get : W → DBC → DBT → DBT → c_get_flag → Int × DBT × DBT × W
  c_del : W → DBC → Int × W
  c_close : W → DBC → Int × W
  /-- the call `db->get(db, txn, &key, &data, 0)`: returns status and data -/
  get : W → DB → Option DB_TXN → DBT → Int × DBT × W
  put : W → DB → Option DB_TXN → DBT → DBT → Int × W
  del : W → DB → Option DB_TXN → DBT → Int × W
  txn_begin : W → Option DB_TXN → Int × DB_TXN × W
  txn_commit : W → DB_TXN → Int × W
  txn_abort : W → DB_TXN → Int × W

/-! ## Machine state -/

/-- Source `struct transaction`, lines 582-585. -/
structure transaction where
  tid : DB_TXN
  parent : Option Nat
  deriving DecidableEq, Repr

/-- Source `struct transaction_stack`, lines 587-589. -/
structure transaction_stack where
  top : Option Nat
  deriving DecidableEq, Repr

/-- Modelled from the spec: the enum `dtype` of `bdb4pl.h`, the five declared
encodings of keys and values (structured term, text atom, raw bytes,
null-terminated text, fixed-width integer), named as the source uses them. -/
inductive dtype where
  | D_TERM
  | D_ATOM
  | D_CBLOB
  | D_CSTRING
  | D_CLONG
  deriving DecidableEq, Repr

/-- Modelled from the spec: the struct `dbh` of `bdb4pl.h`, the handle with its
native store, liveness (`symbol`, the blob atom, `0` once closed), duplicates
flag and declared key and value encodings; the fields are those the source
reads and writes. -/
structure dbh where
  magic : Nat
  db : DB
  symbol : Nat
  duplicates : Bool
  key_type : dtype
  value_type : dtype
  deriving DecidableEq, Repr

/-- The memory the binding owns and the world of the library.  `tr_stack` is
the thread-specific value under `transaction_key` (`none` when not yet set),
`txn_mem` the `struct transaction` at each address, `dbh_mem` the `dbh` at each
address; `db_env` and `db_flags` are the two globals of lines 76-77. -/
structure State (W : Type) where
  world : W
  trace : List Event
  db_env : Option Nat
  db_flags : Nat
  tr_stack : Option transaction_stack
  txn_mem : Nat → transaction
  dbh_mem : Nat → dbh

/-! ### Calls into the library, recorded -/

section calls
variable {W : Type}

/-- Calls `db_env->txn_begin(db_env, pid, &tid, 0)`. -/
def call_txn_begin (N : Native W) (s : State W) (pid : Option DB_TXN) :
    Int × DB_TXN × State W :=
  let r := N.txn_begin s.world pid
  (r.1, r.2.1, { s with world := r.2.2, trace := s.trace ++ [.txn_begin pid] })

/-- Calls `tid->commit(tid, 0)`. -/
def call_txn_commit (N : Native W) (s : State W) (tid : DB_TXN) : Int × State W :=
  let r := N.txn_commit s.world tid
  (r.1, { s with world := r.2, trace := s.trace ++ [.txn_commit tid] })

/-- Calls `tid->abort(tid)`. -/
def call_txn_abort (N : Native W) (s : State W) (tid : DB_TXN) : Int × State W :=
  let r := N.txn_abort s.world tid
  (r.1, { s with world := r.2, trace := s.trace ++ [.txn_abort tid] })

end calls

/-! ## Transactions -/

section transactions
variable {W : Type}

/-- Source `my_tr_stack()`, lines 591-605: the thread's stack, allocated empty
on first use.  `calloc` is taken to succeed, so the resource-error exit is never
taken; the result keeps the pointer shape of the source. -/
def my_tr_stack (s : State W) : Option transaction_stack × State W :=
  match s.tr_stack with
  | some stack => (some stack, s)
  | none => (some ⟨none⟩, { s with tr_stack := some ⟨none⟩ })

/-- Source `current_transaction()` (`TheTXN`), lines 680-689. -/
def current_transaction (s : State W) : Option DB_TXN :=
  match s.tr_stack with
  | some stack =>
    match stack.top with
    | some t => some (s.txn_mem t).tid
    | none => none
  | none => none

/-- Source `begin_transaction(t)`, lines 616-643; `t` is the address of the
caller's `struct transaction`. -/
def begin_transaction (N : Native W) (K : db_h) (t : Nat) (s : State W) :
    Ret × State W :=
  if s.db_env.isSome ∧ (s.db_flags &&& K.DB_INIT_TXN) ≠ 0 then
    match my_tr_stack s with
    | (none, s1) => (Ret.raise (.resource_error "memory"), s1)
    | (some stack, s1) =>
      let pid : Option DB_TXN :=
        match stack.top with
        | some p => some (s1.txn_mem p).tid
        | none => none
      let r := call_txn_begin N s1 pid
      if r.1 ≠ 0 then
        (db_status K r.1, r.2.2)
      else
        (Ret.TRUE,
         { r.2.2 with
           txn_mem := Function.update r.2.2.txn_mem t ⟨r.2.1, stack.top⟩
           tr_stack := some ⟨some t⟩ })
  else
    (Ret.raise (.package_int "db" 0 (.text "Not initialized for transactions")), s)

/-- Source `commit_transaction(t)`, lines 646-660.  `none` is a failed
`assert`. -/
def commit_transaction (N : Native W) (K : db_h) (t : Nat) (s : State W) :
    Option (Ret × State W) :=
  match my_tr_stack s with
  | (none, _) => none
  | (some stack, s1) =>
    if stack.top ≠ some t then none
    else
      let s2 : State W := { s1 with tr_stack := some ⟨(s1.txn_mem t).parent⟩ }
      let r := call_txn_commit N s2 (s2.txn_mem t).tid
      if r.1 ≠ 0 then some (db_status K r.1, r.2) else some (Ret.TRUE, r.2)

/-- Source `abort_transaction(t)`, lines 663-677.  `none` is a failed
`assert`. -/
def abort_transaction (N : Native W) (K : db_h) (t : Nat) (s : State W) :
    Option (Ret × State W) :=
  match my_tr_stack s with
  | (none, _) => none
  | (some stack, s1) =>
    if stack.top ≠ some t then none
    else
      let s2 : State W := { s1 with tr_stack := some ⟨(s1.txn_mem t).parent⟩ }
      let r := call_txn_abort N s2 (s2.txn_mem t).tid
      if r.1 ≠ 0 then some (db_status K r.1, r.2) else some (Ret.TRUE, r.2)

/-- A unit of work as `pl_bdb_transaction` runs it: `PL_open_query`,
`PL_next_solution` and `PL_cut_query` on the caller's goal.  `rc` is what
`PL_next_solution` returned, `exc` the exception it passed (the query is opened
with `PL_Q_PASS_EXCEPTION`); `none` means the process was aborted inside. -/
abbrev Goal (W : Type) := State W → Option (Ret × State W)

/-- Source `pl_bdb_transaction(goal)`, lines 692-721; `tr` is the address of
the local `struct transaction tr`. -/
def pl_bdb_transaction (N : Native W) (K : db_h) (goal : Goal W) (tr : Nat)
    (s : State W) : Option (Ret × State W) :=
  let b := begin_transaction N K tr s
  if !b.1.rc then
    some (⟨false, b.1.exc⟩, b.2)
  else
    match goal b.2 with
    | none => none
    | some (g, s2) =>
      if g.rc then
        commit_transaction N K tr s2
      else
        match abort_transaction N K tr s2 with
        | none => none
        | some (a, s3) => some (⟨false, if a.exc.isSome then a.exc else g.exc⟩, s3)

/-- The addresses reached from `p` by following `parent`, at most `n` of
them: the entries of the stack, top first. -/
def chain (mem : Nat → transaction) : Nat → Option Nat → List Nat
  | 0, _ => []
  | _ + 1, none => []
  | n + 1, some a => a :: chain mem n (mem a).parent

/-- The pointer `stack->top` of the thread's stack (`NULL` when the stack was
never allocated). -/
def stack_top (s : State W) : Option Nat :=
  match s.tr_stack with
  | some stack => stack.top
  | none => none

/-- Source `free_transaction_stack(ptr)`, lines 607-613, the destructor of the
thread's stack: `none` is the failed `assert(stack->top == NULL)`. -/
def free_transaction_stack (stack : transaction_stack) : Option Unit :=
  if stack.top ≠ none then none else some ()

/-- The first `n` entries of the transaction stack, top first. -/
def stack_entries (n : Nat) (s : State W) : List Nat :=
  chain s.txn_mem n (stack_top s)

/-- States `s'` and `s` hold the same transaction stack: the same top, and
every entry of the stack of `s` has the same contents in `s'`. -/
def SameStack (s s' : State W) : Prop :=
  stack_top s' = stack_top s ∧
  ∀ n, ∀ a ∈ stack_entries n s, s'.txn_mem a = s.txn_mem a

/-- Nested calls of `pl_bdb_transaction`, outermost first: one call per
address in `trs`, the innermost running `leaf`. -/
def nested (N : Native W) (K : db_h) (leaf : Goal W) : List Nat → Goal W
  | [] => leaf
  | tr :: trs => pl_bdb_transaction N K (nested N K leaf trs) tr

end transactions

/-! ## Host interface: text, records, integers -/

/-- The code points of a C string literal of the source. -/
def txt (s : String) : List Nat := s.toList.map Char.toNat

/-- What the platform and the host fix and the source cannot see: the external
record format of terms (`PL_record_external`) and the width and byte order of
the native `long`. -/
structure Host where
  PL_record_external : term_t → List Nat
  PL_recorded_external : List Nat → term_t
  sizeof_long : Nat
  big_endian : Bool

/-- The UTF-8 bytes of one code point. -/
def utf8_put (c : Nat) : List Nat :=
  if c < 0x80 then [c]
  else if c < 0x800 then [0xC0 + c / 64, 0x80 + c % 64]
  else if c < 0x10000 then [0xE0 + c / 4096, 0x80 + c / 64 % 64, 0x80 + c % 64]
  else [0xF0 + c / 262144 % 8, 0x80 + c / 4096 % 64, 0x80 + c / 64 % 64, 0x80 + c % 64]

/-- The UTF-8 bytes of a text (`REP_UTF8`). -/
def utf8_encode (text : List Nat) : List Nat := text.flatMap utf8_put

/-- The payload of byte `i` of `bs` when it is a continuation byte. -/
def utf8_cont (bs : List Nat) (i : Nat) : Option Nat :=
  match bs.get? i with
  | some b => if 0x80 ≤ b ∧ b < 0xC0 then some (b - 0x80) else none
  | none => none

/-- Decodes UTF-8 the way the host does: a byte that does not start a
well-formed sequence stands for itself.  `fuel` bounds the number of code
points. -/
def utf8_decode_fuel : Nat → List Nat → List Nat
  | 0, _ => []
  | _ + 1, [] => []
  | n + 1, b :: rest =>
    match utf8_cont rest 0, utf8_cont rest 1, utf8_cont rest 2 with
    | some c1, some c2, some c3 =>
      if 0xF0 ≤ b ∧ b < 0xF8 then
        ((b - 0xF0) * 262144 + c1 * 4096 + c2 * 64 + c3) :: utf8_decode_fuel n (rest.drop 3)
      else if 0xE0 ≤ b ∧ b < 0xF0 then
        ((b - 0xE0) * 4096 + c1 * 64 + c2) :: utf8_decode_fuel n (rest.drop 2)
      else if 0xC0 ≤ b ∧ b < 0xE0 then
        ((b - 0xC0) * 64 + c1) :: utf8_decode_fuel n (rest.drop 1)
      else b :: utf8_decode_fuel n rest
    | some c1, some c2, none =>
      if 0xE0 ≤ b ∧ b < 0xF0 then
        ((b - 0xE0) * 4096 + c1 * 64 + c2) :: utf8_decode_fuel n (rest.drop 2)
      else if 0xC0 ≤ b ∧ b < 0xE0 then
        ((b - 0xC0) * 64 + c1) :: utf8_decode_fuel n (rest.drop 1)
      else b :: utf8_decode_fuel n rest
    | some c1, none, _ =>
      if 0xC0 ≤ b ∧ b < 0xE0 then
        ((b - 0xC0) * 64 + c1) :: utf8_decode_fuel n (rest.drop 1)
      else b :: utf8_decode_fuel n rest
    | none, _, _ => b :: utf8_decode_fuel n rest

/-- The text of a UTF-8 byte string. -/
def utf8_decode (bs : List Nat) : List Nat := utf8_decode_fuel bs.length bs

/-- The two text representations the source asks for. -/
inductive Rep where
  | REP_UTF8
  | REP_ISO_LATIN_1
  deriving DecidableEq, Repr

/-- The host call `PL_get_nchars(t, &len, &s, cvt|CVT_EXCEPTION|rep|BUF_MALLOC)`:
the bytes of the text of `t` (the C buffer holds one more byte, a `0`), or the
exception raised. -/
def PL_get_nchars (t : term_t) (cvt_atom cvt_string : Bool) (rep : Rep) :
    Except PlError (List Nat) :=
  let text : Option (List Nat) :=
    match t with
    | .atom x => if cvt_atom then some x else none
    | .string x => if cvt_string then some x else none
    | _ => none
  match text with
  | none => .error (.type_error (if cvt_string then "text" else "atom") t)
  | some x =>
    match rep with
    | .REP_UTF8 => .ok (utf8_encode x)
    | .REP_ISO_LATIN_1 =>
      if x.all (fun c => decide (c < 256)) then .ok x
      else .error (.representation_error "encoding")

/-- The host call `PL_unify(t, r)` on terms whose variables are all distinct:
the instantiated term, or `none` when they do not unify. -/
def PL_unify : term_t → term_t → Option term_t
  | .var, r => some r
  | t, .var => some t
  | .cons h1 t1, .cons h2 t2 =>
    match PL_unify h1 h2, PL_unify t1 t2 with
    | some h, some t => some (.cons h t)
    | _, _ => none
  | .compound n1 a1, .compound n2 a2 =>
    if n1 = n2 then
      match PL_unify a1 a2 with
      | some a => some (.compound n1 a)
      | none => none
    else none
  | a, b => if a = b then some a else none

/-- The host call `PL_unify_chars(t, kind|rep, len, data)`: `as_atom` selects
`PL_ATOM` (else `PL_STRING`); `len = none` is `(size_t)-1`, text up to the
first `0` byte. -/
def PL_unify_chars (t : term_t) (as_atom : Bool) (rep : Rep) (len : Option Nat)
    (data : List Nat) : Option term_t :=
  let bytes : List Nat :=
    match len with
    | some n => data.take n
    | none => data.takeWhile (fun b => decide (b ≠ 0))
  let text : List Nat :=
    match rep with
    | .REP_UTF8 => utf8_decode bytes
    | .REP_ISO_LATIN_1 => bytes
  PL_unify t (if as_atom then .atom text else .string text)

/-- The bytes of the native `long` holding `v`, two's complement; the first
byte is the least significant unless the platform is big endian. -/
def long_bytes (H : Host) (v : Int) : List Nat :=
  let u : Nat := (v % (2 ^ (8 * H.sizeof_long) : Int)).toNat
  let le : List Nat := (List.range H.sizeof_long).map (fun i => u / 256 ^ i % 256)
  if H.big_endian then le.reverse else le

/-- The native `long` read from the first `sizeof(long)` bytes of `data`
(`*(long*)dbt->data`); bytes past the end of a short buffer read as `0`. -/
def long_value (H : Host) (data : List Nat) : Int :=
  let bs : List Nat := (List.range H.sizeof_long).map (fun i => (data.get? i).getD 0 % 256)
  let le : List Nat := if H.big_endian then bs.reverse else bs
  let u : Nat := (le.enum.map (fun p => p.2 * 256 ^ p.1)).sum
  if u < 2 ^ (8 * H.sizeof_long - 1) then (u : Int) else (u : Int) - 2 ^ (8 * H.sizeof_long)

/-- The host call `PL_get_long_ex(t, &v)`: an integer that fits the native
`long`, else the exception raised. -/
def PL_get_long_ex (H : Host) (t : term_t) : Except PlError Int :=
  match t with
  | .integer v =>
    if -(2 ^ (8 * H.sizeof_long - 1) : Int) ≤ v ∧ v < (2 ^ (8 * H.sizeof_long - 1) : Int) then .ok v
    else .error (.representation_error "long")
  | _ => .error (.type_error "integer" t)

/-! ## Data exchange -/

/-- Source `unify_dbt(t, type, dbt)`, lines 225-247: the instantiated `t` when
the unification succeeds (`TRUE`), `none` when it fails. -/
def unify_dbt (H : Host) (t : term_t) (type : dtype) (dbt : DBT) : Option term_t :=
  match type with
  | .D_TERM => PL_unify t (H.PL_recorded_external dbt.data)
  | .D_ATOM => PL_unify_chars t true .REP_UTF8 (some dbt.size) dbt.data
  | .D_CBLOB => PL_unify_chars t false .REP_ISO_LATIN_1 (some dbt.size) dbt.data
  | .D_CSTRING => PL_unify_chars t true .REP_UTF8 none dbt.data
  | .D_CLONG => PL_unify t (.integer (long_value H dbt.data))

/-- Source `get_dbt(t, type, dbt)`, lines 250-319.  The text buffers carry the
terminating `0` the host writes after the `len` bytes. -/
def get_dbt (H : Host) (t : term_t) (type : dtype) : Ret × DBT :=
  match type with
  | .D_TERM =>
    let ext := H.PL_record_external t
    (Ret.TRUE, ⟨ext, ext.length⟩)
  | .D_ATOM =>
    match PL_get_nchars t true false .REP_UTF8 with
    | .ok s => (Ret.TRUE, ⟨s ++ [0], s.length⟩)
    | .error e => (Ret.raise e, DBT.zero)
  | .D_CBLOB =>
    match PL_get_nchars t true true .REP_ISO_LATIN_1 with
    | .ok s => (Ret.TRUE, ⟨s ++ [0], s.length⟩)
    | .error e => (Ret.raise e, DBT.zero)
  | .D_CSTRING =>
    match PL_get_nchars t true true .REP_UTF8 with
    | .ok s => (Ret.TRUE, ⟨s ++ [0], s.length + 1⟩)   -- account for terminator
    | .error e => (Ret.raise e, DBT.zero)
  | .D_CLONG =>
    match PL_get_long_ex H t with
    | .ok v => (Ret.TRUE, ⟨long_bytes H v, H.sizeof_long⟩)
    | .error e => (Ret.raise e, DBT.zero)

/-- Source `equal_dbt(a, b)`, lines 770-780: equal sizes and equal bytes over
that size (the pointer comparison is the case of one shared buffer). -/
def equal_dbt (a b : DBT) : Bool :=
  if a.size = b.size then
    if a.data = b.data then true
    else if a.data.take a.size = b.data.take a.size then true
    else false
  else false

/-! ## Handles -/

section handles
variable {W : Type}

/-- Calls `db_create(&dbh->db, db_env, 0)`. -/
def call_db_create (N : Native W) (s : State W) : Int × DB × State W :=
  let r := N.db_create s.world
  (r.1, r.2.1, { s with world := r.2.2, trace := s.trace ++ [.db_create] })

/-- Calls `db->open(db, [NULL,] fname, subdb, type, flags, m)`. -/
def call_db_open (N : Native W) (s : State W) (db : DB) (fname : List Nat)
    (subdb : Option (List Nat)) (type : DBTYPE) (flags : Nat) : Int × State W :=
  let r := N.db_open s.world db fname subdb type flags
  (r.1, { s with world := r.2, trace := s.trace ++ [.db_open db flags] })

/-- Calls `db->close(db, 0)`. -/
def call_db_close (N : Native W) (s : State W) (db : DB) : Int × State W :=
  let r := N.db_close s.world db
  (r.1, { s with world := r.2, trace := s.trace ++ [.db_close db] })

/-- Calls `db->set_flags(db, flags)`. -/
def call_set_flags (N : Native W) (s : State W) (db : DB) (flags : Nat) : Int × State W :=
  let r := N.set_flags s.world db flags
  (r.1, { s with world := r.2, trace := s.trace ++ [.set_flags db flags] })

/-- Source `acquire_db(symbol)`, lines 140-144; `p` is the blob's data, the
address of the `dbh`. -/
def acquire_db (p symbol : Nat) (s : State W) : State W :=
  { s with dbh_mem := Function.update s.dbh_mem p { s.dbh_mem p with symbol := symbol } }

/-- Source `get_db(t, &db)`, lines 192-211: the address of the handle's `dbh`
when it is a live `db` blob. -/
def get_db (s : State W) (t : term_t) : Ret × Option Nat :=
  match t with
  | .blob p =>
    if (s.dbh_mem p).symbol ≠ 0 then (Ret.TRUE, some p)
    else (Ret.raise (.permission_error "access" "closed_db" t), none)
  | _ => (Ret.raise (.type_error "db" t), none)

/-- Source `unify_db(t, db)`, lines 216-219: `PL_unify_blob` makes a new blob
atom `symbol` for the `dbh` at `p` (a `PL_BLOB_NOCOPY` blob that is not unique,
so the atom is always new), which runs `acquire_db`, and unifies `t` with
it. -/
def unify_db (t : term_t) (p symbol : Nat) (s : State W) : Option term_t × State W :=
  let s1 := acquire_db p symbol s
  match t with
  | .var => (some (.blob p), s1)
  | _ => (none, s1)

/-- The number of arguments in the argument list of a compound term. -/
def args_length : term_t → Nat
  | .cons _ tl => args_length tl + 1
  | _ => 0

/-- The host call `PL_get_name_arity(t, &name, &arity)`. -/
def PL_get_name_arity (t : term_t) : Option (List Nat × Nat) :=
  match t with
  | .atom x => some (x, 0)
  | .compound n args => some (n, args_length args)
  | _ => none

/-- The host call `PL_get_file_name(t, &name, PL_FILE_OSPATH)`: the text of an
atom or string. -/
def PL_get_file_name (t : term_t) : Option (List Nat) :=
  match t with
  | .atom x => some x
  | .string x => some x
  | _ => none

/-- The host call `_PL_get_arg(1, t, a)`. -/
def PL_get_arg1 (t : term_t) : term_t :=
  match t with
  | .compound _ (.cons a _) => a
  | _ => .var

/-- The host call `PL_get_atom_ex(t, &a)`. -/
def PL_get_atom_ex (t : term_t) : Except PlError (List Nat) :=
  match t with
  | .atom x => .ok x
  | _ => .error (.type_error "atom" t)

/-- The host call `PL_get_bool_ex(t, &v)`. -/
def PL_get_bool_ex (t : term_t) : Except PlError Bool :=
  match t with
  | .atom x =>
    if x = txt "true" ∨ x = txt "on" then .ok true
    else if x = txt "false" ∨ x = txt "off" then .ok false
    else .error (.type_error "bool" t)
  | _ => .error (.type_error "bool" t)

/-- Source `db_type(t, &type)`, lines 369-399. -/
def db_type : term_t → DBTYPE → Except PlError DBTYPE
  | .cons head tail, type =>
    match head with
    | .compound name (.cons a0 .nil) =>
      if name = txt "type" then
        match PL_get_atom_ex a0 with
        | .error e => .error e
        | .ok tp =>
          if tp = txt "btree" then .ok .DB_BTREE
          else if tp = txt "hash" then .ok .DB_HASH
          else if tp = txt "recno" then .ok .DB_RECNO
          else if tp = txt "unknown" then .ok .DB_UNKNOWN
          else .error (.domain_error "db_type" a0)
      else db_type tail type
    | _ => db_type tail type
  | _, type => .ok type

/-- Source `get_dtype(t, &type)`, lines 402-422. -/
def get_dtype (t : term_t) : Except PlError dtype :=
  match PL_get_atom_ex t with
  | .error e => .error e
  | .ok a =>
    if a = txt "term" then .ok .D_TERM
    else if a = txt "atom" then .ok .D_ATOM
    else if a = txt "c_blob" then .ok .D_CBLOB
    else if a = txt "c_string" then .ok .D_CSTRING
    else if a = txt "c_long" then .ok .D_CLONG
    else .error (.domain_error "type" t)

/-- The `while` loop of `db_options`, lines 434-470: the handle, the flags and
the sub-database name after the options, and the tail left over. -/
def db_options_loop (K : db_h) :
    term_t → dbh → Nat → Option (List Nat) →
      Except PlError (term_t × dbh × Nat × Option (List Nat))
  | .cons head tail, d, flags, subdb =>
    match PL_get_name_arity head with
    | some (name, arity) =>
      if arity = 1 then
        let a0 := PL_get_arg1 head
        if name = txt "duplicates" then
          match PL_get_bool_ex a0 with
          | .error e => .error e
          | .ok v =>
            if v then
              db_options_loop K tail { d with duplicates := true } (flags ||| K.DB_DUP) subdb
            else db_options_loop K tail d flags subdb
        else if name = txt "database" then
          match PL_get_nchars a0 true true .REP_UTF8 with
          | .error e => .error e
          | .ok sub => db_options_loop K tail d flags (some sub)
        else if name = txt "key" then
          match get_dtype a0 with
          | .error e => .error e
          | .ok ty => db_options_loop K tail { d with key_type := ty } flags subdb
        else if name = txt "value" then
          match get_dtype a0 with
          | .error e => .error e
          | .ok ty => db_options_loop K tail { d with value_type := ty } flags subdb
        else if name = txt "type" then
          db_options_loop K tail d flags subdb
        else .error (.domain_error "db_option" head)
      else .error (.domain_error "db_option" head)
    | none => db_options_loop K tail d flags subdb
  | tail, d, flags, subdb => .ok (tail, d, flags, subdb)

/-- Source `db_options(t, dbh, &subdb)`, lines 425-484, on the `dbh` at `p`. -/
def db_options (N : Native W) (K : db_h) (t : term_t) (p : Nat) (s : State W) :
    Ret × Option (List Nat) × State W :=
  let d0 : dbh := { s.dbh_mem p with key_type := .D_TERM, value_type := .D_TERM }
  match db_options_loop K t d0 0 none with
  | .error e =>
    (Ret.raise e, none, { s with dbh_mem := Function.update s.dbh_mem p d0 })
  | .ok (tail, d, flags, subdb) =>
    let s1 : State W := { s with dbh_mem := Function.update s.dbh_mem p d }
    if tail ≠ .nil then (Ret.raise (.type_error "list" tail), subdb, s1)
    else if flags ≠ 0 then
      let r := call_set_flags N s1 d.db flags
      if r.1 ≠ 0 then (db_status K r.1, subdb, r.2) else (Ret.TRUE, subdb, r.2)
    else (Ret.TRUE, subdb, s1)

/-- Source `pl_bdb_open(file, mode, handle, options)`, lines 487-538.  The
`dbh` is allocated at `p` and `symbol` is the atom the host makes for the blob.
Returns the instantiated `handle`. -/
def pl_bdb_open (N : Native W) (K : db_h) (file mode handle options : term_t)
    (p symbol : Nat) (s : State W) : Ret × term_t × State W :=
  match PL_get_file_name file with
  | none => (Ret.FALSE, handle, s)
  | some fname =>
    match PL_get_atom_ex mode with
    | .error e => (Ret.raise e, handle, s)
    | .ok a =>
      if a ≠ txt "read" ∧ a ≠ txt "update" then
        (Ret.raise (.domain_error "io_mode" mode), handle, s)
      else
        let flags : Nat := if a = txt "read" then K.DB_RDONLY else K.DB_CREATE
        let s0 : State W :=
          { s with dbh_mem := Function.update s.dbh_mem p
                     ⟨K.DBH_MAGIC, 0, 0, false, .D_TERM, .D_TERM⟩ }
        let c := call_db_create N s0
        if c.1 ≠ 0 then (db_status K c.1, handle, c.2.2)
        else
          let s1 : State W :=
            { c.2.2 with dbh_mem :=
                Function.update c.2.2.dbh_mem p { c.2.2.dbh_mem p with db := c.2.1 } }
          match db_type options .DB_BTREE with
          | .error e => (Ret.raise e, handle, (call_db_close N s1 c.2.1).2)
          | .ok type =>
            let o := db_options N K options p s1
            if !o.1.rc then (⟨false, o.1.exc⟩, handle, (call_db_close N o.2.2 c.2.1).2)
            else
              let flags1 : Nat :=
                if K.DB41 ∧ (s.db_flags &&& K.DB_INIT_TXN) ≠ 0 then flags ||| K.DB_AUTO_COMMIT
                else flags
              let r := call_db_open N o.2.2 c.2.1 fname o.2.1 type flags1
              if r.1 ≠ 0 then
                (db_status K r.1, handle, (call_db_close N r.2 c.2.1).2)
              else
                match unify_db handle p symbol r.2 with
                | (some h, s2) => (Ret.TRUE, h, s2)
                | (none, s2) => (Ret.FALSE, handle, s2)

/-- Source `pl_bdb_close(handle)`, lines 541-556. -/
def pl_bdb_close (N : Native W) (K : db_h) (handle : term_t) (s : State W) :
    Ret × State W :=
  match get_db s handle with
  | (_, some p) =>
    let r := call_db_close N s (s.dbh_mem p).db
    let s1 : State W :=
      { r.2 with dbh_mem := Function.update r.2.dbh_mem p { r.2.dbh_mem p with symbol := 0 } }
    (db_status K r.1, s1)
  | (e, none) => (⟨false, e.exc⟩, s)

/-- Source `pl_bdb_is_open(t)`, lines 558-573. -/
def pl_bdb_is_open (s : State W) (t : term_t) : Ret :=
  match t with
  | .blob p => if (s.dbh_mem p).symbol ≠ 0 then Ret.TRUE else Ret.FALSE
  | _ => Ret.raise (.type_error "db" t)

end handles

/-! ## Database access -/

section access
variable {W : Type}

/-- Calls `db->cursor(db, TheTXN, &cursor, 0)`. -/
def call_cursor (N : Native W) (s : State W) (db : DB) (txn : Option DB_TXN) :
    Int × DBC × State W :=
  let r := N.cursor s.world db txn
  (r.1, r.2.1, { s with world := r.2.2, trace := s.trace ++ [.cursor db txn] })

/-- Calls `cursor->c_get(cursor, &key, &data, flag)`. -/
def call_c_get (N : Native W) (s : State W) (c : DBC) (key data : DBT) (flag : c_get_flag) :
    Int × DBT × DBT × State W :=
  let r := N.c_get s.world c key data flag
  (r.1, r.2.1, r.2.2.1, { s with world := r.2.2.2, trace := s.trace ++ [.c_get c flag key] })

/-- Calls `cursor->c_del(cursor, 0)`. -/
def call_c_del (N : Native W) (s : State W) (c : DBC) : Int × State W :=
  let r := N.c_del s.world c
  (r.1, { s with world := r.2, trace := s.trace ++ [.c_del c] })

/-- Calls `cursor->c_close(cursor)`. -/
def call_c_close (N : Native W) (s : State W) (c : DBC) : Int × State W :=
  let r := N.c_close s.world c
  (r.1, { s with world := r.2, trace := s.trace ++ [.c_close c] })

/-- Calls `db->get(db, TheTXN, &k, &v, 0)`. -/
def call_get (N : Native W) (s : State W) (db : DB) (txn : Option DB_TXN) (key : DBT) :
    Int × DBT × State W :=
  let r := N.get s.world db txn key
  (r.1, r.2.1, { s with world := r.2.2, trace := s.trace ++ [.get db txn key] })

/-- Calls `db->put(db, TheTXN, &k, &v, 0)`. -/
def call_put (N : Native W) (s : State W) (db : DB) (txn : Option DB_TXN) (key data : DBT) :
    Int × State W :=
  let r := N.put s.world db txn key data
  (r.1, { s with world := r.2, trace := s.trace ++ [.put db txn key data] })

/-- Calls `db->del(db, TheTXN, &k, 0)`. -/
def call_del (N : Native W) (s : State W) (db : DB) (txn : Option DB_TXN) (key : DBT) :
    Int × State W :=
  let r := N.del s.world db txn key
  (r.1, { s with world := r.2, trace := s.trace ++ [.del db txn key] })

/-- Records the release of a buffer or context (`free_dbt`, `free`). -/
def release (s : State W) (e : Event) : State W :=
  { s with trace := s.trace ++ [e] }

/-- Source `pl_bdb_put(handle, key, value)`, lines 728-747. -/
def pl_bdb_put (N : Native W) (K : db_h) (H : Host) (handle key value : term_t)
    (s : State W) : Ret × State W :=
  match get_db s handle with
  | (e, none) => (⟨false, e.exc⟩, s)
  | (_, some p) =>
    let db := s.dbh_mem p
    let k := get_dbt H key db.key_type
    if !k.1.rc then (⟨false, k.1.exc⟩, s)
    else
      let v := get_dbt H value db.value_type
      if !v.1.rc then (⟨false, v.1.exc⟩, s)
      else
        let r := call_put N s db.db (current_transaction s) k.2 v.2
        (db_status K r.1, release (release r.2 (.free_dbt k.2)) (.free_dbt v.2))

/-- Source `pl_bdb_del2(handle, key)`, lines 750-767. -/
def pl_bdb_del2 (N : Native W) (K : db_h) (H : Host) (handle key : term_t)
    (s : State W) : Ret × State W :=
  match get_db s handle with
  | (e, none) => (⟨false, e.exc⟩, s)
  | (_, some p) =>
    let db := s.dbh_mem p
    let k := get_dbt H key db.key_type
    if !k.1.rc then (⟨false, k.1.exc⟩, s)
    else
      let r := call_del N s db.db (current_transaction s) k.2
      (db_status K r.1, release r.2 (.free_dbt k.2))

/-- The host call `PL_unify_list(l, h, t)`: the head and tail of `l`, a
variable tail being bound to a fresh cell. -/
def PL_unify_list (l : term_t) : Option (term_t × term_t) :=
  match l with
  | .var => some (.var, .var)
  | .cons h t => some (h, t)
  | _ => none

/-- The host call `PL_unify_nil(l)`. -/
def PL_unify_nil (l : term_t) : Bool :=
  match l with
  | .var => true
  | .nil => true
  | _ => false

/-- The list term with elements `xs`. -/
def list_term : List term_t → term_t
  | [] => .nil
  | x :: xs => .cons x (list_term xs)

/-- The `for(;;)` loop of `pl_bdb_getall`, lines 816-833, with the exits after
it.  `acc` holds the elements unified so far, `tail` the rest of the caller's
list.  Returns the instantiated list on success. -/
def getall_loop (N : Native W) (K : db_h) (H : Host) (db : dbh) (cursor : DBC) (k : DBT) :
    Nat → DBT → DBT → List term_t → term_t → State W →
      Option (Ret × Option term_t × State W)
  | 0, _, _, _, _, _ => none
  | fuel + 1, k2, v, acc, tail, s =>
    let r := call_c_get N s cursor k2 v .DB_NEXT
    let step : Option (List term_t × term_t) × List term_t × term_t :=
      if r.1 = 0 ∧ equal_dbt k r.2.1 = true then
        match PL_unify_list tail with
        | some (h, t) =>
          match unify_dbt H h db.value_type r.2.2.1 with
          | some h1 => (some (acc ++ [h1], t), acc, tail)
          | none => (none, acc ++ [h], t)
        | none => (none, acc, tail)
      else (none, acc, tail)
    match step with
    | (some (acc1, tail1), _, _) =>
      getall_loop N K H db cursor k fuel r.2.1 r.2.2.1 acc1 tail1 r.2.2.2
    | (none, acc1, tail1) =>
      let cl := call_c_close N r.2.2.2 cursor
      let s1 := release cl.2 (.free_dbt k)
      if r.1 ≤ 0 then                  -- normal failure
        if PL_unify_nil tail1 then some (Ret.TRUE, some (list_term acc1), s1)
        else some (Ret.FALSE, none, s1)
      else                             -- error failure
        some (db_status K r.1, none, s1)

/-- Source `pl_bdb_getall(handle, key, value)`, lines 783-860.  Returns the
instantiated `value` on success. -/
def pl_bdb_getall (N : Native W) (K : db_h) (H : Host) (fuel : Nat)
    (handle key value : term_t) (s : State W) : Option (Ret × Option term_t × State W) :=
  match get_db s handle with
  | (e, none) => some (⟨false, e.exc⟩, none, s)
  | (_, some p) =>
    let db := s.dbh_mem p
    let k := get_dbt H key db.key_type
    if !k.1.rc then some (⟨false, k.1.exc⟩, none, s)
    else if db.duplicates then             -- must use a cursor
      let cr := call_cursor N s db.db (current_transaction s)
      if cr.1 ≠ 0 then some (db_status K cr.1, none, cr.2.2)
      else
        let g := call_c_get N cr.2.2 cr.2.1 k.2 DBT.zero .DB_SET
        if g.1 = 0 then
          let first : Option (term_t × term_t) :=
            match PL_unify_list value with
            | some (h, t) =>
              match unify_dbt H h db.value_type g.2.2.1 with
              | some h1 => some (h1, t)
              | none => none
            | none => none
          match first with
          | none => some (Ret.FALSE, none, (call_c_close N g.2.2.2 cr.2.1).2)
          | some (h1, t) =>
            getall_loop N K H db cr.2.1 g.2.1 fuel DBT.zero g.2.2.1 [h1] t g.2.2.2
        else if g.1 = K.DB_NOTFOUND then
          some (Ret.FALSE, none, release g.2.2.2 (.free_dbt k.2))
        else
          some (db_status K g.1, none, release g.2.2.2 (.free_dbt k.2))
    else
      let g := call_get N s db.db (current_transaction s) k.2
      if g.1 = 0 then
        let s1 := release g.2.2 (.free_dbt k.2)
        let t := H.PL_recorded_external g.2.1.data
        match PL_unify_list value with
        | some (h, tl) =>
          match PL_unify h t with
          | some h1 =>
            if PL_unify_nil tl then some (Ret.TRUE, some (list_term [h1]), s1)
            else some (Ret.FALSE, none, s1)
          | none => some (Ret.FALSE, none, s1)
        | none => some (Ret.FALSE, none, s1)
      else some (db_status K g.1, none, g.2.2)

/-- Source `struct _dbget_ctx`, lines 863-869; `db` is the address of the
`dbh`. -/
structure dbget_ctx where
  db : Nat
  cursor : DBC
  key : DBT
  k2 : DBT
  value : DBT
  deriving DecidableEq, Repr

/-- The host's `control_t` as `PL_foreign_control` and
`PL_foreign_context_address` read it. -/
inductive control_t where
  | PL_FIRST_CALL
  | PL_REDO (c : dbget_ctx)
  | PL_PRUNED (c : dbget_ctx)
  deriving DecidableEq, Repr

/-- What a non-deterministic foreign predicate returns: `FALSE`, `TRUE`, or
`PL_retry_address(c)`, success leaving a choice point with context `c`. -/
inductive foreign_t where
  | FALSE
  | TRUE
  | retry (c : dbget_ctx)
  deriving DecidableEq, Repr

/-- The return of a call together with the exception left pending and, on
success, the instantiated key and value arguments.  Bindings made before a
`PL_rewind_foreign_frame` are not kept, so a failed attempt leaves the
arguments as they were. -/
structure Reply where
  ret : foreign_t
  exc : Option PlError
  key : term_t
  value : term_t
  deriving DecidableEq, Repr

/-- A `return` of a plain `int` result from a non-deterministic predicate. -/
def Reply.of (r : Ret) (key value : term_t) : Reply :=
  ⟨if r.rc then .TRUE else .FALSE, r.exc, key, value⟩

/-- The label `out:` of `pl_bdb_enum`, lines 938-950, for a context `c`. -/
def enum_out (N : Native W) (K : db_h) (c : dbget_ctx) (rval : Int)
    (key value : term_t) (s : State W) : Reply × State W :=
  let cl := call_c_close N s c.cursor
  let rval1 : Int := if rval = 0 then cl.1 else rval
  let s1 := release cl.2 (.free_ctx c.cursor)
  (⟨.FALSE, (db_status K rval1).exc, key, value⟩, s1)   -- also on rval = 0!

/-- The label `retry:` of `pl_bdb_enum`, the `for(;;)` loop of lines 914-931. -/
def enum_retry (N : Native W) (K : db_h) (H : Host) (db : dbh) (key value : term_t) :
    Nat → dbget_ctx → State W → Option (Reply × State W)
  | 0, _, _ => none
  | fuel + 1, c, s =>
    let r := call_c_get N s c.cursor c.k2 c.value .DB_NEXT
    let c1 : dbget_ctx := { c with k2 := r.2.1, value := r.2.2.1 }
    if r.1 = 0 then
      match unify_dbt H key db.key_type c1.k2, unify_dbt H value db.value_type c1.value with
      | some k1, some v1 => some (⟨.retry c1, none, k1, v1⟩, r.2.2.2)
      | _, _ => enum_retry N K H db key value fuel c1 r.2.2.2
    else some (enum_out N K c1 r.1 key value r.2.2.2)

/-- Source `pl_bdb_enum(handle, key, value, ctx)`, lines 872-951. -/
def pl_bdb_enum (N : Native W) (K : db_h) (H : Host) (fuel : Nat)
    (handle key value : term_t) (ctx : control_t) (s : State W) :
    Option (Reply × State W) :=
  match ctx with
  | .PL_FIRST_CALL =>
    match get_db s handle with
    | (e, none) => some (⟨.FALSE, e.exc, key, value⟩, s)
    | (_, some p) =>
      let db := s.dbh_mem p
      let cr := call_cursor N s db.db (current_transaction s)
      if cr.1 ≠ 0 then
        some (Reply.of (db_status K cr.1) key value, release cr.2.2 (.free_ctx cr.2.1))
      else
        let c : dbget_ctx := ⟨p, cr.2.1, DBT.zero, DBT.zero, DBT.zero⟩
        let g := call_c_get N cr.2.2 c.cursor c.key c.value .DB_FIRST
        let c1 : dbget_ctx := { c with key := g.2.1, value := g.2.2.1 }
        if g.1 = 0 then
          match unify_dbt H key db.key_type c1.key, unify_dbt H value db.value_type c1.value with
          | some k1, some v1 => some (⟨.retry c1, none, k1, v1⟩, g.2.2.2)
          | _, _ => enum_retry N K H db key value fuel c1 g.2.2.2
        else some (enum_out N K c1 g.1 key value g.2.2.2)
  | .PL_REDO c => enum_retry N K H (s.dbh_mem c.db) key value fuel c s
  | .PL_PRUNED c => some (enum_out N K c 0 key value s)

/-- The label `out:` of `pl_bdb_getdel`, lines 1056-1070, for a context `c`. -/
def getdel_out (N : Native W) (K : db_h) (c : dbget_ctx) (rval : Int)
    (key value : term_t) (s : State W) : Reply × State W :=
  let cl := call_c_close N s c.cursor
  let rval1 : Int := if rval = 0 then cl.1 else rval
  let s1 := release (release cl.2 (.free_dbt c.key)) (.free_ctx c.cursor)
  (⟨.FALSE, (db_status K rval1).exc, key, value⟩, s1)   -- also on rval = 0!

/-- The statement `DO_DEL; PL_close_foreign_frame(fid); PL_retry_address(c);`
of `pl_bdb_getdel` (macro `DO_DEL`, lines 954-960), reached with `value`
unified to `v1`. -/
def getdel_yield (N : Native W) (K : db_h) (del : Bool) (c : dbget_ctx)
    (key v1 : term_t) (value : term_t) (s : State W) : Reply × State W :=
  if del then
    let d := call_c_del N s c.cursor
    if d.1 ≠ 0 then (Reply.of (db_status K d.1) key value, d.2)
    else (⟨.retry c, none, key, v1⟩, d.2)
  else (⟨.retry c, none, key, v1⟩, s)

/-- The label `retry:` of `pl_bdb_getdel`, the `for(;;)` loop of lines
1032-1049. -/
def getdel_retry (N : Native W) (K : db_h) (H : Host) (del : Bool) (db : dbh)
    (key value : term_t) : Nat → dbget_ctx → State W → Option (Reply × State W)
  | 0, _, _ => none
  | fuel + 1, c, s =>
    let r := call_c_get N s c.cursor c.k2 c.value .DB_NEXT
    let c1 : dbget_ctx := { c with k2 := r.2.1, value := r.2.2.1 }
    if r.1 = 0 ∧ equal_dbt c1.key c1.k2 = true then
      match unify_dbt H value db.value_type c1.value with
      | some v1 => some (getdel_yield N K del c1 key v1 value r.2.2.2)
      | none => getdel_retry N K H del db key value fuel c1 r.2.2.2
    else some (getdel_out N K c1 r.1 key value r.2.2.2)

/-- Source `pl_bdb_getdel(handle, key, value, ctx, del)`, lines 963-1071. -/
def pl_bdb_getdel (N : Native W) (K : db_h) (H : Host) (fuel : Nat)
    (handle key value : term_t) (ctx : control_t) (del : Bool) (s : State W) :
    Option (Reply × State W) :=
  match ctx with
  | .PL_FIRST_CALL =>
    match get_db s handle with
    | (e, none) => some (⟨.FALSE, e.exc, key, value⟩, s)
    | (_, some p) =>
      let db := s.dbh_mem p
      if db.duplicates then                -- DB with duplicates
        let cr := call_cursor N s db.db (current_transaction s)
        if cr.1 ≠ 0 then
          some (Reply.of (db_status K cr.1) key value, release cr.2.2 (.free_ctx cr.2.1))
        else
          let k := get_dbt H key db.key_type
          if !k.1.rc then some (⟨.FALSE, k.1.exc, key, value⟩, cr.2.2)
          else
            let c : dbget_ctx := ⟨p, cr.2.1, k.2, DBT.zero, DBT.zero⟩
            let g := call_c_get N cr.2.2 c.cursor c.key c.value .DB_SET
            let c1 : dbget_ctx := { c with key := g.2.1, value := g.2.2.1 }
            if g.1 = 0 then
              match unify_dbt H value db.value_type c1.value with
              | some v1 => some (getdel_yield N K del c1 key v1 value g.2.2.2)
              | none => getdel_retry N K H del db key value fuel c1 g.2.2.2
            else some (getdel_out N K c1 g.1 key value g.2.2.2)
      else                                 -- Unique DB
        let k := get_dbt H key db.key_type
        if !k.1.rc then some (⟨.FALSE, k.1.exc, key, value⟩, s)
        else
          let g := call_get N s db.db (current_transaction s) k.2
          if g.1 = 0 then
            let s1 : State W :=
              if (s.db_flags &&& K.DB_THREAD) ≠ 0 then release g.2.2 (.free_dbt g.2.1)
              else g.2.2
            match unify_dbt H value db.value_type g.2.1 with
            | some v1 =>
              if del then
                let d := call_del N s1 db.db (current_transaction s1) k.2
                some (⟨if (db_status K d.1).rc then .TRUE else .FALSE, (db_status K d.1).exc,
                        key, v1⟩, release d.2 (.free_dbt k.2))
              else some (⟨.TRUE, none, key, v1⟩, release s1 (.free_dbt k.2))
            | none => some (⟨.FALSE, none, key, value⟩, release s1 (.free_dbt k.2))
          else
            some (Reply.of (db_status K g.1) key value, release g.2.2 (.free_dbt k.2))
  | .PL_REDO c => getdel_retry N K H del (s.dbh_mem c.db) key value fuel c s
  | .PL_PRUNED c => some (getdel_out N K c 0 key value s)

/-- Source `pl_bdb_get(handle, key, value, ctx)`, lines 1074-1081. -/
def pl_bdb_get (N : Native W) (K : db_h) (H : Host) (fuel : Nat)
    (handle key value : term_t) (ctx : control_t) (s : State W) :
    Option (Reply × State W) :=
  pl_bdb_getdel N K H fuel handle key value ctx false s

/-- Source `pl_bdb_del3(handle, key, value, ctx)`, lines 1084-1091. -/
def pl_bdb_del3 (N : Native W) (K : db_h) (H : Host) (fuel : Nat)
    (handle key value : term_t) (ctx : control_t) (s : State W) :
    Option (Reply × State W) :=
  pl_bdb_getdel N K H fuel handle key value ctx true s

/-- What the host does with the reply of a call: stop on `FALSE`, take the one
solution of `TRUE`, and after `PL_retry_address` take the solution and go on
with `next`, the redo. -/
def resume (next : dbget_ctx → State W → Option (List (term_t × term_t) × Option PlError × State W))
    (x : Option (Reply × State W)) :
    Option (List (term_t × term_t) × Option PlError × State W) :=
  match x with
  | none => none
  | some (r, s1) =>
    match r.ret with
    | .FALSE => some ([], r.exc, s1)
    | .TRUE => some ([(r.key, r.value)], none, s1)
    | .retry c =>
      match next c s1 with
      | none => none
      | some (ys, e, s2) => some ((r.key, r.value) :: ys, e, s2)

/-- The host driving a non-deterministic predicate to exhaustion: the first
call, then a redo after every solution that left a choice point, until a call
fails.  Returns the solutions in order (the instantiated key and value), the
exception pending when the sequence ended, and the final state.  `n` bounds the
number of calls. -/
def solutions (call : control_t → State W → Option (Reply × State W)) :
    Nat → control_t → State W →
      Option (List (term_t × term_t) × Option PlError × State W)
  | 0, _, _ => none
  | n + 1, ctl, s => resume (fun c s1 => solutions call n (.PL_REDO c) s1) (call ctl s)

end access

/-! ## A reference store

The library as its manual describes it, for the properties that speak of the
records a store holds: each database is a list of records in cursor order, a
cursor is a position in that list, and no call fails for reasons of its own. -/

/-- A stored record: key bytes and data bytes. -/
structure Rec where
  key : List Nat
  data : List Nat
  deriving DecidableEq, Repr

/-- Where a cursor stands: not yet positioned, on record `i`, or on the place
of a record it deleted, the next record being `i`. -/
inductive CPos where
  | unset
  | on (i : Nat)
  | gone (i : Nat)
  deriving DecidableEq, Repr

/-- The index of the record `DB_NEXT` moves to: the first record for a cursor
not yet positioned, the one after the current record, or the one that took the
place of a deleted record. -/
def CPos.next : CPos → Nat
  | .unset => 0
  | .on i => i + 1
  | .gone i => i

/-- An open cursor of the reference store. -/
structure RefCursor where
  db : DB
  pos : CPos
  deriving DecidableEq, Repr

/-- The world of the reference store: the records of each database in cursor
order, whether it allows duplicates, the open cursors, and the next free
identifiers. -/
structure RefWorld where
  recs : DB → List Rec
  dups : DB → Bool
  cursors : DBC → Option RefCursor
  next_db : DB
  next_cursor : DBC
  next_txn : DB_TXN

/-- The bytes a `DBT` denotes. -/
def DBT.bytes (d : DBT) : List Nat := d.data.take d.size

/-- The `DBT` the library returns for stored bytes. -/
def DBT.of (bs : List Nat) : DBT := ⟨bs, bs.length⟩

/-- The records before the first one with key `kb`. -/
def before_key (kb : List Nat) (rs : List Rec) : List Rec :=
  rs.takeWhile (fun r => decide (r.key ≠ kb))

/-- The position of a cursor after record `i` of its database was deleted
through another position. -/
def CPos.after_delete (i : Nat) : CPos → CPos
  | .unset => .unset
  | .on j => if j = i then .gone i else if i < j then .on (j - 1) else .on j
  | .gone j => if i < j then .gone (j - 1) else .gone j

/-- The position of a cursor after a record was inserted at `i`. -/
def CPos.after_insert (i : Nat) : CPos → CPos
  | .unset => .unset
  | .on j => if i ≤ j then .on (j + 1) else .on j
  | .gone j => if i < j then .gone (j + 1) else .gone j

/-- The position of a cursor after the records with key `kb` were deleted from
the list `rs` it stood in. -/
def CPos.after_del_key (kb : List Nat) (rs : List Rec) : CPos → CPos
  | .unset => .unset
  | .on j =>
    let j1 := ((rs.take j).filter (fun r => decide (r.key ≠ kb))).length
    match rs.get? j with
    | some r => if r.key = kb then .gone j1 else .on j1
    | none => .on j1
  | .gone j => .gone ((rs.take j).filter (fun r => decide (r.key ≠ kb))).length

/-- Byte-wise lexicographic order of keys, the default B-tree comparison. -/
def key_lt : List Nat → List Nat → Bool
  | [], [] => false
  | [], _ :: _ => true
  | _ :: _, [] => false
  | a :: as, b :: bs => if a < b then true else if b < a then false else key_lt as bs

/-- Where `put` places a record with key `kb`: after the last record with that
key if there is one, else before the first record with a greater key. -/
def put_index (kb : List Nat) (rs : List Rec) : Nat :=
  if rs.any (fun r => decide (r.key = kb)) then
    rs.length - (before_key kb rs.reverse).length
  else (rs.takeWhile (fun r => key_lt r.key kb)).length

/-- Updates the cursors of database `db` by `f`. -/
def RefWorld.move (w : RefWorld) (db : DB) (f : CPos → CPos) : DBC → Option RefCursor :=
  fun c =>
    match w.cursors c with
    | some cur => if cur.db = db then some ⟨db, f cur.pos⟩ else some cur
    | none => none

/-- The method `c_get` of the reference store. -/
def ref_c_get (K : db_h) (w : RefWorld) (c : DBC) (key data : DBT) (flag : c_get_flag) :
    Int × DBT × DBT × RefWorld :=
  match w.cursors c with
  | none => (K.EINVAL, key, data, w)
  | some cur =>
    let rs := w.recs cur.db
    match flag with
    | .DB_SET =>
      let i := (before_key key.bytes rs).length
      match rs.get? i with
      | some r =>
        (0, key, DBT.of r.data,
         { w with cursors := Function.update w.cursors c (some ⟨cur.db, .on i⟩) })
      | none => (K.DB_NOTFOUND, key, data, w)
    | .DB_FIRST =>
      match rs.get? 0 with
      | some r =>
        (0, DBT.of r.key, DBT.of r.data,
         { w with cursors := Function.update w.cursors c (some ⟨cur.db, .on 0⟩) })
      | none => (K.DB_NOTFOUND, key, data, w)
    | .DB_NEXT =>
      match rs.get? cur.pos.next with
      | some r =>
        (0, DBT.of r.key, DBT.of r.data,
         { w with cursors := Function.update w.cursors c (some ⟨cur.db, .on cur.pos.next⟩) })
      | none => (K.DB_NOTFOUND, key, data, w)

/-- The method `c_del` of the reference store. -/
def ref_c_del (K : db_h) (w : RefWorld) (c : DBC) : Int × RefWorld :=
  match w.cursors c with
  | none => (K.EINVAL, w)
  | some cur =>
    match cur.pos with
    | .unset => (K.EINVAL, w)
    | .gone _ => (K.DB_KEYEMPTY, w)
    | .on i =>
      if i < (w.recs cur.db).length then
        (0, { w with
              recs := Function.update w.recs cur.db ((w.recs cur.db).eraseIdx i)
              cursors := w.move cur.db (CPos.after_delete i) })
      else (K.EINVAL, w)

/-- The method `get` of the reference store: the first record with the key. -/
def ref_get (K : db_h) (w : RefWorld) (db : DB) (key : DBT) : Int × DBT × RefWorld :=
  match (w.recs db).get? (before_key key.bytes (w.recs db)).length with
  | some r => (0, DBT.of r.data, w)
  | none => (K.DB_NOTFOUND, DBT.zero, w)

/-- The method `put` of the reference store: adds a duplicate when the
database allows them, else replaces the record of the key. -/
def ref_put (w : RefWorld) (db : DB) (key data : DBT) : Int × RefWorld :=
  let rs := w.recs db
  let i := (before_key key.bytes rs).length
  if ¬ w.dups db ∧ i < rs.length then
    (0, { w with recs := Function.update w.recs db (rs.set i ⟨key.bytes, data.bytes⟩) })
  else
    let j := put_index key.bytes rs
    (0, { w with
          recs := Function.update w.recs db (rs.take j ++ ⟨key.bytes, data.bytes⟩ :: rs.drop j)
          cursors := w.move db (CPos.after_insert j) })

/-- The method `del` of the reference store: removes every record of the
key. -/
def ref_del (K : db_h) (w : RefWorld) (db : DB) (key : DBT) : Int × RefWorld :=
  let rs := w.recs db
  if rs.any (fun r => decide (r.key = key.bytes)) then
    (0, { w with
          recs := Function.update w.recs db (rs.filter (fun r => decide (r.key ≠ key.bytes)))
          cursors := w.move db (CPos.after_del_key key.bytes rs) })
  else (K.DB_NOTFOUND, w)

/-- Cursor `c` of database `db` stands between `front` and `rest`: the records
of `db` are `front ++ rest` and the next record `DB_NEXT` reads is the first of
`rest`. -/
def Stands (w : RefWorld) (c : DBC) (db : DB) (front rest : List Rec) : Prop :=
  ∃ pos, w.cursors c = some ⟨db, pos⟩ ∧ w.recs db = front ++ rest ∧ pos.next = front.length

/-- The reference store as a `Native`. -/
def refNative (K : db_h) : Native RefWorld where
  db_create := fun w =>
    (0, w.next_db,
     { w with
       recs := Function.update w.recs w.next_db []
       dups := Function.update w.dups w.next_db false
       next_db := w.next_db + 1 })
  db_open := fun w _ _ _ _ _ => (0, w)
  db_close := fun w _ => (0, w)
  set_flags := fun w db flags =>
    (0, { w with dups := Function.update w.dups db (decide ((flags &&& K.DB_DUP) ≠ 0)) })
  cursor := fun w db _ =>
    (0, w.next_cursor,
     { w with
       cursors := Function.update w.cursors w.next_cursor (some ⟨db, .unset⟩)
       next_cursor := w.next_cursor + 1 })
  c_get := ref_c_get K
  c_del := ref_c_del K
  c_close := fun w c =>
    match w.cursors c with
    | some _ => (0, { w with cursors := Function.update w.cursors c none })
    | none => (K.EINVAL, w)
  get := fun w db _ key => ref_get K w db key
  put := fun w db _ key data => ref_put w db key data
  del := fun w db _ key => ref_del K w db key
  txn_begin := fun w _ => (0, w.next_txn, { w with next_txn := w.next_txn + 1 })
  txn_commit := fun w _ => (0, w)
  txn_abort := fun w _ => (0, w)

/-- A store with no database, cursor or transaction yet. -/
def RefWorld.empty : RefWorld where
  recs := fun _ => []
  dups := fun _ => false
  cursors := fun _ => none
  next_db := 1
  next_cursor := 1
  next_txn := 1

/-- The state of the binding right after loading: nothing initialised. -/
def State.init {W : Type} (w : W) : State W where
  world := w
  trace := []
  db_env := none
  db_flags := 0
  tr_stack := none
  txn_mem := fun _ => ⟨0, none⟩
  dbh_mem := fun _ => ⟨0, 0, 0, false, .D_TERM, .D_TERM⟩

/-- A host for examples: a 64-bit little-endian platform; the external record
of a term is modelled only for atoms (tag byte `1`, then UTF-8) and small
integers, which is all the examples store. -/
def host64 : Host where
  PL_record_external := fun t =>
    match t with
    | .atom x => 1 :: utf8_encode x
    | .integer v => [2, v.toNat % 256]
    | _ => [0]
  PL_recorded_external := fun bs =>
    match bs with
    | 1 :: rest => .atom (utf8_decode rest)
    | [2, n] => .integer n
    | _ => .var
  sizeof_long := 8
  big_endian := false

/-! ## Example states -/

/-- An initialised environment with transaction support and nothing else. -/
def txn_state : State RefWorld :=
  { State.init RefWorld.empty with db_env := some 1, db_flags := db53.DB_INIT_TXN }

/-- A unit of work that succeeds without touching anything. -/
def goal_true : Goal RefWorld := fun s => some (Ret.TRUE, s)

/-- A unit of work that fails without touching anything. -/
def goal_fail : Goal RefWorld := fun s => some (Ret.FALSE, s)

/-- Records of the example store in cursor order: keys `a`, `b`, `b`, then the
longer key `b\0`, then `c`. -/
def ex_recs : List Rec :=
  [⟨[97], [49]⟩, ⟨[98], [50]⟩, ⟨[98], [51]⟩, ⟨[98, 0], [53]⟩, ⟨[99], [52]⟩]

/-- A reference store whose database `1` allows duplicates and holds
`ex_recs`. -/
def ex_world : RefWorld :=
  { RefWorld.empty with
    recs := fun d => if d = 1 then ex_recs else []
    dups := fun d => decide (d = 1) }

/-- A state with an open handle at address `5` on database `1`, with
duplicates and with atoms for keys and values. -/
def ex_state : State RefWorld :=
  { State.init ex_world with
    dbh_mem := fun p =>
      if p = 5 then ⟨db53.DBH_MAGIC, 1, 9, true, .D_ATOM, .D_ATOM⟩
      else ⟨0, 0, 0, false, .D_TERM, .D_TERM⟩ }

/-- The pair of two results when both are there: the outcome of
`unify_dbt(key, ..) && unify_dbt(value, ..)`. -/
def both (a b : Option term_t) : Option (term_t × term_t) :=
  match a, b with
  | some k1, some v1 => some (k1, v1)
  | _, _ => none

/-- A store whose advance `c_get(..., DB_NEXT)` reports `DB_LOCK_DEADLOCK`, as
the library may under contention; every other call is the reference store's. -/
def next_deadlocks (K : db_h) : Native RefWorld :=
  { refNative K with
    c_get := fun w c key data flag =>
      if flag = .DB_NEXT then (K.DB_LOCK_DEADLOCK, key, data, w)
      else ref_c_get K w c key data flag }

/-- A store whose `c_del` reports `DB_LOCK_DEADLOCK` and deletes nothing; every
other call is the reference store's. -/
def del_deadlocks (K : db_h) : Native RefWorld :=
  { refNative K with c_del := fun w _ => (K.DB_LOCK_DEADLOCK, w) }

/-- The records of the example database without duplicates, one per key. -/
def uniq_recs : List Rec := [⟨[97], [49]⟩, ⟨[98], [1, 98]⟩, ⟨[99], [51]⟩]

/-- A state with an open handle at address 6 on database 2, duplicates
disabled, keys and values declared `atom`. -/
def uniq_state : State RefWorld :=
  { State.init { RefWorld.empty with recs := fun d => if d = 2 then uniq_recs else [] } with
    dbh_mem := fun p =>
      if p = 6 then ⟨db53.DBH_MAGIC, 2, 9, false, .D_ATOM, .D_ATOM⟩
      else ⟨0, 0, 0, false, .D_TERM, .D_TERM⟩ }

/-- The state `s` with the `duplicates` field of the handle at `p` set to `b`:
the same store reached through the other branch of `pl_bdb_getdel`. -/
def with_duplicates {W : Type} (s : State W) (p : Nat) (b : Bool) : State W :=
  { s with dbh_mem := Function.update s.dbh_mem p { s.dbh_mem p with duplicates := b } }

/-- The context `bdb_get(H, b, V)` leaves at its first solution on the example
store. -/
def ex_ctx : dbget_ctx := ⟨5, 1, ⟨[98, 0], 1⟩, DBT.zero, ⟨[50], 1⟩⟩

/-- The example state at that first solution: cursor `1` open on the first
record of key `b`. -/
def ex_mid : State RefWorld :=
  (call_c_get (refNative db53) (call_cursor (refNative db53) ex_state 1 none).2.2 1
    ⟨[98, 0], 1⟩ DBT.zero .DB_SET).2.2.2

/-! # Properties -/

/-! ## Status translator -/

/-- C1: `db_status` tells the four named outcomes apart.  Status `0` returns
success with nothing raised, `DB_NOTFOUND` returns plain failure with nothing
raised, `DB_LOCK_DEADLOCK` raises the `deadlock` error, `DB_RUNRECOVERY` raises
the `run_recovery` error, and the four results are pairwise different. -/
theorem db_status_four_outcomes (K : db_h) (hK : K.Valid) :
    db_status K 0 = ⟨true, none⟩ ∧
    db_status K K.DB_NOTFOUND = ⟨false, none⟩ ∧
    db_status K K.DB_LOCK_DEADLOCK =
      ⟨false, some (.package_id "db" "deadlock" (.strerror K.DB_LOCK_DEADLOCK))⟩ ∧
    db_status K K.DB_RUNRECOVERY =
      ⟨false, some (.package_id "db" "run_recovery" (.strerror K.DB_RUNRECOVERY))⟩ ∧
    List.Pairwise (fun a b => a ≠ b)
      [db_status K 0, db_status K K.DB_NOTFOUND, db_status K K.DB_LOCK_DEADLOCK,
       db_status K K.DB_RUNRECOVERY] := by
  obtain ⟨hn, hd, hr, -, -, hnd, hnr, hdr, -⟩ := hK
  have h0 : db_status K 0 = ⟨true, none⟩ := by simp [db_status, Ret.TRUE]
  have h1 : db_status K K.DB_NOTFOUND = ⟨false, none⟩ := by
    simp [db_status, Ret.FALSE, hn.ne, hnd, hnr, hn]
  have h2 : db_status K K.DB_LOCK_DEADLOCK =
      ⟨false, some (.package_id "db" "deadlock" (.strerror K.DB_LOCK_DEADLOCK))⟩ := by
    simp [db_status, Ret.raise, hd.ne]
  have h3 : db_status K K.DB_RUNRECOVERY =
      ⟨false, some (.package_id "db" "run_recovery" (.strerror K.DB_RUNRECOVERY))⟩ := by
    simp [db_status, Ret.raise, hr.ne, Ne.symm hdr]
  refine ⟨h0, h1, h2, h3, ?_⟩
  rw [h0, h1, h2, h3]
  simp [hdr]

/-- Witness of C1 at the constants of Berkeley DB 5.3. -/
theorem db_status_four_outcomes_witness :
    db53.Valid ∧ db_status db53 (-30993) =
      ⟨false, some (.package_id "db" "deadlock" (.strerror (-30993)))⟩ :=
  ⟨by decide, (db_status_four_outcomes db53 (by decide)).2.2.1⟩

/-- C2 as stated fails: `DB_KEYEMPTY` is a nonzero status other than not-found,
deadlock and recovery-required, and `db_status` returns plain failure for it
with nothing raised. -/
theorem db_status_keyempty_not_raised :
    db53.Valid ∧ db53.DB_KEYEMPTY ≠ 0 ∧ db53.DB_KEYEMPTY ≠ db53.DB_NOTFOUND ∧
    db53.DB_KEYEMPTY ≠ db53.DB_LOCK_DEADLOCK ∧ db53.DB_KEYEMPTY ≠ db53.DB_RUNRECOVERY ∧
    db_status db53 db53.DB_KEYEMPTY = ⟨false, none⟩ ∧
    db_status db53 db53.DB_KEYEMPTY ≠
      Ret.raise (.package_int "db" db53.DB_KEYEMPTY (.strerror db53.DB_KEYEMPTY)) := by
  decide

/-- C2 amended: every positive status code raises the package error carrying
that same code, and every negative code other than deadlock and
recovery-required is a plain failure with nothing raised. -/
theorem db_status_other_codes (K : db_h) (hK : K.Valid) (rval : Int) :
    (0 < rval →
      db_status K rval = ⟨false, some (.package_int "db" rval (.strerror rval))⟩) ∧
    (rval < 0 → rval ≠ K.DB_LOCK_DEADLOCK → rval ≠ K.DB_RUNRECOVERY →
      db_status K rval = ⟨false, none⟩) := by
  obtain ⟨-, hd, hr, -⟩ := hK
  constructor
  · intro h
    have h1 : rval ≠ K.DB_LOCK_DEADLOCK := by omega
    have h2 : rval ≠ K.DB_RUNRECOVERY := by omega
    have h3 : ¬ rval < 0 := by omega
    simp [db_status, Ret.raise, h.ne', h1, h2, h3]
  · intro h h1 h2
    simp [db_status, Ret.FALSE, h.ne, h1, h2, h]

/-- Witness of the amended C2: status `13` (`EACCES`) is raised with its code,
status `-30995` is a plain failure. -/
theorem db_status_other_codes_witness :
    db53.Valid ∧
    db_status db53 13 = ⟨false, some (.package_int "db" 13 (.strerror 13))⟩ ∧
    db_status db53 (-30995) = ⟨false, none⟩ :=
  ⟨by decide, (db_status_other_codes db53 (by decide) 13).1 (by decide),
   (db_status_other_codes db53 (by decide) (-30995)).2 (by decide) (by decide) (by decide)⟩

/-! ## Transaction stack -/

section transaction_lemmas
variable {W : Type}

theorem chain_congr (mem mem1 : Nat → transaction) :
    ∀ (n : Nat) (p : Option Nat), (∀ a ∈ chain mem n p, mem1 a = mem a) →
      chain mem1 n p = chain mem n p := by
  intro n
  induction n with
  | zero => intro p _; simp [chain]
  | succ n ih =>
    intro p h
    cases p with
    | none => simp [chain]
    | some a =>
      simp only [chain] at h ⊢
      have ha : mem1 a = mem a := h a (by simp)
      rw [ha, ih _ (fun b hb => h b (by simp [hb]))]

theorem stack_entries_succ (n : Nat) (s : State W) (t : Nat) (h : stack_top s = some t) :
    stack_entries (n + 1) s = t :: chain s.txn_mem n (s.txn_mem t).parent := by
  simp [stack_entries, h, chain]

theorem current_transaction_eq (s : State W) :
    current_transaction s = (stack_top s).map (fun p => (s.txn_mem p).tid) := by
  unfold current_transaction stack_top
  cases s.tr_stack with
  | none => rfl
  | some st => cases h : st.top <;> simp [h]

/-- The function `begin_transaction` with the lazily allocated stack folded
away. -/
theorem begin_transaction_eq (N : Native W) (K : db_h) (t : Nat) (s : State W) :
    begin_transaction N K t s =
      if s.db_env.isSome = true ∧ (s.db_flags &&& K.DB_INIT_TXN) ≠ 0 then
        if (N.txn_begin s.world (current_transaction s)).1 ≠ 0 then
          (db_status K (N.txn_begin s.world (current_transaction s)).1,
           { s with
             world := (N.txn_begin s.world (current_transaction s)).2.2
             trace := s.trace ++ [.txn_begin (current_transaction s)]
             tr_stack := some ⟨stack_top s⟩ })
        else
          (Ret.TRUE,
           { s with
             world := (N.txn_begin s.world (current_transaction s)).2.2
             trace := s.trace ++ [.txn_begin (current_transaction s)]
             tr_stack := some ⟨some t⟩
             txn_mem := Function.update s.txn_mem t
               ⟨(N.txn_begin s.world (current_transaction s)).2.1, stack_top s⟩ })
      else
        (Ret.raise (.package_int "db" 0 (.text "Not initialized for transactions")), s) := by
  unfold begin_transaction my_tr_stack current_transaction stack_top call_txn_begin
  cases hs : s.tr_stack with
  | none => simp
  | some st =>
    cases ht : st.top with
    | none =>
      have : st = ⟨none⟩ := by cases st; simp_all
      subst this
      simp [hs]
    | some p =>
      have : st = ⟨some p⟩ := by cases st; simp_all
      subst this
      simp [hs]

/-- What a successful `begin_transaction` leaves: the result and the state
spelled out. -/
theorem begin_transaction_ok (N : Native W) (K : db_h) (t : Nat) (s : State W)
    (henv : s.db_env.isSome = true) (hflag : s.db_flags &&& K.DB_INIT_TXN ≠ 0)
    (hrv : (N.txn_begin s.world (current_transaction s)).1 = 0) :
    (begin_transaction N K t s).1 = Ret.TRUE ∧
    (begin_transaction N K t s).2.trace = s.trace ++ [.txn_begin (current_transaction s)] ∧
    (begin_transaction N K t s).2.world = (N.txn_begin s.world (current_transaction s)).2.2 ∧
    stack_top (begin_transaction N K t s).2 = some t ∧
    (begin_transaction N K t s).2.txn_mem =
      Function.update s.txn_mem t
        ⟨(N.txn_begin s.world (current_transaction s)).2.1, stack_top s⟩ := by
  rw [begin_transaction_eq]
  simp [henv, hflag, hrv, stack_top]

/-- A `begin_transaction` that returns `TRUE` ran on an environment with
transactions and got status `0` from `txn_begin`. -/
theorem begin_transaction_true (N : Native W) (K : db_h) (t : Nat) (s : State W)
    (h : (begin_transaction N K t s).1.rc = true) :
    s.db_env.isSome = true ∧ s.db_flags &&& K.DB_INIT_TXN ≠ 0 ∧
    (N.txn_begin s.world (current_transaction s)).1 = 0 := by
  rw [begin_transaction_eq] at h
  by_cases hc : s.db_env.isSome = true ∧ (s.db_flags &&& K.DB_INIT_TXN) ≠ 0
  · rw [if_pos hc] at h
    by_cases hr : (N.txn_begin s.world (current_transaction s)).1 ≠ 0
    · rw [if_pos hr] at h
      exfalso
      simp only [db_status, hr, if_false] at h
      split_ifs at h <;> simp [Ret.raise, Ret.FALSE] at h
    · exact ⟨hc.1, hc.2, not_not.mp hr⟩
  · rw [if_neg hc] at h
    simp [Ret.raise] at h

/-- A `begin_transaction` that does not return `TRUE` leaves the stack pointer
and the transaction memory alone. -/
theorem begin_transaction_fail_frame (N : Native W) (K : db_h) (t : Nat) (s : State W)
    (h : (begin_transaction N K t s).1.rc = false) :
    stack_top (begin_transaction N K t s).2 = stack_top s ∧
    (begin_transaction N K t s).2.txn_mem = s.txn_mem := by
  rw [begin_transaction_eq] at h ⊢
  by_cases hc : s.db_env.isSome = true ∧ (s.db_flags &&& K.DB_INIT_TXN) ≠ 0
  · rw [if_pos hc] at h ⊢
    by_cases hr : (N.txn_begin s.world (current_transaction s)).1 ≠ 0
    · rw [if_pos hr]
      simp [stack_top]
    · rw [if_neg hr] at h
      simp [Ret.TRUE] at h
  · rw [if_neg hc]
    exact ⟨rfl, rfl⟩

theorem db_status_rc_false (K : db_h) (rval : Int) (h : rval ≠ 0) :
    (db_status K rval).rc = false := by
  simp only [db_status, h, if_false]
  split_ifs <;> rfl

/-- The function `commit_transaction` on a state whose top is `t`. -/
theorem commit_transaction_eq (N : Native W) (K : db_h) (t : Nat) (s : State W)
    (htop : stack_top s = some t) :
    commit_transaction N K t s =
      some (if (N.txn_commit s.world (s.txn_mem t).tid).1 ≠ 0
              then db_status K (N.txn_commit s.world (s.txn_mem t).tid).1 else Ret.TRUE,
            { s with
              world := (N.txn_commit s.world (s.txn_mem t).tid).2
              trace := s.trace ++ [.txn_commit (s.txn_mem t).tid]
              tr_stack := some ⟨(s.txn_mem t).parent⟩ }) := by
  unfold stack_top at htop
  unfold commit_transaction my_tr_stack call_txn_commit
  cases hs : s.tr_stack with
  | none => simp [hs] at htop
  | some st =>
    simp only [hs] at htop
    simp only [htop, ne_eq, not_true_eq_false, if_false]
    split_ifs <;> rfl

/-- The function `abort_transaction` on a state whose top is `t`. -/
theorem abort_transaction_eq (N : Native W) (K : db_h) (t : Nat) (s : State W)
    (htop : stack_top s = some t) :
    abort_transaction N K t s =
      some (if (N.txn_abort s.world (s.txn_mem t).tid).1 ≠ 0
              then db_status K (N.txn_abort s.world (s.txn_mem t).tid).1 else Ret.TRUE,
            { s with
              world := (N.txn_abort s.world (s.txn_mem t).tid).2
              trace := s.trace ++ [.txn_abort (s.txn_mem t).tid]
              tr_stack := some ⟨(s.txn_mem t).parent⟩ }) := by
  unfold stack_top at htop
  unfold abort_transaction my_tr_stack call_txn_abort
  cases hs : s.tr_stack with
  | none => simp [hs] at htop
  | some st =>
    simp only [hs] at htop
    simp only [htop, ne_eq, not_true_eq_false, if_false]
    split_ifs <;> rfl

/-- After a successful `begin_transaction(t)` with `t` not on the stack, the
stack is `t` on top of the old one. -/
theorem begin_transaction_entries (N : Native W) (K : db_h) (t : Nat) (s : State W)
    (h : (begin_transaction N K t s).1.rc = true) (n : Nat)
    (hfresh : t ∉ stack_entries n s) :
    stack_entries (n + 1) (begin_transaction N K t s).2 = t :: stack_entries n s := by
  obtain ⟨henv, hflag, hrv⟩ := begin_transaction_true N K t s h
  obtain ⟨-, -, -, htop, hmem⟩ := begin_transaction_ok N K t s henv hflag hrv
  rw [stack_entries_succ n _ t htop, hmem]
  simp only [Function.update_same]
  congr 1
  exact chain_congr _ _ n _ (fun a ha => by
    have : a ≠ t := fun e => hfresh (e ▸ ha)
    simp [Function.update_noteq this])

end transaction_lemmas

/-- C3: with transaction support enabled and `txn_begin` returning `0`,
`begin_transaction(t)` asks the store for a transaction whose parent is the
transaction id of the current top (no parent when the stack is empty);
afterwards the top is `t`, `t.parent` is the previous top, `t.tid` is the id
the store returned, every other `struct transaction` is unchanged, and the
stack is `t` followed by the entries it had (for `t` not already on it). -/
theorem begin_transaction_pushes {W : Type} (N : Native W) (K : db_h) (t : Nat)
    (s : State W) (henv : s.db_env.isSome = true)
    (hflag : s.db_flags &&& K.DB_INIT_TXN ≠ 0)
    (hrv : (N.txn_begin s.world ((stack_top s).map (fun p => (s.txn_mem p).tid))).1 = 0) :
    (begin_transaction N K t s).1 = Ret.TRUE ∧
    (begin_transaction N K t s).2.trace =
      s.trace ++ [.txn_begin ((stack_top s).map (fun p => (s.txn_mem p).tid))] ∧
    stack_top (begin_transaction N K t s).2 = some t ∧
    ((begin_transaction N K t s).2.txn_mem t).parent = stack_top s ∧
    ((begin_transaction N K t s).2.txn_mem t).tid =
      (N.txn_begin s.world ((stack_top s).map (fun p => (s.txn_mem p).tid))).2.1 ∧
    (∀ a, a ≠ t → (begin_transaction N K t s).2.txn_mem a = s.txn_mem a) ∧
    (∀ n, t ∉ stack_entries n s →
      stack_entries (n + 1) (begin_transaction N K t s).2 = t :: stack_entries n s) := by
  rw [← current_transaction_eq] at hrv ⊢
  obtain ⟨h1, h2, -, h4, h5⟩ := begin_transaction_ok N K t s henv hflag hrv
  refine ⟨h1, h2, h4, ?_, ?_, ?_, ?_⟩
  · rw [h5]; simp
  · rw [h5]; simp
  · intro a ha; rw [h5]; simp [Function.update_noteq ha]
  · intro n hn
    exact begin_transaction_entries N K t s (by rw [h1]; rfl) n hn

/-- Witness of C3: the first transaction begun on a fresh environment of the
reference store. -/
theorem begin_transaction_pushes_witness :
    stack_top (begin_transaction (refNative db53) db53 7 txn_state).2 = some 7 ∧
    ((begin_transaction (refNative db53) db53 7 txn_state).2.txn_mem 7).parent = none :=
  have h := begin_transaction_pushes (refNative db53) db53 7 txn_state (by decide)
    (by decide) (by decide)
  ⟨h.2.2.1, h.2.2.2.1⟩

/-- C4: `begin_transaction` raises the not-initialised error when there is no
environment or the environment has no transaction support; a nonzero status of
`txn_begin` makes it fail with the translated status; and every failing begin
leaves the stack pointer, every `struct transaction` and hence the stack as
they were. -/
theorem begin_transaction_failure_keeps_stack {W : Type} (N : Native W) (K : db_h)
    (t : Nat) (s : State W) :
    ((s.db_env = none ∨ s.db_flags &&& K.DB_INIT_TXN = 0) →
      (begin_transaction N K t s).1 =
        ⟨false, some (.package_int "db" 0 (.text "Not initialized for transactions"))⟩ ∧
      (begin_transaction N K t s).2 = s) ∧
    (s.db_env.isSome = true → s.db_flags &&& K.DB_INIT_TXN ≠ 0 →
      (N.txn_begin s.world ((stack_top s).map (fun p => (s.txn_mem p).tid))).1 ≠ 0 →
      (begin_transaction N K t s).1 =
        db_status K (N.txn_begin s.world ((stack_top s).map (fun p => (s.txn_mem p).tid))).1 ∧
      (begin_transaction N K t s).1.rc = false) ∧
    ((begin_transaction N K t s).1.rc = false →
      stack_top (begin_transaction N K t s).2 = stack_top s ∧
      (begin_transaction N K t s).2.txn_mem = s.txn_mem ∧
      ∀ n, stack_entries n (begin_transaction N K t s).2 = stack_entries n s) := by
  refine ⟨?_, ?_, ?_⟩
  · intro h
    have hc : ¬ (s.db_env.isSome = true ∧ (s.db_flags &&& K.DB_INIT_TXN) ≠ 0) := by
      rcases h with h | h
      · simp [h]
      · simp [h]
    rw [begin_transaction_eq, if_neg hc]
    exact ⟨rfl, rfl⟩
  · intro henv hflag hrv
    rw [← current_transaction_eq] at hrv ⊢
    rw [begin_transaction_eq, if_pos ⟨henv, hflag⟩, if_pos hrv]
    exact ⟨rfl, db_status_rc_false K _ hrv⟩
  · intro h
    obtain ⟨h1, h2⟩ := begin_transaction_fail_frame N K t s h
    refine ⟨h1, h2, fun n => ?_⟩
    simp [stack_entries, h1, h2]

/-- Witness of C4: a begin before any environment was initialised. -/
theorem begin_transaction_failure_keeps_stack_witness :
    (begin_transaction (refNative db53) db53 7 (State.init RefWorld.empty)).1 =
      ⟨false, some (.package_int "db" 0 (.text "Not initialized for transactions"))⟩ ∧
    stack_top (begin_transaction (refNative db53) db53 7 (State.init RefWorld.empty)).2 =
      stack_top (State.init RefWorld.empty) :=
  have h := begin_transaction_failure_keeps_stack (refNative db53) db53 7
    (State.init RefWorld.empty)
  ⟨(h.1 (Or.inl rfl)).1, (h.2.2 (by decide)).1⟩

/-! ### Commit and abort -/

/-- C5: for `t` the current top, `commit_transaction(t)` and
`abort_transaction(t)` each pass their assertions, issue the one native call on
`t.tid`, and remove exactly `t` (the new top is `t.parent`, no
`struct transaction` is written, the stack before is `t` followed by the stack
after), whatever status the native call returns; hence after a successful
`begin_transaction(t)` either of them restores the stack top, and restores the
whole stack when `t` was not already on it. -/
theorem commit_abort_consume_top {W : Type} (N : Native W) (K : db_h) (t : Nat) :
    (∀ s : State W, stack_top s = some t →
      (∃ r s1, commit_transaction N K t s = some (r, s1) ∧
        stack_top s1 = (s.txn_mem t).parent ∧ s1.txn_mem = s.txn_mem ∧
        s1.trace = s.trace ++ [.txn_commit (s.txn_mem t).tid] ∧
        ∀ n, stack_entries (n + 1) s = t :: stack_entries n s1) ∧
      (∃ r s1, abort_transaction N K t s = some (r, s1) ∧
        stack_top s1 = (s.txn_mem t).parent ∧ s1.txn_mem = s.txn_mem ∧
        s1.trace = s.trace ++ [.txn_abort (s.txn_mem t).tid] ∧
        ∀ n, stack_entries (n + 1) s = t :: stack_entries n s1)) ∧
    (∀ s0 : State W, (begin_transaction N K t s0).1.rc = true →
      (∃ r s1, commit_transaction N K t (begin_transaction N K t s0).2 = some (r, s1) ∧
        stack_top s1 = stack_top s0 ∧
        ∀ n, t ∉ stack_entries n s0 → stack_entries n s1 = stack_entries n s0) ∧
      (∃ r s1, abort_transaction N K t (begin_transaction N K t s0).2 = some (r, s1) ∧
        stack_top s1 = stack_top s0 ∧
        ∀ n, t ∉ stack_entries n s0 → stack_entries n s1 = stack_entries n s0)) := by
  constructor
  · intro s htop
    constructor
    · refine ⟨_, _, commit_transaction_eq N K t s htop, rfl, rfl, rfl, fun n => ?_⟩
      rw [stack_entries_succ n s t htop]; rfl
    · refine ⟨_, _, abort_transaction_eq N K t s htop, rfl, rfl, rfl, fun n => ?_⟩
      rw [stack_entries_succ n s t htop]; rfl
  · intro s0 hb
    obtain ⟨henv, hflag, hrv⟩ := begin_transaction_true N K t s0 hb
    obtain ⟨-, -, -, htop, hmem⟩ := begin_transaction_ok N K t s0 henv hflag hrv
    have hpar : ((begin_transaction N K t s0).2.txn_mem t).parent = stack_top s0 := by
      rw [hmem]; simp
    have hent : ∀ (s1 : State W), stack_top s1 = stack_top s0 →
        s1.txn_mem = (begin_transaction N K t s0).2.txn_mem →
        ∀ n, t ∉ stack_entries n s0 → stack_entries n s1 = stack_entries n s0 := by
      intro s1 h1 h2 n hn
      unfold stack_entries at hn ⊢
      rw [h1, h2, hmem]
      exact chain_congr _ _ n _ (fun a ha => by
        have : a ≠ t := fun e => hn (e ▸ ha)
        simp [Function.update_noteq this])
    constructor
    · refine ⟨_, _, commit_transaction_eq N K t _ htop, hpar, ?_⟩
      exact hent _ hpar rfl
    · refine ⟨_, _, abort_transaction_eq N K t _ htop, hpar, ?_⟩
      exact hent _ hpar rfl

/-- Witness of C5: begin then commit on a fresh environment of the reference
store leaves the stack empty again. -/
theorem commit_abort_consume_top_witness :
    ∃ r s1, commit_transaction (refNative db53) db53 7
        (begin_transaction (refNative db53) db53 7 txn_state).2 = some (r, s1) ∧
      stack_top s1 = stack_top txn_state ∧
      ∀ n, 7 ∉ stack_entries n txn_state → stack_entries n s1 = stack_entries n txn_state :=
  ((commit_abort_consume_top (refNative db53) db53 7).2 txn_state (by decide)).1

/-! ### Running a unit of work in a transaction -/

section unit_of_work
variable {W : Type}

theorem SameStack.refl_of (s s1 : State W) (h1 : stack_top s1 = stack_top s)
    (h2 : s1.txn_mem = s.txn_mem) : SameStack s s1 :=
  ⟨h1, fun _ _ _ => by rw [h2]⟩

/-- One call of `pl_bdb_transaction` whose begin succeeded and whose unit
returned `g` in state `s2`, having kept the stack. -/
theorem pl_bdb_transaction_step (N : Native W) (K : db_h) (goal : Goal W) (tr : Nat)
    (s : State W) (g : Ret) (s2 : State W)
    (hb : (begin_transaction N K tr s).1.rc = true)
    (hg : goal (begin_transaction N K tr s).2 = some (g, s2))
    (hsame : SameStack (begin_transaction N K tr s).2 s2) :
    stack_top s2 = some tr ∧
    ∃ r s3, pl_bdb_transaction N K goal tr s = some (r, s3) ∧
      s3.trace = s2.trace ++
        [if g.rc = true then .txn_commit ((begin_transaction N K tr s).2.txn_mem tr).tid
         else .txn_abort ((begin_transaction N K tr s).2.txn_mem tr).tid] ∧
      (r.rc = true → g.rc = true) ∧
      stack_top s3 = stack_top s ∧
      ((∀ n, tr ∉ stack_entries n s) → SameStack s s3) := by
  obtain ⟨henv, hflag, hrv⟩ := begin_transaction_true N K tr s hb
  obtain ⟨-, -, -, htop, hmem⟩ := begin_transaction_ok N K tr s henv hflag hrv
  have htop2 : stack_top s2 = some tr := by rw [hsame.1, htop]
  have hcell : s2.txn_mem tr = (begin_transaction N K tr s).2.txn_mem tr :=
    hsame.2 1 tr (by rw [stack_entries_succ 0 _ tr htop]; simp)
  have hpar : (s2.txn_mem tr).parent = stack_top s := by rw [hcell, hmem]; simp
  have hframe : ∀ (s3 : State W), stack_top s3 = stack_top s → s3.txn_mem = s2.txn_mem →
      (∀ n, tr ∉ stack_entries n s) → SameStack s s3 := by
    intro s3 h3 hm hfresh
    refine ⟨h3, fun n a ha => ?_⟩
    have hne : a ≠ tr := fun e => hfresh n (e ▸ ha)
    have hin : a ∈ stack_entries (n + 1) (begin_transaction N K tr s).2 := by
      rw [begin_transaction_entries N K tr s hb n (hfresh n)]
      exact List.mem_cons_of_mem _ ha
    rw [hm, hsame.2 (n + 1) a hin, hmem, Function.update_noteq hne]
  refine ⟨htop2, ?_⟩
  unfold pl_bdb_transaction
  simp only [hb, Bool.not_true, Bool.false_eq_true, if_false, hg]
  by_cases hrc : g.rc = true
  · simp only [hrc, if_true]
    rw [commit_transaction_eq N K tr s2 htop2]
    refine ⟨_, _, rfl, ?_, fun _ => trivial, hpar, hframe _ hpar rfl⟩
    simp [hcell]
  · simp only [hrc, if_false]
    rw [abort_transaction_eq N K tr s2 htop2]
    refine ⟨_, _, rfl, ?_, ?_, hpar, hframe _ hpar rfl⟩
    · simp [hcell]
    · intro h; simp at h

/-- Nested calls of `pl_bdb_transaction` around a unit that keeps the stack
return and keep the stack, when their `struct transaction`s are distinct and
not on the stack. -/
theorem nested_same_stack (N : Native W) (K : db_h) (leaf : Goal W)
    (hleaf : ∀ s1, ∃ g s2, leaf s1 = some (g, s2) ∧ SameStack s1 s2) :
    ∀ (trs : List Nat) (s : State W), trs.Nodup →
      (∀ a ∈ trs, ∀ n, a ∉ stack_entries n s) →
      ∃ r s1, nested N K leaf trs s = some (r, s1) ∧ SameStack s s1 := by
  intro trs
  induction trs with
  | nil => intro s _ _; exact hleaf s
  | cons tr trs ih =>
    intro s hnd hfresh
    have hfr : ∀ n, tr ∉ stack_entries n s := hfresh tr (by simp)
    simp only [nested]
    by_cases hb : (begin_transaction N K tr s).1.rc = true
    · have hin : ∀ a ∈ trs, ∀ n, a ∉ stack_entries n (begin_transaction N K tr s).2 := by
        intro a ha n
        cases n with
        | zero => simp [stack_entries, chain]
        | succ n =>
          rw [begin_transaction_entries N K tr s hb n (hfr n)]
          have hne : a ≠ tr := fun e => (List.nodup_cons.mp hnd).1 (e ▸ ha)
          simp [hne, hfresh a (by simp [ha]) n]
      obtain ⟨g, s2, hg, hsame⟩ := ih _ (List.nodup_cons.mp hnd).2 hin
      obtain ⟨-, r, s3, h3, -, -, -, hss⟩ :=
        pl_bdb_transaction_step N K (nested N K leaf trs) tr s g s2 hb hg hsame
      exact ⟨r, s3, h3, hss hfr⟩
    · have hb1 : (begin_transaction N K tr s).1.rc = false := by
        simpa using hb
      obtain ⟨h1, h2⟩ := begin_transaction_fail_frame N K tr s hb1
      refine ⟨⟨false, (begin_transaction N K tr s).1.exc⟩, (begin_transaction N K tr s).2, ?_,
        SameStack.refl_of _ _ h1 h2⟩
      unfold pl_bdb_transaction
      simp [hb1]

end unit_of_work

/-- C6: when the begin of `pl_bdb_transaction` succeeded and the unit of work
(succeeding, failing or raising) returned with the transaction stack as it
found it, the assertion `stack->top == &tr` holds, exactly one native call
follows the unit, `commit` of the begun transaction if the unit succeeded and
`abort` of it otherwise, the call succeeds only if the unit did, and the stack
top is the one before the call (the whole stack, for a `tr` not already on
it); and nested calls around such a unit, started on an empty stack, end with
an empty stack, on which the assertion of `free_transaction_stack` holds. -/
theorem pl_bdb_transaction_commit_or_abort {W : Type} (N : Native W) (K : db_h) :
    (∀ (goal : Goal W) (tr : Nat) (s : State W) (g : Ret) (s2 : State W),
      (begin_transaction N K tr s).1.rc = true →
      goal (begin_transaction N K tr s).2 = some (g, s2) →
      SameStack (begin_transaction N K tr s).2 s2 →
      stack_top s2 = some tr ∧
      ∃ r s3, pl_bdb_transaction N K goal tr s = some (r, s3) ∧
        s3.trace = s2.trace ++
          [if g.rc = true then .txn_commit ((begin_transaction N K tr s).2.txn_mem tr).tid
           else .txn_abort ((begin_transaction N K tr s).2.txn_mem tr).tid] ∧
        (r.rc = true → g.rc = true) ∧
        stack_top s3 = stack_top s ∧
        ((∀ n, tr ∉ stack_entries n s) → SameStack s s3)) ∧
    (∀ (leaf : Goal W) (trs : List Nat) (s : State W),
      (∀ s1, ∃ g s2, leaf s1 = some (g, s2) ∧ SameStack s1 s2) →
      trs.Nodup → stack_top s = none →
      ∃ r s1, nested N K leaf trs s = some (r, s1) ∧ stack_top s1 = none ∧
        ∀ st, s1.tr_stack = some st → free_transaction_stack st = some ()) := by
  constructor
  · intro goal tr s g s2 hb hg hsame
    exact pl_bdb_transaction_step N K goal tr s g s2 hb hg hsame
  · intro leaf trs s hleaf hnd htop
    have hfresh : ∀ a ∈ trs, ∀ n, a ∉ stack_entries n s := by
      intro a _ n
      cases n <;> simp [stack_entries, htop, chain]
    obtain ⟨r, s1, h1, hs⟩ := nested_same_stack N K leaf hleaf trs s hnd hfresh
    have h2 : stack_top s1 = none := by rw [hs.1, htop]
    refine ⟨r, s1, h1, h2, fun st hst => ?_⟩
    simp only [stack_top, hst] at h2
    simp [free_transaction_stack, h2]

/-- Witness of C6: a failing unit run in a transaction on a fresh environment
of the reference store is followed by exactly the abort of that transaction,
and two nested calls around a succeeding unit end with an empty stack. -/
theorem pl_bdb_transaction_commit_or_abort_witness :
    (∃ r s3, pl_bdb_transaction (refNative db53) db53 goal_fail 7 txn_state = some (r, s3) ∧
      s3.trace = [.txn_begin none, .txn_abort 1] ∧ stack_top s3 = none) ∧
    (∃ r s1, nested (refNative db53) db53 goal_true [7, 8] txn_state = some (r, s1) ∧
      stack_top s1 = none ∧
      ∀ st, s1.tr_stack = some st → free_transaction_stack st = some ()) :=
  have h := pl_bdb_transaction_commit_or_abort (refNative db53) db53
  ⟨by
    obtain ⟨-, r, s3, h1, h2, -, h4, -⟩ :=
      h.1 goal_fail 7 txn_state Ret.FALSE (begin_transaction (refNative db53) db53 7 txn_state).2
        (by decide) rfl (SameStack.refl_of _ _ rfl rfl)
    exact ⟨r, s3, h1, h2, h4⟩,
   h.2 goal_true [7, 8] txn_state
     (fun s1 => ⟨Ret.TRUE, s1, rfl, SameStack.refl_of _ _ rfl rfl⟩) (by decide) rfl⟩

/-! ## Handles -/

section handle_lemmas
variable {W : Type}

theorem get_db_closed (s : State W) (p : Nat) (h : (s.dbh_mem p).symbol = 0) :
    get_db s (.blob p) =
      (Ret.raise (.permission_error "access" "closed_db" (.blob p)), none) := by
  simp [get_db, h]

theorem unify_db_some (t : term_t) (p symbol : Nat) (s : State W) (h : term_t)
    (s2 : State W) (hu : unify_db t p symbol s = (some h, s2)) :
    h = .blob p ∧ (s2.dbh_mem p).symbol = symbol := by
  unfold unify_db at hu
  split at hu
  · simp only [Prod.mk.injEq, Option.some.injEq] at hu
    obtain ⟨h1, h2⟩ := hu
    subst h1 h2
    simp [acquire_db]
  · simp at hu

/-- A successful `pl_bdb_open` ends in `unify_db`: the handle is the blob of
the new `dbh`, whose `symbol` is the atom the host made. -/
theorem pl_bdb_open_true (N : Native W) (K : db_h) (file mode handle options : term_t)
    (p symbol : Nat) (s : State W)
    (h : (pl_bdb_open N K file mode handle options p symbol s).1.rc = true) :
    (pl_bdb_open N K file mode handle options p symbol s).2.1 = .blob p ∧
    ((pl_bdb_open N K file mode handle options p symbol s).2.2.dbh_mem p).symbol = symbol := by
  revert h
  unfold pl_bdb_open
  dsimp only
  repeat' split
  all_goals intro h
  all_goals first
    | (simp [Ret.FALSE, Ret.raise] at h; done)
    | (simp only [db_status_rc_false K _ (by assumption)] at h; simp at h)
    | exact unify_db_some _ _ _ _ _ _ (by assumption)

end handle_lemmas

/-- C7: a handle is open right after a successful `pl_bdb_open` and closed
right after `pl_bdb_close`, whatever status the native close returned; and
on a closed handle `close`, `put`, the 2-argument `del`, `getall` and the first
call of `get`, the 3-argument `del` and `enum` raise the permission error and
leave the state, and with it the trace of store calls, untouched. -/
theorem closed_handle_permission_error {W : Type} (N : Native W) (K : db_h) (H : Host) :
    (∀ (file mode handle options : term_t) (p symbol : Nat) (s : State W),
      symbol ≠ 0 → (pl_bdb_open N K file mode handle options p symbol s).1.rc = true →
      pl_bdb_is_open (pl_bdb_open N K file mode handle options p symbol s).2.2
        (pl_bdb_open N K file mode handle options p symbol s).2.1 = Ret.TRUE) ∧
    (∀ (p : Nat) (s : State W),
      ((pl_bdb_close N K (.blob p) s).2.dbh_mem p).symbol = 0 ∧
      pl_bdb_is_open (pl_bdb_close N K (.blob p) s).2 (.blob p) = Ret.FALSE ∧
      ((s.dbh_mem p).symbol ≠ 0 →
        (pl_bdb_close N K (.blob p) s).1 = db_status K (N.db_close s.world (s.dbh_mem p).db).1 ∧
        (pl_bdb_close N K (.blob p) s).2.trace = s.trace ++ [.db_close (s.dbh_mem p).db])) ∧
    (∀ (p : Nat) (s : State W) (key value : term_t) (fuel : Nat),
      (s.dbh_mem p).symbol = 0 →
      pl_bdb_is_open s (.blob p) = Ret.FALSE ∧
      pl_bdb_close N K (.blob p) s =
        (⟨false, some (.permission_error "access" "closed_db" (.blob p))⟩, s) ∧
      pl_bdb_put N K H (.blob p) key value s =
        (⟨false, some (.permission_error "access" "closed_db" (.blob p))⟩, s) ∧
      pl_bdb_del2 N K H (.blob p) key s =
        (⟨false, some (.permission_error "access" "closed_db" (.blob p))⟩, s) ∧
      pl_bdb_getall N K H fuel (.blob p) key value s =
        some (⟨false, some (.permission_error "access" "closed_db" (.blob p))⟩, none, s) ∧
      pl_bdb_get N K H fuel (.blob p) key value .PL_FIRST_CALL s =
        some (⟨.FALSE, some (.permission_error "access" "closed_db" (.blob p)), key, value⟩, s) ∧
      pl_bdb_del3 N K H fuel (.blob p) key value .PL_FIRST_CALL s =
        some (⟨.FALSE, some (.permission_error "access" "closed_db" (.blob p)), key, value⟩, s) ∧
      pl_bdb_enum N K H fuel (.blob p) key value .PL_FIRST_CALL s =
        some (⟨.FALSE, some (.permission_error "access" "closed_db" (.blob p)), key, value⟩,
              s)) := by
  refine ⟨?_, ?_, ?_⟩
  · intro file mode handle options p symbol s hsym h
    obtain ⟨h1, h2⟩ := pl_bdb_open_true N K file mode handle options p symbol s h
    rw [h1]
    simp [pl_bdb_is_open, h2, hsym]
  · intro p s
    by_cases hs : (s.dbh_mem p).symbol = 0
    · simp [pl_bdb_close, get_db_closed s p hs, pl_bdb_is_open, hs]
    · simp [pl_bdb_close, get_db, hs, pl_bdb_is_open, call_db_close]
  · intro p s key value fuel hs
    have hg := get_db_closed s p hs
    refine ⟨?_, ?_, ?_, ?_, ?_, ?_, ?_, ?_⟩
    · simp [pl_bdb_is_open, hs]
    · simp [pl_bdb_close, hg, Ret.raise]
    · simp [pl_bdb_put, hg, Ret.raise]
    · simp [pl_bdb_del2, hg, Ret.raise]
    · simp [pl_bdb_getall, hg, Ret.raise]
    · simp [pl_bdb_get, pl_bdb_getdel, hg, Ret.raise]
    · simp [pl_bdb_del3, pl_bdb_getdel, hg, Ret.raise]
    · simp [pl_bdb_enum, hg, Ret.raise]

/-- Witness of C7 on the reference store: a store opened for update is open,
and a put through a handle that was never opened is refused. -/
theorem closed_handle_permission_error_witness :
    pl_bdb_is_open
      (pl_bdb_open (refNative db53) db53 (.atom (txt "f.db")) (.atom (txt "update")) .var .nil
        5 9 (State.init RefWorld.empty)).2.2
      (pl_bdb_open (refNative db53) db53 (.atom (txt "f.db")) (.atom (txt "update")) .var .nil
        5 9 (State.init RefWorld.empty)).2.1 = Ret.TRUE ∧
    pl_bdb_put (refNative db53) db53 host64 (.blob 3) (.atom [97]) (.atom [98])
        (State.init RefWorld.empty) =
      (⟨false, some (.permission_error "access" "closed_db" (.blob 3))⟩,
       State.init RefWorld.empty) :=
  have h := closed_handle_permission_error (refNative db53) db53 host64
  ⟨h.1 (.atom (txt "f.db")) (.atom (txt "update")) .var .nil 5 9 (State.init RefWorld.empty)
     (by decide) (by decide),
   (h.2.2 3 (State.init RefWorld.empty) (.atom [97]) (.atom [98]) 0 rfl).2.2.1⟩

/-! ## The cursor engine on the reference store -/

section store_lemmas

theorem PL_unify_var (r : term_t) : PL_unify .var r = some r := by
  cases r <;> simp [PL_unify]

theorem unify_dbt_var (H : Host) (ty : dtype) (d : DBT) :
    (unify_dbt H .var ty d).isSome = true := by
  cases ty <;> simp [unify_dbt, PL_unify_chars, PL_unify_var]

theorem get_dbt_wf (H : Host) (t : term_t) (ty : dtype) :
    (get_dbt H t ty).2.size ≤ (get_dbt H t ty).2.data.length := by
  cases ty <;> simp only [get_dbt]
  · simp
  · split <;> simp [DBT.zero]
  · split <;> simp [DBT.zero]
  · split <;> simp [DBT.zero]
  · split <;> simp [DBT.zero, long_bytes]
    split <;> simp

theorem equal_dbt_of (a : DBT) (rk : List Nat) (h : a.size ≤ a.data.length) :
    equal_dbt a (DBT.of rk) = true ↔ rk = a.bytes := by
  unfold equal_dbt DBT.of DBT.bytes
  simp only
  constructor
  · intro he
    split at he
    · rename_i hs
      split at he
      · rename_i hd
        rw [hd, hs]; simp
      · split at he
        · rename_i hd
          rw [hd, hs]; simp
        · simp at he
    · simp at he
  · intro hk
    have hl : a.size = rk.length := by
      rw [hk, List.length_take]; omega
    rw [if_pos hl]
    split
    · rfl
    · rw [if_pos]
      rw [← hk, hl]; simp

end store_lemmas

section ref_steps

theorem db_status_notfound (K : db_h) (hK : K.Valid) :
    db_status K K.DB_NOTFOUND = ⟨false, none⟩ := by
  obtain ⟨hn, -, -, -, -, hnd, hnr, -⟩ := hK
  simp [db_status, Ret.FALSE, hn.ne, hnd, hnr, hn]

theorem db_status_zero (K : db_h) : db_status K 0 = ⟨true, none⟩ := by
  simp [db_status, Ret.TRUE]

theorem Stands.snoc {w w1 : RefWorld} {c : DBC} {db : DB} {front rest : List Rec} {r : Rec}
    (hr : w.recs db = front ++ r :: rest) (h1 : w1.recs = w.recs)
    (hc : w1.cursors c = some ⟨db, .on front.length⟩) :
    Stands w1 c db (front ++ [r]) rest :=
  ⟨.on front.length, hc, by rw [h1, hr]; simp, by simp [CPos.next]⟩

theorem call_next_cons (K : db_h) (s : State RefWorld) (c : DBC) (db : DB)
    (front rest : List Rec) (r : Rec) (k d : DBT)
    (h : Stands s.world c db front (r :: rest)) :
    ∃ s1, call_c_get (refNative K) s c k d .DB_NEXT = (0, DBT.of r.key, DBT.of r.data, s1) ∧
      s1.dbh_mem = s.dbh_mem ∧ s1.world.recs = s.world.recs ∧
      s1.world.cursors c = some ⟨db, .on front.length⟩ := by
  obtain ⟨pos, hc, hr, hn⟩ := h
  have hg : (s.world.recs db)[front.length]? = some r := by
    rw [hr, List.getElem?_append_right (le_refl _)]; simp
  refine ⟨(call_c_get (refNative K) s c k d .DB_NEXT).2.2.2, ?_, ?_, ?_, ?_⟩ <;>
    simp [call_c_get, refNative, ref_c_get, hc, hg, hn]

theorem call_next_nil (K : db_h) (s : State RefWorld) (c : DBC) (db : DB)
    (front : List Rec) (k d : DBT) (h : Stands s.world c db front []) :
    ∃ s1, call_c_get (refNative K) s c k d .DB_NEXT = (K.DB_NOTFOUND, k, d, s1) ∧
      s1.dbh_mem = s.dbh_mem ∧ s1.world = s.world := by
  obtain ⟨pos, hc, hr, hn⟩ := h
  have hg : (s.world.recs db)[pos.next]? = none := by
    rw [hr, hn]; simp
  refine ⟨(call_c_get (refNative K) s c k d .DB_NEXT).2.2.2, ?_, ?_, ?_⟩ <;>
    simp [call_c_get, refNative, ref_c_get, hc, hg]

theorem call_del_on (K : db_h) (s : State RefWorld) (c : DBC) (db : DB)
    (front rest : List Rec) (r : Rec)
    (hc : s.world.cursors c = some ⟨db, .on front.length⟩)
    (hr : s.world.recs db = front ++ r :: rest) :
    ∃ s1, call_c_del (refNative K) s c = (0, s1) ∧
      Stands s1.world c db front rest ∧ s1.dbh_mem = s.dbh_mem ∧
      (∀ d1, d1 ≠ db → s1.world.recs d1 = s.world.recs d1) := by
  have hlt : front.length < (s.world.recs db).length := by rw [hr]; simp
  have he : (front ++ r :: rest).eraseIdx front.length = front ++ rest := by
    rw [List.eraseIdx_append_of_length_le (le_refl _)]; simp
  refine ⟨(call_c_del (refNative K) s c).2, ?_, ⟨.gone front.length, ?_, ?_, rfl⟩, ?_, ?_⟩
  · simp [call_c_del, refNative, ref_c_del, hc, hlt]
  · simp [call_c_del, refNative, ref_c_del, hc, hlt, RefWorld.move, CPos.after_delete]
  · simp [call_c_del, refNative, ref_c_del, hc, hlt, hr, he]
  · simp [call_c_del, refNative, ref_c_del, hc, hlt]
  · intro d1 hd
    simp [call_c_del, refNative, ref_c_del, hc, hlt, Function.update_noteq hd]

theorem call_close_open (K : db_h) (s : State RefWorld) (c : DBC) (cur : RefCursor)
    (hc : s.world.cursors c = some cur) :
    ∃ s1, call_c_close (refNative K) s c = (0, s1) ∧
      s1.world.cursors c = none ∧ s1.world.recs = s.world.recs ∧
      s1.dbh_mem = s.dbh_mem := by
  refine ⟨(call_c_close (refNative K) s c).2, ?_, ?_, ?_, ?_⟩ <;>
    simp [call_c_close, refNative, hc]

theorem getdel_out_ref (K : db_h) (c : dbget_ctx) (rval : Int) (key value : term_t)
    (s : State RefWorld) (cur : RefCursor) (hc : s.world.cursors c.cursor = some cur) :
    ∃ s1, getdel_out (refNative K) K c rval key value s =
        (⟨.FALSE, (db_status K rval).exc, key, value⟩, s1) ∧
      s1.world.recs = s.world.recs ∧ s1.world.cursors c.cursor = none ∧
      s1.dbh_mem = s.dbh_mem := by
  obtain ⟨s1, g1, g2, g3, g4⟩ := call_close_open K s c.cursor cur hc
  refine ⟨release (release s1 (.free_dbt c.key)) (.free_ctx c.cursor), ?_, g3, g2, g4⟩
  simp only [getdel_out, g1]
  by_cases h : rval = 0 <;> simp [h]

theorem enum_out_ref (K : db_h) (c : dbget_ctx) (rval : Int) (key value : term_t)
    (s : State RefWorld) (cur : RefCursor) (hc : s.world.cursors c.cursor = some cur) :
    ∃ s1, enum_out (refNative K) K c rval key value s =
        (⟨.FALSE, (db_status K rval).exc, key, value⟩, s1) ∧
      s1.world.recs = s.world.recs ∧ s1.world.cursors c.cursor = none ∧
      s1.dbh_mem = s.dbh_mem := by
  obtain ⟨s1, g1, g2, g3, g4⟩ := call_close_open K s c.cursor cur hc
  refine ⟨release s1 (.free_ctx c.cursor), ?_, g3, g2, g4⟩
  simp only [enum_out, g1]
  by_cases h : rval = 0 <;> simp [h]

/-- The driver on a reply that is `FALSE`. -/
theorem resume_false {W : Type}
    (next : dbget_ctx → State W → Option (List (term_t × term_t) × Option PlError × State W))
    (r : Reply) (s1 : State W) (h : r.ret = .FALSE) :
    resume next (some (r, s1)) = some ([], r.exc, s1) := by
  simp [resume, h]

/-- The driver on a reply that left a choice point. -/
theorem resume_retry {W : Type}
    (next : dbget_ctx → State W → Option (List (term_t × term_t) × Option PlError × State W))
    (r : Reply) (s1 : State W) (c : dbget_ctx) (h : r.ret = .retry c)
    (ys : List (term_t × term_t)) (e : Option PlError) (s2 : State W)
    (hn : next c s1 = some (ys, e, s2)) :
    resume next (some (r, s1)) = some ((r.key, r.value) :: ys, e, s2) := by
  simp [resume, h, hn]

end ref_steps

theorem solutions_succ {W : Type} (call : control_t → State W → Option (Reply × State W))
    (n : Nat) (ctl : control_t) (s : State W) :
    solutions call (n + 1) ctl s =
      resume (fun c s1 => solutions call n (.PL_REDO c) s1) (call ctl s) := rfl

theorem getdel_walk (K : db_h) (hK : K.Valid) (H : Host) (del : Bool) (d : dbh)
    (key value : term_t) (M : Nat) (db : DB)
    (call : control_t → State RefWorld → Option (Reply × State RefWorld))
    (hcall : ∀ c s, call (.PL_REDO c) s =
      getdel_retry (refNative K) K H del (s.dbh_mem c.db) key value M c s) :
    ∀ (rest front : List Rec) (m n : Nat) (c : dbget_ctx) (s : State RefWorld),
      Stands s.world c.cursor db front rest →
      s.dbh_mem c.db = d →
      c.key.size ≤ c.key.data.length →
      rest.length < m → rest.length < M → rest.length ≤ n →
      ∃ s1,
        resume (fun c1 s2 => solutions call n (.PL_REDO c1) s2)
            (getdel_retry (refNative K) K H del d key value m c s) =
          some (((rest.takeWhile (fun r => decide (r.key = c.key.bytes))).filterMap
                  (fun r => unify_dbt H value d.value_type (DBT.of r.data))).map
                    (fun v => (key, v)),
                none, s1) ∧
        s1.world.recs db = front ++
          (if del = true then
            (rest.takeWhile (fun r => decide (r.key = c.key.bytes))).filter
              (fun r => (unify_dbt H value d.value_type (DBT.of r.data)).isNone)
           else rest.takeWhile (fun r => decide (r.key = c.key.bytes))) ++
          rest.dropWhile (fun r => decide (r.key = c.key.bytes)) ∧
        (∀ d1, d1 ≠ db → s1.world.recs d1 = s.world.recs d1) ∧
        s1.world.cursors c.cursor = none ∧
        s1.dbh_mem = s.dbh_mem := by
  intro rest
  induction rest with
  | nil =>
    intro front m n c s hst hd hwf hm hM hn
    obtain ⟨m, rfl⟩ : ∃ m1, m = m1 + 1 := ⟨m - 1, by simp at hm; omega⟩
    obtain ⟨s1, h1, h2, h3⟩ := call_next_nil K s c.cursor db front c.k2 c.value hst
    have hnz : K.DB_NOTFOUND ≠ 0 := hK.1.ne
    obtain ⟨pos, hcur, hrecs, -⟩ := hst
    obtain ⟨s2, o1, o2, o3, o4⟩ := getdel_out_ref K { c with k2 := c.k2, value := c.value }
      K.DB_NOTFOUND key value s1 ⟨db, pos⟩ (by rw [h3]; exact hcur)
    refine ⟨s2, ?_, ?_, ?_, ?_, ?_⟩
    · simp only [getdel_retry, h1, hnz, false_and, if_false, o1]
      rw [resume_false _ _ _ rfl]
      simp [db_status_notfound K hK]
    · rw [o2, h3, hrecs]; simp
    · intro d1 _; rw [o2, h3]
    · exact o3
    · rw [o4, h2]
  | cons r rest ih =>
    intro front m n c s hst hd hwf hm hM hn
    obtain ⟨m, rfl⟩ : ∃ m1, m = m1 + 1 := ⟨m - 1, by omega⟩
    simp only [List.length_cons] at hm hM hn
    obtain ⟨s1, h1, h2, h3, h4⟩ := call_next_cons K s c.cursor db front rest r c.k2 c.value hst
    obtain ⟨pos, hcur, hrecs, hpos⟩ := hst
    have hst1 : Stands s1.world c.cursor db (front ++ [r]) rest := Stands.snoc hrecs h3 h4
    by_cases hk : r.key = c.key.bytes
    · have heq : equal_dbt c.key (DBT.of r.key) = true := (equal_dbt_of c.key r.key hwf).mpr hk
      cases hu : unify_dbt H value d.value_type (DBT.of r.data) with
      | none =>
        obtain ⟨s2, g1, g2, g3, g4, g5⟩ := ih (front ++ [r]) m n
          { c with k2 := DBT.of r.key, value := DBT.of r.data } s1 hst1
          (by rw [h2]; exact hd) hwf (by omega) (by omega) (by omega)
        refine ⟨s2, ?_, ?_, ?_, ?_, ?_⟩
        · simp only [getdel_retry, h1, heq, and_self, if_true, hu]
          rw [g1]
          simp [hk, hu]
        · rw [g2]
          cases del <;> simp [hk, hu]
        · intro d1 hd1; rw [g3 d1 hd1, h3]
        · exact g4
        · rw [g5, h2]
      | some v =>
        obtain ⟨n, rfl⟩ : ∃ n1, n = n1 + 1 := ⟨n - 1, by omega⟩
        cases del with
        | true =>
          obtain ⟨s2, e1, e2, e3, e4⟩ := call_del_on K s1 c.cursor db front rest r h4
            (by rw [h3]; exact hrecs)
          obtain ⟨s3, g1, g2, g3, g4, g5⟩ := ih front M n
            { c with k2 := DBT.of r.key, value := DBT.of r.data } s2 e2
            (by rw [e3, h2]; exact hd) hwf (by omega) (by omega) (by omega)
          have hdb : ∀ c1 : dbget_ctx, c1.db = c.db → s2.dbh_mem c1.db = d := by
            intro c1 h; rw [h, e3, h2]; exact hd
          have e0 : solutions call (n + 1)
              (.PL_REDO { c with k2 := DBT.of r.key, value := DBT.of r.data }) s2 =
              resume (fun c1 s2 => solutions call n (.PL_REDO c1) s2)
                (getdel_retry (refNative K) K H true d key value M
                  { c with k2 := DBT.of r.key, value := DBT.of r.data } s2) := by
            rw [solutions_succ, hcall, hdb _ rfl]
          have hnext := e0.trans g1
          refine ⟨s3, ?_, ?_, ?_, ?_, ?_⟩
          · simp only [getdel_retry, h1, heq, and_self, if_true, hu, getdel_yield, e1]
            rw [resume_retry _ _ _ _ rfl _ _ _ hnext]
            simp [hk, hu]
          · rw [g2]; simp [hk, hu]
          · intro d1 hd1; rw [g3 d1 hd1, e4 d1 hd1, h3]
          · exact g4
          · rw [g5, e3, h2]
        | false =>
          obtain ⟨s3, g1, g2, g3, g4, g5⟩ := ih (front ++ [r]) M n
            { c with k2 := DBT.of r.key, value := DBT.of r.data } s1 hst1
            (by rw [h2]; exact hd) hwf (by omega) (by omega) (by omega)
          have hdb : ∀ c1 : dbget_ctx, c1.db = c.db → s1.dbh_mem c1.db = d := by
            intro c1 h; rw [h, h2]; exact hd
          have e0 : solutions call (n + 1)
              (.PL_REDO { c with k2 := DBT.of r.key, value := DBT.of r.data }) s1 =
              resume (fun c1 s2 => solutions call n (.PL_REDO c1) s2)
                (getdel_retry (refNative K) K H false d key value M
                  { c with k2 := DBT.of r.key, value := DBT.of r.data } s1) := by
            rw [solutions_succ, hcall, hdb _ rfl]
          have hnext := e0.trans g1
          refine ⟨s3, ?_, ?_, ?_, ?_, ?_⟩
          · simp only [getdel_retry, h1, heq, and_self, if_true, hu, getdel_yield]
            rw [resume_retry _ _ _ _ rfl _ _ _ hnext]
            simp [hk, hu]
          · rw [g2]; simp [hk]
          · intro d1 hd1; rw [g3 d1 hd1, h3]
          · exact g4
          · rw [g5, h2]
    · have hne : equal_dbt c.key (DBT.of r.key) = false := by
        cases h : equal_dbt c.key (DBT.of r.key) with
        | false => rfl
        | true => exact absurd ((equal_dbt_of c.key r.key hwf).mp h) hk
      obtain ⟨s2, o1, o2, o3, o4⟩ := getdel_out_ref K
        { c with k2 := DBT.of r.key, value := DBT.of r.data } 0 key value s1 ⟨db, .on front.length⟩ h4
      refine ⟨s2, ?_, ?_, ?_, ?_, ?_⟩
      · simp only [getdel_retry, h1, hne, Bool.false_eq_true, and_false, if_false, o1]
        rw [resume_false _ _ _ rfl]
        simp [hk, db_status_zero]
      · rw [o2, h3, hrecs]; simp [hk]
      · intro d1 _; rw [o2, h3]
      · exact o3
      · rw [o4, h2]

theorem call_cursor_ref (K : db_h) (s : State RefWorld) (db : DB) (txn : Option DB_TXN) :
    ∃ s1, call_cursor (refNative K) s db txn = (0, s.world.next_cursor, s1) ∧
      s1.dbh_mem = s.dbh_mem ∧ s1.db_flags = s.db_flags ∧ s1.world.recs = s.world.recs ∧
      s1.world.cursors s.world.next_cursor = some ⟨db, .unset⟩ := by
  refine ⟨(call_cursor (refNative K) s db txn).2.2, ?_, ?_, ?_, ?_, ?_⟩ <;>
    simp [call_cursor, refNative]

theorem split_at_key (kb : List Nat) (R : List Rec) (r : Rec) (rest : List Rec)
    (hR : R.dropWhile (fun x => decide (x.key ≠ kb)) = r :: rest) :
    R = before_key kb R ++ r :: rest ∧ r.key = kb := by
  constructor
  · rw [← hR]
    exact (List.takeWhile_append_dropWhile _ R).symm
  · have h := List.head_dropWhile_not (fun x => decide (x.key ≠ kb)) R (by rw [hR]; simp)
    simp only [hR, List.head_cons] at h
    simpa using h

theorem call_set_found (K : db_h) (s : State RefWorld) (c : DBC) (db : DB) (pos : CPos)
    (kd d : DBT) (r : Rec) (rest : List Rec)
    (hc : s.world.cursors c = some ⟨db, pos⟩)
    (hR : (s.world.recs db).dropWhile (fun x => decide (x.key ≠ kd.bytes)) = r :: rest) :
    ∃ s1, call_c_get (refNative K) s c kd d .DB_SET = (0, kd, DBT.of r.data, s1) ∧
      s1.dbh_mem = s.dbh_mem ∧ s1.world.recs = s.world.recs ∧
      s1.world.cursors c =
        some ⟨db, .on (before_key kd.bytes (s.world.recs db)).length⟩ := by
  obtain ⟨h1, -⟩ := split_at_key kd.bytes (s.world.recs db) r rest hR
  have hg : (s.world.recs db)[(before_key kd.bytes (s.world.recs db)).length]? = some r := by
    conv_lhs => rw [h1]
    have hb : before_key kd.bytes (before_key kd.bytes (s.world.recs db) ++ r :: rest) =
        before_key kd.bytes (s.world.recs db) := by rw [← h1]
    rw [hb, List.getElem?_append_right (le_refl _)]
    simp
  refine ⟨(call_c_get (refNative K) s c kd d .DB_SET).2.2.2, ?_, ?_, ?_, ?_⟩ <;>
    simp [call_c_get, refNative, ref_c_get, hc, hg]

theorem call_set_missing (K : db_h) (s : State RefWorld) (c : DBC) (db : DB) (pos : CPos)
    (kd d : DBT) (hc : s.world.cursors c = some ⟨db, pos⟩)
    (hR : (s.world.recs db).dropWhile (fun x => decide (x.key ≠ kd.bytes)) = []) :
    ∃ s1, call_c_get (refNative K) s c kd d .DB_SET = (K.DB_NOTFOUND, kd, d, s1) ∧
      s1.dbh_mem = s.dbh_mem ∧ s1.world = s.world := by
  have ht : before_key kd.bytes (s.world.recs db) = s.world.recs db := by
    have := List.takeWhile_append_dropWhile (fun x => decide (x.key ≠ kd.bytes)) (s.world.recs db)
    rw [hR, List.append_nil] at this
    exact this
  have hg : (s.world.recs db)[(before_key kd.bytes (s.world.recs db)).length]? = none := by
    rw [ht]; simp
  refine ⟨(call_c_get (refNative K) s c kd d .DB_SET).2.2.2, ?_, ?_, ?_⟩ <;>
    simp [call_c_get, refNative, ref_c_get, hc, hg]

theorem solutions_redo_getdel {W : Type} (N : Native W) (K : db_h) (H : Host) (M : Nat)
    (handle key value : term_t) (del : Bool) (n : Nat) (c : dbget_ctx) (s : State W) :
    solutions (fun ctl s2 => pl_bdb_getdel N K H M handle key value ctl del s2) (n + 1)
        (.PL_REDO c) s =
      resume (fun c1 s1 => solutions
          (fun ctl s2 => pl_bdb_getdel N K H M handle key value ctl del s2) n (.PL_REDO c1) s1)
        (getdel_retry N K H del (s.dbh_mem c.db) key value M c s) := rfl

theorem getdel_solutions (K : db_h) (hK : K.Valid) (H : Host) (del : Bool)
    (s : State RefWorld) (p : Nat) (key value : term_t) (kd : DBT) (M n : Nat)
    (hopen : (s.dbh_mem p).symbol ≠ 0) (hdup : (s.dbh_mem p).duplicates = true)
    (hkey : get_dbt H key (s.dbh_mem p).key_type = (Ret.TRUE, kd))
    (hM : (s.world.recs (s.dbh_mem p).db).length < M)
    (hn : (s.world.recs (s.dbh_mem p).db).length < n) :
    ∃ s1,
      solutions (fun ctl s2 => pl_bdb_getdel (refNative K) K H M (.blob p) key value ctl del s2)
          n .PL_FIRST_CALL s =
        some (((((s.world.recs (s.dbh_mem p).db).dropWhile
                  (fun r => decide (r.key ≠ kd.bytes))).takeWhile
                  (fun r => decide (r.key = kd.bytes))).filterMap
                (fun r => unify_dbt H value (s.dbh_mem p).value_type (DBT.of r.data))).map
                  (fun v => (key, v)),
              none, s1) ∧
      s1.world.recs (s.dbh_mem p).db =
        before_key kd.bytes (s.world.recs (s.dbh_mem p).db) ++
          (if del = true then
            (((s.world.recs (s.dbh_mem p).db).dropWhile
                (fun r => decide (r.key ≠ kd.bytes))).takeWhile
                (fun r => decide (r.key = kd.bytes))).filter
              (fun r => (unify_dbt H value (s.dbh_mem p).value_type (DBT.of r.data)).isNone)
           else ((s.world.recs (s.dbh_mem p).db).dropWhile
                (fun r => decide (r.key ≠ kd.bytes))).takeWhile
                (fun r => decide (r.key = kd.bytes))) ++
          ((s.world.recs (s.dbh_mem p).db).dropWhile
              (fun r => decide (r.key ≠ kd.bytes))).dropWhile
            (fun r => decide (r.key = kd.bytes)) ∧
      (∀ d1, d1 ≠ (s.dbh_mem p).db → s1.world.recs d1 = s.world.recs d1) ∧
      s1.world.cursors s.world.next_cursor = none ∧
      s1.dbh_mem = s.dbh_mem := by
  obtain ⟨n, rfl⟩ : ∃ n1, n = n1 + 1 := ⟨n - 1, by omega⟩
  have hwf : kd.size ≤ kd.data.length := by
    have := get_dbt_wf H key (s.dbh_mem p).key_type
    rw [hkey] at this; exact this
  obtain ⟨sc, hcr, c1, c2, c3, c4⟩ :=
    call_cursor_ref K s (s.dbh_mem p).db (current_transaction s)
  have hcall : ∀ (c : dbget_ctx) (s2 : State RefWorld),
      (fun ctl s2 => pl_bdb_getdel (refNative K) K H M (.blob p) key value ctl del s2)
        (.PL_REDO c) s2 =
      getdel_retry (refNative K) K H del (s2.dbh_mem c.db) key value M c s2 := fun _ _ => rfl
  have hfirst : pl_bdb_getdel (refNative K) K H M (.blob p) key value .PL_FIRST_CALL del s =
      (if (call_c_get (refNative K) sc s.world.next_cursor kd DBT.zero .DB_SET).1 = 0 then
        match unify_dbt H value (s.dbh_mem p).value_type
            (call_c_get (refNative K) sc s.world.next_cursor kd DBT.zero .DB_SET).2.2.1 with
        | some v1 => some (getdel_yield (refNative K) K del
            ⟨p, s.world.next_cursor,
              (call_c_get (refNative K) sc s.world.next_cursor kd DBT.zero .DB_SET).2.1, DBT.zero,
              (call_c_get (refNative K) sc s.world.next_cursor kd DBT.zero .DB_SET).2.2.1⟩
            key v1 value
            (call_c_get (refNative K) sc s.world.next_cursor kd DBT.zero .DB_SET).2.2.2)
        | none => getdel_retry (refNative K) K H del (s.dbh_mem p) key value M
            ⟨p, s.world.next_cursor,
              (call_c_get (refNative K) sc s.world.next_cursor kd DBT.zero .DB_SET).2.1, DBT.zero,
              (call_c_get (refNative K) sc s.world.next_cursor kd DBT.zero .DB_SET).2.2.1⟩
            (call_c_get (refNative K) sc s.world.next_cursor kd DBT.zero .DB_SET).2.2.2
      else some (getdel_out (refNative K) K
            ⟨p, s.world.next_cursor,
              (call_c_get (refNative K) sc s.world.next_cursor kd DBT.zero .DB_SET).2.1, DBT.zero,
              (call_c_get (refNative K) sc s.world.next_cursor kd DBT.zero .DB_SET).2.2.1⟩
            (call_c_get (refNative K) sc s.world.next_cursor kd DBT.zero .DB_SET).1 key value
            (call_c_get (refNative K) sc s.world.next_cursor kd DBT.zero .DB_SET).2.2.2)) := by
    simp [pl_bdb_getdel, get_db, hopen, hdup, hcr, hkey, Ret.TRUE]
  rw [solutions_succ]
  simp only [hfirst]
  cases hR : (s.world.recs (s.dbh_mem p).db).dropWhile (fun r => decide (r.key ≠ kd.bytes)) with
  | nil =>
    obtain ⟨sg, hg, g1, g2⟩ := call_set_missing K sc s.world.next_cursor (s.dbh_mem p).db
      .unset kd DBT.zero c4 (by rw [c3]; exact hR)
    obtain ⟨so, o1, o2, o3, o4⟩ := getdel_out_ref K
      ⟨p, s.world.next_cursor, kd, DBT.zero, DBT.zero⟩ K.DB_NOTFOUND key value sg
      ⟨(s.dbh_mem p).db, .unset⟩ (by rw [g2]; exact c4)
    have ht : before_key kd.bytes (s.world.recs (s.dbh_mem p).db) =
        s.world.recs (s.dbh_mem p).db := by
      have := List.takeWhile_append_dropWhile (fun x => decide (x.key ≠ kd.bytes))
        (s.world.recs (s.dbh_mem p).db)
      rw [hR, List.append_nil] at this
      exact this
    refine ⟨so, ?_, ?_, ?_, ?_, ?_⟩
    · simp only [hg, hK.1.ne, if_false, o1]
      rw [resume_false _ _ _ rfl]
      simp [db_status_notfound K hK]
    · rw [o2, g2, c3, ht]; simp
    · intro d1 _; rw [o2, g2, c3]
    · exact o3
    · rw [o4, g1, c1]
  | cons r rest =>
    obtain ⟨sg, hg, g1, g2, g3⟩ := call_set_found K sc s.world.next_cursor (s.dbh_mem p).db
      .unset kd DBT.zero r rest c4 (by rw [c3]; exact hR)
    rw [c3] at g3
    obtain ⟨hsplit, hrk⟩ := split_at_key kd.bytes _ r rest hR
    have hlen : rest.length + 1 ≤ (s.world.recs (s.dbh_mem p).db).length := by
      conv_rhs => rw [hsplit]
      simp
    have hst1 : Stands sg.world s.world.next_cursor (s.dbh_mem p).db
        (before_key kd.bytes (s.world.recs (s.dbh_mem p).db) ++ [r]) rest :=
      Stands.snoc hsplit (by rw [g2, c3]) g3
    simp only [hg, if_true]
    cases hu : unify_dbt H value (s.dbh_mem p).value_type (DBT.of r.data) with
    | none =>
      obtain ⟨s3, w1, w2, w3, w4, w5⟩ := getdel_walk K hK H del (s.dbh_mem p) key value M
        (s.dbh_mem p).db
        (fun ctl s2 => pl_bdb_getdel (refNative K) K H M (.blob p) key value ctl del s2)
        hcall rest _ M n
        ⟨p, s.world.next_cursor, kd, DBT.zero, DBT.of r.data⟩ sg hst1
        (by rw [g1, c1]) hwf (by omega) (by omega) (by omega)
      refine ⟨s3, ?_, ?_, ?_, ?_, ?_⟩
      · simp only [hu]
        rw [w1]
        simp [hrk, hu]
      · rw [w2]
        cases del <;> simp [hrk, hu]
      · intro d1 hd1; rw [w3 d1 hd1, g2, c3]
      · exact w4
      · rw [w5, g1, c1]
    | some v =>
      obtain ⟨n, rfl⟩ : ∃ n1, n = n1 + 1 := ⟨n - 1, by omega⟩
      cases del with
      | true =>
        obtain ⟨sd, e1, e2, e3, e4⟩ := call_del_on K sg s.world.next_cursor (s.dbh_mem p).db
          (before_key kd.bytes (s.world.recs (s.dbh_mem p).db)) rest r g3
          (by rw [g2, c3]; exact hsplit)
        obtain ⟨s3, w1, w2, w3, w4, w5⟩ := getdel_walk K hK H true (s.dbh_mem p) key value M
          (s.dbh_mem p).db
          (fun ctl s2 => pl_bdb_getdel (refNative K) K H M (.blob p) key value ctl true s2)
          hcall rest _ M n
          ⟨p, s.world.next_cursor, kd, DBT.zero, DBT.of r.data⟩ sd e2
          (by rw [e3, g1, c1]) hwf (by omega) (by omega) (by omega)
        have hnext : solutions (fun ctl s2 =>
              pl_bdb_getdel (refNative K) K H M (.blob p) key value ctl true s2) (n + 1)
            (.PL_REDO ⟨p, s.world.next_cursor, kd, DBT.zero, DBT.of r.data⟩) sd = _ :=
          (show _ = resume _ (getdel_retry (refNative K) K H true (s.dbh_mem p) key value M
              ⟨p, s.world.next_cursor, kd, DBT.zero, DBT.of r.data⟩ sd) by
            rw [solutions_redo_getdel]
            simp only [e3, g1, c1]).trans w1
        refine ⟨s3, ?_, ?_, ?_, ?_, ?_⟩
        · simp only [hu, getdel_yield, e1]
          rw [resume_retry _ _ _ _ rfl _ _ _ hnext]
          simp [hrk, hu]
        · rw [w2]; simp [hrk, hu]
        · intro d1 hd1; rw [w3 d1 hd1, e4 d1 hd1, g2, c3]
        · exact w4
        · rw [w5, e3, g1, c1]
      | false =>
        obtain ⟨s3, w1, w2, w3, w4, w5⟩ := getdel_walk K hK H false (s.dbh_mem p) key value M
          (s.dbh_mem p).db
          (fun ctl s2 => pl_bdb_getdel (refNative K) K H M (.blob p) key value ctl false s2)
          hcall rest _ M n
          ⟨p, s.world.next_cursor, kd, DBT.zero, DBT.of r.data⟩ sg hst1
          (by rw [g1, c1]) hwf (by omega) (by omega) (by omega)
        have hnext : solutions (fun ctl s2 =>
              pl_bdb_getdel (refNative K) K H M (.blob p) key value ctl false s2) (n + 1)
            (.PL_REDO ⟨p, s.world.next_cursor, kd, DBT.zero, DBT.of r.data⟩) sg = _ :=
          (show _ = resume _ (getdel_retry (refNative K) K H false (s.dbh_mem p) key value M
              ⟨p, s.world.next_cursor, kd, DBT.zero, DBT.of r.data⟩ sg) by
            rw [solutions_redo_getdel]
            simp only [g1, c1]).trans w1
        refine ⟨s3, ?_, ?_, ?_, ?_, ?_⟩
        · simp only [hu, getdel_yield]
          rw [resume_retry _ _ _ _ rfl _ _ _ hnext]
          simp [hrk, hu]
        · rw [w2]; simp [hrk]
        · intro d1 hd1; rw [w3 d1 hd1, g2, c3]
        · exact w4
        · rw [w5, g1, c1]

theorem solutions_redo_enum {W : Type} (N : Native W) (K : db_h) (H : Host) (M : Nat)
    (handle key value : term_t) (n : Nat) (c : dbget_ctx) (s : State W) :
    solutions (fun ctl s2 => pl_bdb_enum N K H M handle key value ctl s2) (n + 1)
        (.PL_REDO c) s =
      resume (fun c1 s1 => solutions
          (fun ctl s2 => pl_bdb_enum N K H M handle key value ctl s2) n (.PL_REDO c1) s1)
        (enum_retry N K H (s.dbh_mem c.db) key value M c s) := rfl

theorem enum_walk (K : db_h) (hK : K.Valid) (H : Host) (d : dbh)
    (handle key value : term_t) (M : Nat) (db : DB) :
    ∀ (rest front : List Rec) (m n : Nat) (c : dbget_ctx) (s : State RefWorld),
      Stands s.world c.cursor db front rest →
      s.dbh_mem c.db = d →
      rest.length < m → rest.length < M → rest.length ≤ n →
      ∃ s1,
        resume (fun c1 s2 => solutions
              (fun ctl s3 => pl_bdb_enum (refNative K) K H M handle key value ctl s3) n
              (.PL_REDO c1) s2)
            (enum_retry (refNative K) K H d key value m c s) =
          some (rest.filterMap (fun r =>
                  both (unify_dbt H key d.key_type (DBT.of r.key))
                    (unify_dbt H value d.value_type (DBT.of r.data))),
                none, s1) ∧
        s1.world.recs = s.world.recs ∧
        s1.world.cursors c.cursor = none ∧
        s1.dbh_mem = s.dbh_mem := by
  intro rest
  induction rest with
  | nil =>
    intro front m n c s hst hd hm hM hn
    obtain ⟨m, rfl⟩ : ∃ m1, m = m1 + 1 := ⟨m - 1, by simp at hm; omega⟩
    obtain ⟨s1, h1, h2, h3⟩ := call_next_nil K s c.cursor db front c.k2 c.value hst
    have hnz : K.DB_NOTFOUND ≠ 0 := hK.1.ne
    obtain ⟨pos, hcur, hrecs, -⟩ := hst
    obtain ⟨s2, o1, o2, o3, o4⟩ := enum_out_ref K { c with k2 := c.k2, value := c.value }
      K.DB_NOTFOUND key value s1 ⟨db, pos⟩ (by rw [h3]; exact hcur)
    refine ⟨s2, ?_, ?_, ?_, ?_⟩
    · simp only [enum_retry, h1, hnz, if_false, o1]
      rw [resume_false _ _ _ rfl]
      simp [db_status_notfound K hK]
    · rw [o2, h3]
    · exact o3
    · rw [o4, h2]
  | cons r rest ih =>
    intro front m n c s hst hd hm hM hn
    obtain ⟨m, rfl⟩ : ∃ m1, m = m1 + 1 := ⟨m - 1, by omega⟩
    simp only [List.length_cons] at hm hM hn
    obtain ⟨s1, h1, h2, h3, h4⟩ := call_next_cons K s c.cursor db front rest r c.k2 c.value hst
    obtain ⟨pos, hcur, hrecs, hpos⟩ := hst
    have hst1 : Stands s1.world c.cursor db (front ++ [r]) rest := Stands.snoc hrecs h3 h4
    have hskip : ∀ (n1 : Nat), rest.length ≤ n1 → ∃ s2,
        resume (fun c1 s2 => solutions
              (fun ctl s3 => pl_bdb_enum (refNative K) K H M handle key value ctl s3) n1
              (.PL_REDO c1) s2)
            (enum_retry (refNative K) K H d key value m
              { c with k2 := DBT.of r.key, value := DBT.of r.data } s1) =
          some (rest.filterMap (fun r =>
                  both (unify_dbt H key d.key_type (DBT.of r.key))
                    (unify_dbt H value d.value_type (DBT.of r.data))),
                none, s2) ∧
        s2.world.recs = s.world.recs ∧
        s2.world.cursors c.cursor = none ∧
        s2.dbh_mem = s.dbh_mem := by
      intro n1 hn1
      obtain ⟨s2, g1, g2, g4, g5⟩ := ih (front ++ [r]) m n1
        { c with k2 := DBT.of r.key, value := DBT.of r.data } s1 hst1
        (by rw [h2]; exact hd) (by omega) (by omega) hn1
      exact ⟨s2, g1, by rw [g2, h3], g4, by rw [g5, h2]⟩
    cases hk : unify_dbt H key d.key_type (DBT.of r.key) with
    | none =>
      obtain ⟨s2, g1, g2, g4, g5⟩ := hskip n (by omega)
      refine ⟨s2, ?_, g2, g4, g5⟩
      simp only [enum_retry, h1, if_true, hk]
      rw [g1]
      simp [hk, both]
    | some k1 =>
      cases hv : unify_dbt H value d.value_type (DBT.of r.data) with
      | none =>
        obtain ⟨s2, g1, g2, g4, g5⟩ := hskip n (by omega)
        refine ⟨s2, ?_, g2, g4, g5⟩
        simp only [enum_retry, h1, if_true, hk, hv]
        rw [g1]
        simp [hk, hv, both]
      | some v1 =>
        obtain ⟨n, rfl⟩ : ∃ n1, n = n1 + 1 := ⟨n - 1, by omega⟩
        obtain ⟨s3, g1, g2, g4, g5⟩ := ih (front ++ [r]) M n
          { c with k2 := DBT.of r.key, value := DBT.of r.data } s1 hst1
          (by rw [h2]; exact hd) (by omega) (by omega) (by omega)
        have hnext : solutions (fun ctl s2 =>
              pl_bdb_enum (refNative K) K H M handle key value ctl s2) (n + 1)
            (.PL_REDO { c with k2 := DBT.of r.key, value := DBT.of r.data }) s1 = _ :=
          (show _ = resume _ (enum_retry (refNative K) K H d key value M
              { c with k2 := DBT.of r.key, value := DBT.of r.data } s1) by
            rw [solutions_redo_enum]
            simp only [h2, hd]).trans g1
        refine ⟨s3, ?_, by rw [g2, h3], g4, by rw [g5, h2]⟩
        simp only [enum_retry, h1, if_true, hk, hv]
        rw [resume_retry _ _ _ _ rfl _ _ _ hnext]
        simp [hk, hv, both]

theorem call_first_cons (K : db_h) (s : State RefWorld) (c : DBC) (db : DB) (pos : CPos)
    (rest : List Rec) (r : Rec) (k d : DBT)
    (hc : s.world.cursors c = some ⟨db, pos⟩) (hr : s.world.recs db = r :: rest) :
    ∃ s1, call_c_get (refNative K) s c k d .DB_FIRST = (0, DBT.of r.key, DBT.of r.data, s1) ∧
      s1.dbh_mem = s.dbh_mem ∧ s1.world.recs = s.world.recs ∧
      s1.world.cursors c = some ⟨db, .on 0⟩ := by
  refine ⟨(call_c_get (refNative K) s c k d .DB_FIRST).2.2.2, ?_, ?_, ?_, ?_⟩ <;>
    simp [call_c_get, refNative, ref_c_get, hc, hr]

theorem call_first_nil (K : db_h) (s : State RefWorld) (c : DBC) (db : DB) (pos : CPos)
    (k d : DBT) (hc : s.world.cursors c = some ⟨db, pos⟩) (hr : s.world.recs db = []) :
    ∃ s1, call_c_get (refNative K) s c k d .DB_FIRST = (K.DB_NOTFOUND, k, d, s1) ∧
      s1.dbh_mem = s.dbh_mem ∧ s1.world = s.world := by
  refine ⟨(call_c_get (refNative K) s c k d .DB_FIRST).2.2.2, ?_, ?_, ?_⟩ <;>
    simp [call_c_get, refNative, ref_c_get, hc, hr]

theorem enum_solutions (K : db_h) (hK : K.Valid) (H : Host)
    (s : State RefWorld) (p : Nat) (key value : term_t) (M n : Nat)
    (hopen : (s.dbh_mem p).symbol ≠ 0)
    (hM : (s.world.recs (s.dbh_mem p).db).length < M)
    (hn : (s.world.recs (s.dbh_mem p).db).length < n) :
    ∃ s1,
      solutions (fun ctl s2 => pl_bdb_enum (refNative K) K H M (.blob p) key value ctl s2)
          n .PL_FIRST_CALL s =
        some ((s.world.recs (s.dbh_mem p).db).filterMap (fun r =>
                both (unify_dbt H key (s.dbh_mem p).key_type (DBT.of r.key))
                  (unify_dbt H value (s.dbh_mem p).value_type (DBT.of r.data))),
              none, s1) ∧
      s1.world.recs = s.world.recs ∧
      s1.world.cursors s.world.next_cursor = none ∧
      s1.dbh_mem = s.dbh_mem := by
  obtain ⟨n, rfl⟩ : ∃ n1, n = n1 + 1 := ⟨n - 1, by omega⟩
  obtain ⟨sc, hcr, c1, c2, c3, c4⟩ :=
    call_cursor_ref K s (s.dbh_mem p).db (current_transaction s)
  have hfirst : pl_bdb_enum (refNative K) K H M (.blob p) key value .PL_FIRST_CALL s =
      (if (call_c_get (refNative K) sc s.world.next_cursor DBT.zero DBT.zero .DB_FIRST).1 = 0 then
        match unify_dbt H key (s.dbh_mem p).key_type
            (call_c_get (refNative K) sc s.world.next_cursor DBT.zero DBT.zero .DB_FIRST).2.1,
          unify_dbt H value (s.dbh_mem p).value_type
            (call_c_get (refNative K) sc s.world.next_cursor DBT.zero DBT.zero .DB_FIRST).2.2.1 with
        | some k1, some v1 => some (⟨.retry
            ⟨p, s.world.next_cursor,
              (call_c_get (refNative K) sc s.world.next_cursor DBT.zero DBT.zero .DB_FIRST).2.1,
              DBT.zero,
              (call_c_get (refNative K) sc s.world.next_cursor DBT.zero DBT.zero .DB_FIRST).2.2.1⟩,
            none, k1, v1⟩,
            (call_c_get (refNative K) sc s.world.next_cursor DBT.zero DBT.zero .DB_FIRST).2.2.2)
        | _, _ => enum_retry (refNative K) K H (s.dbh_mem p) key value M
            ⟨p, s.world.next_cursor,
              (call_c_get (refNative K) sc s.world.next_cursor DBT.zero DBT.zero .DB_FIRST).2.1,
              DBT.zero,
              (call_c_get (refNative K) sc s.world.next_cursor DBT.zero DBT.zero .DB_FIRST).2.2.1⟩
            (call_c_get (refNative K) sc s.world.next_cursor DBT.zero DBT.zero .DB_FIRST).2.2.2
      else some (enum_out (refNative K) K
            ⟨p, s.world.next_cursor,
              (call_c_get (refNative K) sc s.world.next_cursor DBT.zero DBT.zero .DB_FIRST).2.1,
              DBT.zero,
              (call_c_get (refNative K) sc s.world.next_cursor DBT.zero DBT.zero .DB_FIRST).2.2.1⟩
            (call_c_get (refNative K) sc s.world.next_cursor DBT.zero DBT.zero .DB_FIRST).1 key value
            (call_c_get (refNative K) sc s.world.next_cursor DBT.zero DBT.zero .DB_FIRST).2.2.2)) := by
    simp [pl_bdb_enum, get_db, hopen, hcr]
  rw [solutions_succ]
  simp only [hfirst]
  cases hR : s.world.recs (s.dbh_mem p).db with
  | nil =>
    obtain ⟨sg, hg, g1, g2⟩ := call_first_nil K sc s.world.next_cursor (s.dbh_mem p).db
      .unset DBT.zero DBT.zero c4 (by rw [c3]; exact hR)
    obtain ⟨so, o1, o2, o3, o4⟩ := enum_out_ref K
      ⟨p, s.world.next_cursor, DBT.zero, DBT.zero, DBT.zero⟩ K.DB_NOTFOUND key value sg
      ⟨(s.dbh_mem p).db, .unset⟩ (by rw [g2]; exact c4)
    refine ⟨so, ?_, ?_, ?_, ?_⟩
    · simp only [hg, hK.1.ne, if_false, o1]
      rw [resume_false _ _ _ rfl]
      simp [db_status_notfound K hK]
    · rw [o2, g2, c3]
    · exact o3
    · rw [o4, g1, c1]
  | cons r rest =>
    rw [hR] at hM hn
    simp only [List.length_cons] at hM hn
    obtain ⟨sg, hg, g1, g2, g3⟩ := call_first_cons K sc s.world.next_cursor (s.dbh_mem p).db
      .unset rest r DBT.zero DBT.zero c4 (by rw [c3]; exact hR)
    have hst1 : Stands sg.world s.world.next_cursor (s.dbh_mem p).db ([] ++ [r]) rest :=
      @Stands.snoc s.world sg.world s.world.next_cursor (s.dbh_mem p).db [] rest r
        (by simpa using hR) (by rw [g2, c3]) (by simpa using g3)
    simp only [hg, if_true]
    have hskip : ∀ (n1 : Nat), rest.length ≤ n1 → ∃ s2,
        resume (fun c1 s2 => solutions
              (fun ctl s3 => pl_bdb_enum (refNative K) K H M (.blob p) key value ctl s3) n1
              (.PL_REDO c1) s2)
            (enum_retry (refNative K) K H (s.dbh_mem p) key value M
              ⟨p, s.world.next_cursor, DBT.of r.key, DBT.zero, DBT.of r.data⟩ sg) =
          some (rest.filterMap (fun r =>
                  both (unify_dbt H key (s.dbh_mem p).key_type (DBT.of r.key))
                    (unify_dbt H value (s.dbh_mem p).value_type (DBT.of r.data))),
                none, s2) ∧
        s2.world.recs = s.world.recs ∧
        s2.world.cursors s.world.next_cursor = none ∧
        s2.dbh_mem = s.dbh_mem := by
      intro n1 hn1
      obtain ⟨s2, w1, w2, w4, w5⟩ := enum_walk K hK H (s.dbh_mem p) (.blob p) key value M
        (s.dbh_mem p).db rest _ M n1
        ⟨p, s.world.next_cursor, DBT.of r.key, DBT.zero, DBT.of r.data⟩ sg hst1
        (by rw [g1, c1]) (by omega) (by omega) hn1
      exact ⟨s2, w1, by rw [w2, g2, c3], w4, by rw [w5, g1, c1]⟩
    cases hk : unify_dbt H key (s.dbh_mem p).key_type (DBT.of r.key) with
    | none =>
      obtain ⟨s2, w1, w2, w4, w5⟩ := hskip n (by omega)
      refine ⟨s2, ?_, w2, w4, w5⟩
      simp only [hk]
      rw [w1]
      simp [hk, both]
    | some k1 =>
      cases hv : unify_dbt H value (s.dbh_mem p).value_type (DBT.of r.data) with
      | none =>
        obtain ⟨s2, w1, w2, w4, w5⟩ := hskip n (by omega)
        refine ⟨s2, ?_, w2, w4, w5⟩
        simp only [hk, hv]
        rw [w1]
        simp [hk, hv, both]
      | some v1 =>
        obtain ⟨n, rfl⟩ : ∃ n1, n = n1 + 1 := ⟨n - 1, by omega⟩
        obtain ⟨s2, w1, w2, w4, w5⟩ := hskip n (by omega)
        have hnext : solutions (fun ctl s2 =>
              pl_bdb_enum (refNative K) K H M (.blob p) key value ctl s2) (n + 1)
            (.PL_REDO ⟨p, s.world.next_cursor, DBT.of r.key, DBT.zero, DBT.of r.data⟩) sg = _ :=
          (show _ = resume _ (enum_retry (refNative K) K H (s.dbh_mem p) key value M
              ⟨p, s.world.next_cursor, DBT.of r.key, DBT.zero, DBT.of r.data⟩ sg) by
            rw [solutions_redo_enum]
            simp only [g1, c1]).trans w1
        refine ⟨s2, ?_, w2, w4, w5⟩
        simp only [hk, hv]
        rw [resume_retry _ _ _ _ rfl _ _ _ hnext]
        simp [hk, hv, both]

theorem filterMap_all_some {α β : Type} (f : α → Option β) (l : List α)
    (h : ∀ x ∈ l, (f x).isSome = true) : (l.filterMap f).map some = l.map f := by
  induction l with
  | nil => rfl
  | cons a l ih =>
    have ha := h a (by simp)
    obtain ⟨b, hb⟩ := Option.isSome_iff_exists.mp ha
    rw [List.filterMap_cons_some hb, List.map_cons, List.map_cons,
      ih (fun x hx => h x (by simp [hx])), hb]

/-- C8: on a duplicates-enabled handle of the reference store, `get(H, k, V)`
with `V` unbound, driven to exhaustion, yields in order and once each the
decoded values of the records that start at the first record whose key is the
encoded key `kb` and go on while the key is byte-for-byte `kb`; the sequence
ends with nothing raised, the store unchanged and the cursor closed, and is
empty when no record has key `kb`. -/
theorem get_yields_values_of_key (K : db_h) (hK : K.Valid) (H : Host)
    (s : State RefWorld) (p : Nat) (key : term_t) (kd : DBT) (M n : Nat)
    (hopen : (s.dbh_mem p).symbol ≠ 0) (hdup : (s.dbh_mem p).duplicates = true)
    (hkey : get_dbt H key (s.dbh_mem p).key_type = (Ret.TRUE, kd))
    (hM : (s.world.recs (s.dbh_mem p).db).length < M)
    (hn : (s.world.recs (s.dbh_mem p).db).length < n) :
    ∃ s1,
      solutions (fun ctl s2 => pl_bdb_get (refNative K) K H M (.blob p) key .var ctl s2)
          n .PL_FIRST_CALL s =
        some (((((s.world.recs (s.dbh_mem p).db).dropWhile
                  (fun r => decide (r.key ≠ kd.bytes))).takeWhile
                  (fun r => decide (r.key = kd.bytes))).filterMap
                (fun r => unify_dbt H .var (s.dbh_mem p).value_type (DBT.of r.data))).map
                  (fun v => (key, v)),
              none, s1) ∧
      ((((s.world.recs (s.dbh_mem p).db).dropWhile
            (fun r => decide (r.key ≠ kd.bytes))).takeWhile
            (fun r => decide (r.key = kd.bytes))).filterMap
          (fun r => unify_dbt H .var (s.dbh_mem p).value_type (DBT.of r.data))).map some =
        (((s.world.recs (s.dbh_mem p).db).dropWhile
            (fun r => decide (r.key ≠ kd.bytes))).takeWhile
            (fun r => decide (r.key = kd.bytes))).map
          (fun r => unify_dbt H .var (s.dbh_mem p).value_type (DBT.of r.data)) ∧
      ((∀ r ∈ s.world.recs (s.dbh_mem p).db, r.key ≠ kd.bytes) →
        ((s.world.recs (s.dbh_mem p).db).dropWhile
            (fun r => decide (r.key ≠ kd.bytes))).takeWhile
            (fun r => decide (r.key = kd.bytes)) = []) ∧
      s1.world.recs = s.world.recs ∧
      s1.world.cursors s.world.next_cursor = none := by
  obtain ⟨s1, h1, h2, h3, h4, -⟩ :=
    getdel_solutions K hK H false s p key .var kd M n hopen hdup hkey hM hn
  refine ⟨s1, h1, ?_, ?_, ?_, h4⟩
  · exact filterMap_all_some _ _ (fun r _ => unify_dbt_var H _ _)
  · intro hno
    have : (s.world.recs (s.dbh_mem p).db).dropWhile (fun r => decide (r.key ≠ kd.bytes)) = [] :=
      List.dropWhile_eq_nil_iff.mpr (fun r hr => by simpa using hno r hr)
    rw [this]; rfl
  · funext d1
    by_cases hd : d1 = (s.dbh_mem p).db
    · subst hd
      rw [h2]
      simp only [Bool.false_eq_true, if_false, List.append_assoc,
        List.takeWhile_append_dropWhile]
      exact List.takeWhile_append_dropWhile _ _
    · exact h3 d1 hd

/-- Witness of C8 on the example store: the key `b` yields the values of the
two records of key `b` and stops at the record whose key `b\0` is longer. -/
theorem get_yields_values_of_key_witness :
    ∃ s1,
      solutions (fun ctl s2 =>
          pl_bdb_get (refNative db53) db53 host64 6 (.blob 5) (.atom [98]) .var ctl s2)
          6 .PL_FIRST_CALL ex_state =
        some ([(.atom [98], .atom [50]), (.atom [98], .atom [51])], none, s1) ∧
      s1.world.recs = ex_state.world.recs := by
  obtain ⟨s1, h1, -, -, h4, -⟩ := get_yields_values_of_key db53 (by decide) host64 ex_state 5
    (.atom [98]) ⟨[98, 0], 1⟩ 6 6 (by decide) (by decide) (by decide) (by decide) (by decide)
  exact ⟨s1, h1, h4⟩

theorem getdel_yield_retry {W : Type} (N : Native W) (K : db_h) (c : dbget_ctx)
    (key v1 value : term_t) (s : State W) (c1 : dbget_ctx)
    (h : (getdel_yield N K true c key v1 value s).1.ret = .retry c1) :
    c1 = c ∧ (getdel_yield N K true c key v1 value s).1.value = v1 ∧
    call_c_del N s c.cursor = (0, (getdel_yield N K true c key v1 value s).2) := by
  unfold getdel_yield at h ⊢
  simp only [if_true] at h ⊢
  by_cases hd : (call_c_del N s c.cursor).1 ≠ 0
  · rw [if_pos hd] at h
    simp only [Reply.of] at h
    split at h <;> simp at h
  · rw [if_neg hd] at h ⊢
    simp only [foreign_t.retry.injEq] at h
    refine ⟨h.symm, rfl, ?_⟩
    exact Prod.ext (not_not.mp hd) rfl

/-- A redo of the 3-argument delete that yields has, as its last two accesses
to the store, the `c_get` that fetched the yielded record, with status `0`,
and the `c_del` on the same cursor, with status `0`. -/
theorem getdel_retry_deletes_yielded {W : Type} (N : Native W) (K : db_h) (H : Host)
    (d : dbh) (key value : term_t) :
    ∀ (m : Nat) (c : dbget_ctx) (s : State W) (r : Reply) (s1 : State W) (c1 : dbget_ctx),
      getdel_retry N K H true d key value m c s = some (r, s1) → r.ret = .retry c1 →
      c1.cursor = c.cursor ∧ c1.db = c.db ∧ c1.key = c.key ∧
      unify_dbt H value d.value_type c1.value = some r.value ∧
      ∃ s0 kq dq, (call_c_get N s0 c1.cursor kq dq .DB_NEXT).1 = 0 ∧
        (call_c_get N s0 c1.cursor kq dq .DB_NEXT).2.2.1 = c1.value ∧
        call_c_del N (call_c_get N s0 c1.cursor kq dq .DB_NEXT).2.2.2 c1.cursor = (0, s1) := by
  intro m
  induction m with
  | zero => intro c s r s1 c1 h; simp [getdel_retry] at h
  | succ m ih =>
    intro c s r s1 c1 h hr
    simp only [getdel_retry] at h
    split at h
    · rename_i hc
      split at h
      · rename_i v1 hu
        simp only [Option.some.injEq] at h
        have h1 : (getdel_yield N K true
            { c with k2 := (call_c_get N s c.cursor c.k2 c.value .DB_NEXT).2.1,
                     value := (call_c_get N s c.cursor c.k2 c.value .DB_NEXT).2.2.1 }
            key v1 value (call_c_get N s c.cursor c.k2 c.value .DB_NEXT).2.2.2).1.ret =
              .retry c1 := by rw [h]; exact hr
        obtain ⟨e1, e2, e3⟩ := getdel_yield_retry N K _ key v1 value _ c1 h1
        rw [h] at e2 e3
        subst e1
        refine ⟨rfl, rfl, rfl, ?_, s, c.k2, c.value, hc.1, rfl, e3⟩
        simp only at e2
        rw [e2]; exact hu
      · obtain ⟨a1, a2, a3, a4, a5⟩ := ih _ _ r s1 c1 h hr
        exact ⟨a1, a2, a3, a4, a5⟩
    · simp only [Option.some.injEq, getdel_out, Prod.mk.injEq] at h
      rw [← h.1] at hr
      simp at hr

theorem Reply.of_ret_ne_retry (x : Ret) (key value : term_t) (c : dbget_ctx) :
    (Reply.of x key value).ret ≠ .retry c := by
  unfold Reply.of
  cases x.rc <;> simp

theorem not_retry_of_eq {W : Type} (r0 r : Reply) (s0 s1 : State W) (c1 : dbget_ctx)
    (h : some (r0, s0) = some (r, s1)) (hr : r.ret = .retry c1) (h0 : r0.ret ≠ .retry c1) :
    False := by
  simp only [Option.some.injEq, Prod.mk.injEq] at h
  rw [← h.1] at hr
  exact h0 hr

/-- A call of the 3-argument delete that yields has, as its last two accesses
to the store, the `c_get` that fetched the yielded record and the `c_del` on the
same cursor, both with status `0`. -/
theorem del3_deletes_yielded {W : Type} (N : Native W) (K : db_h) (H : Host) (M : Nat)
    (handle key value : term_t) (ctl : control_t) (s : State W) (r : Reply) (s1 : State W)
    (c1 : dbget_ctx)
    (h : pl_bdb_del3 N K H M handle key value ctl s = some (r, s1))
    (hr : r.ret = .retry c1) :
    unify_dbt H value (s.dbh_mem c1.db).value_type c1.value = some r.value ∧
    ∃ s0 kq dq flag, (call_c_get N s0 c1.cursor kq dq flag).1 = 0 ∧
      (call_c_get N s0 c1.cursor kq dq flag).2.2.1 = c1.value ∧
      call_c_del N (call_c_get N s0 c1.cursor kq dq flag).2.2.2 c1.cursor = (0, s1) := by
  unfold pl_bdb_del3 pl_bdb_getdel at h
  cases ctl with
  | PL_REDO c =>
    simp only at h
    obtain ⟨a1, a2, a3, a4, s0, kq, dq, a5⟩ :=
      getdel_retry_deletes_yielded N K H _ key value M c s r s1 c1 h hr
    rw [a2]
    exact ⟨a4, s0, kq, dq, .DB_NEXT, a5⟩
  | PL_PRUNED c =>
    simp only [getdel_out] at h
    exact (not_retry_of_eq _ _ _ _ c1 h hr (by simp)).elim
  | PL_FIRST_CALL =>
    simp only at h
    split at h
    · exact (not_retry_of_eq _ _ _ _ c1 h hr (by simp)).elim
    · rename_i e p hg
      split at h
      · split at h
        · exact (not_retry_of_eq _ _ _ _ c1 h hr (Reply.of_ret_ne_retry _ _ _ _)).elim
        · split at h
          · exact (not_retry_of_eq _ _ _ _ c1 h hr (by simp)).elim
          · split at h
            · rename_i hg0
              split at h
              · rename_i v1 hu
                simp only [Option.some.injEq] at h
                have h1 := congrArg (fun x => x.1.ret) h
                simp only [hr] at h1
                obtain ⟨e1, e2, e3⟩ := getdel_yield_retry N K _ key v1 value _ c1 h1
                rw [h] at e2 e3
                subst e1
                simp only at e2
                refine ⟨by rw [e2]; exact hu, _, _, _, .DB_SET, hg0, rfl, e3⟩
              · obtain ⟨a1, a2, a3, a4, s0, kq, dq, a5⟩ :=
                  getdel_retry_deletes_yielded N K H _ key value M _ _ r s1 c1 h hr
                rw [a2]
                exact ⟨a4, s0, kq, dq, .DB_NEXT, a5⟩
            · simp only [getdel_out] at h
              exact (not_retry_of_eq _ _ _ _ c1 h hr (by simp)).elim
      · repeat' split at h
        all_goals first
          | exact (not_retry_of_eq _ _ _ _ c1 h hr (Reply.of_ret_ne_retry _ _ _ _)).elim
          | (refine (not_retry_of_eq _ _ _ _ c1 h hr ?_).elim
             simp)

theorem filterMap_both_all_some {α : Type} (f g : α → Option term_t)
    (l : List α) (hf : ∀ x, (f x).isSome = true) (hg : ∀ x, (g x).isSome = true) :
    (l.filterMap (fun r => both (f r) (g r))).map (fun y => (some y.1, some y.2)) =
      l.map (fun r => (f r, g r)) := by
  induction l with
  | nil => rfl
  | cons x l ih =>
    obtain ⟨a, ha⟩ := Option.isSome_iff_exists.mp (hf x)
    obtain ⟨b, hb⟩ := Option.isSome_iff_exists.mp (hg x)
    have hx : both (f x) (g x) = some (a, b) := by simp [both, ha, hb]
    rw [List.filterMap_cons_some (f := fun r => both (f r) (g r)) hx, List.map_cons,
      List.map_cons, ih, ha, hb]

/-- C9: on the reference store, `enum(H, K, V)` with `K` and `V` unbound,
driven to exhaustion, yields exactly one pair per stored record, in cursor
order, the decoded key and value of that record; then it fails with nothing
raised, the store unchanged and the cursor closed.  For an empty store it
yields nothing. -/
theorem enum_yields_every_record (K : db_h) (hK : K.Valid) (H : Host)
    (s : State RefWorld) (p : Nat) (M n : Nat)
    (hopen : (s.dbh_mem p).symbol ≠ 0)
    (hM : (s.world.recs (s.dbh_mem p).db).length < M)
    (hn : (s.world.recs (s.dbh_mem p).db).length < n) :
    ∃ ys s1,
      solutions (fun ctl s2 => pl_bdb_enum (refNative K) K H M (.blob p) .var .var ctl s2)
          n .PL_FIRST_CALL s = some (ys, none, s1) ∧
      ys.length = (s.world.recs (s.dbh_mem p).db).length ∧
      ys.map (fun y => (some y.1, some y.2)) =
        (s.world.recs (s.dbh_mem p).db).map (fun r =>
          (unify_dbt H .var (s.dbh_mem p).key_type (DBT.of r.key),
           unify_dbt H .var (s.dbh_mem p).value_type (DBT.of r.data))) ∧
      s1.world.recs = s.world.recs ∧
      s1.world.cursors s.world.next_cursor = none := by
  obtain ⟨s1, h1, h2, h3, -⟩ := enum_solutions K hK H s p .var .var M n hopen hM hn
  have hmap := filterMap_both_all_some
    (fun r : Rec => unify_dbt H .var (s.dbh_mem p).key_type (DBT.of r.key))
    (fun r : Rec => unify_dbt H .var (s.dbh_mem p).value_type (DBT.of r.data))
    (s.world.recs (s.dbh_mem p).db) (fun r => unify_dbt_var H _ _) (fun r => unify_dbt_var H _ _)
  refine ⟨_, s1, h1, ?_, hmap, h2, h3⟩
  have := congrArg List.length hmap
  simpa using this

/-- Witness of C9 on the example store: its five records are enumerated in
cursor order. -/
theorem enum_yields_every_record_witness :
    ∃ ys s1,
      solutions (fun ctl s2 =>
          pl_bdb_enum (refNative db53) db53 host64 6 (.blob 5) .var .var ctl s2)
          6 .PL_FIRST_CALL ex_state = some (ys, none, s1) ∧
      ys.length = 5 ∧
      ys.map (fun y => (some y.1, some y.2)) =
        [(some (.atom [97]), some (.atom [49])), (some (.atom [98]), some (.atom [50])),
         (some (.atom [98]), some (.atom [51])), (some (.atom [98, 0]), some (.atom [53])),
         (some (.atom [99]), some (.atom [52]))] ∧
      s1.world.cursors 1 = none := by
  obtain ⟨ys, s1, h1, h2, h3, -, h5⟩ := enum_yields_every_record db53 (by decide) host64
    ex_state 5 6 6 (by decide) (by decide) (by decide)
  exact ⟨ys, s1, h1, h2, h3, h5⟩

theorem filter_key_grouped (kb : List Nat) (R : List Rec)
    (hgrp : ∀ r ∈ (R.dropWhile (fun r => decide (r.key ≠ kb))).dropWhile
        (fun r => decide (r.key = kb)), r.key ≠ kb) :
    R.filter (fun r => decide (r.key = kb)) =
      (R.dropWhile (fun r => decide (r.key ≠ kb))).takeWhile (fun r => decide (r.key = kb)) ∧
    R.filter (fun r => decide (r.key ≠ kb)) =
      before_key kb R ++
        (R.dropWhile (fun r => decide (r.key ≠ kb))).dropWhile (fun r => decide (r.key = kb)) := by
  have hR : R = before_key kb R ++
      ((R.dropWhile (fun r => decide (r.key ≠ kb))).takeWhile (fun r => decide (r.key = kb)) ++
       (R.dropWhile (fun r => decide (r.key ≠ kb))).dropWhile (fun r => decide (r.key = kb))) := by
    rw [List.takeWhile_append_dropWhile]
    exact (List.takeWhile_append_dropWhile _ R).symm
  have hpre : ∀ r ∈ before_key kb R, r.key ≠ kb := fun r hr => by
    simpa using List.mem_takeWhile_imp hr
  have hrun : ∀ r ∈ (R.dropWhile (fun r => decide (r.key ≠ kb))).takeWhile
      (fun r => decide (r.key = kb)), r.key = kb := fun r hr => by
    simpa using List.mem_takeWhile_imp hr
  constructor
  · conv_lhs => rw [hR]
    rw [List.filter_append, List.filter_append,
      List.filter_eq_nil_iff.mpr (fun r hr => by simpa using hpre r hr),
      List.filter_eq_self.mpr (fun r hr => by simpa using hrun r hr),
      List.filter_eq_nil_iff.mpr (fun r hr => by simpa using hgrp r hr)]
    simp
  · conv_lhs => rw [hR]
    rw [List.filter_append, List.filter_append,
      List.filter_eq_self.mpr (fun r hr => by simpa using hpre r hr),
      List.filter_eq_nil_iff.mpr (fun r hr => by simpa using hrun r hr),
      List.filter_eq_self.mpr (fun r hr => by simpa using hgrp r hr)]
    simp

/-- C10: (1) whenever the 3-argument delete yields, its last two accesses to
the store are the `c_get` that fetched the yielded record and the `c_del` on
the same cursor, both with status `0`, so the delete hits the record just
yielded before any advance; (2) on a duplicates-enabled handle of the
reference store, driving `del(H, k, V)` to exhaustion yields the values under
`k` that unify with `V`, removes exactly their records and keeps the records
under `k` that do not match, and every other record; (3) with `V` unbound it
yields each value stored under `k` once, removes every record under `k` and
leaves the records under other keys as they were (the store keeping the
records of one key together). -/
theorem del3_deletes_what_it_yields {W : Type} (N : Native W) (K : db_h) (hK : K.Valid)
    (H : Host) :
    (∀ (M : Nat) (handle key value : term_t) (ctl : control_t) (s : State W) (r : Reply)
        (s1 : State W) (c1 : dbget_ctx),
      pl_bdb_del3 N K H M handle key value ctl s = some (r, s1) → r.ret = .retry c1 →
      unify_dbt H value (s.dbh_mem c1.db).value_type c1.value = some r.value ∧
      ∃ s0 kq dq flag, (call_c_get N s0 c1.cursor kq dq flag).1 = 0 ∧
        (call_c_get N s0 c1.cursor kq dq flag).2.2.1 = c1.value ∧
        call_c_del N (call_c_get N s0 c1.cursor kq dq flag).2.2.2 c1.cursor = (0, s1)) ∧
    (∀ (s : State RefWorld) (p : Nat) (key value : term_t) (kd : DBT) (M n : Nat),
      (s.dbh_mem p).symbol ≠ 0 → (s.dbh_mem p).duplicates = true →
      get_dbt H key (s.dbh_mem p).key_type = (Ret.TRUE, kd) →
      (s.world.recs (s.dbh_mem p).db).length < M →
      (s.world.recs (s.dbh_mem p).db).length < n →
      ∃ s1,
        solutions (fun ctl s2 => pl_bdb_del3 (refNative K) K H M (.blob p) key value ctl s2)
            n .PL_FIRST_CALL s =
          some (((((s.world.recs (s.dbh_mem p).db).dropWhile
                    (fun r => decide (r.key ≠ kd.bytes))).takeWhile
                    (fun r => decide (r.key = kd.bytes))).filterMap
                  (fun r => unify_dbt H value (s.dbh_mem p).value_type (DBT.of r.data))).map
                    (fun v => (key, v)),
                none, s1) ∧
        s1.world.recs (s.dbh_mem p).db =
          before_key kd.bytes (s.world.recs (s.dbh_mem p).db) ++
            (((s.world.recs (s.dbh_mem p).db).dropWhile
                (fun r => decide (r.key ≠ kd.bytes))).takeWhile
                (fun r => decide (r.key = kd.bytes))).filter
              (fun r => (unify_dbt H value (s.dbh_mem p).value_type (DBT.of r.data)).isNone) ++
            ((s.world.recs (s.dbh_mem p).db).dropWhile
                (fun r => decide (r.key ≠ kd.bytes))).dropWhile
              (fun r => decide (r.key = kd.bytes)) ∧
        (∀ d1, d1 ≠ (s.dbh_mem p).db → s1.world.recs d1 = s.world.recs d1) ∧
        s1.world.cursors s.world.next_cursor = none) ∧
    (∀ (s : State RefWorld) (p : Nat) (key : term_t) (kd : DBT) (M n : Nat),
      (s.dbh_mem p).symbol ≠ 0 → (s.dbh_mem p).duplicates = true →
      get_dbt H key (s.dbh_mem p).key_type = (Ret.TRUE, kd) →
      (s.world.recs (s.dbh_mem p).db).length < M →
      (s.world.recs (s.dbh_mem p).db).length < n →
      (∀ r ∈ ((s.world.recs (s.dbh_mem p).db).dropWhile
            (fun r => decide (r.key ≠ kd.bytes))).dropWhile
          (fun r => decide (r.key = kd.bytes)), r.key ≠ kd.bytes) →
      ∃ ys s1,
        solutions (fun ctl s2 => pl_bdb_del3 (refNative K) K H M (.blob p) key .var ctl s2)
            n .PL_FIRST_CALL s = some (ys, none, s1) ∧
        ys.map (fun y => some y.2) =
          ((s.world.recs (s.dbh_mem p).db).filter (fun r => decide (r.key = kd.bytes))).map
            (fun r => unify_dbt H .var (s.dbh_mem p).value_type (DBT.of r.data)) ∧
        s1.world.recs (s.dbh_mem p).db =
          (s.world.recs (s.dbh_mem p).db).filter (fun r => decide (r.key ≠ kd.bytes)) ∧
        (∀ d1, d1 ≠ (s.dbh_mem p).db → s1.world.recs d1 = s.world.recs d1) ∧
        s1.world.cursors s.world.next_cursor = none) := by
  refine ⟨?_, ?_, ?_⟩
  · intro M handle key value ctl s r s1 c1 h hr
    exact del3_deletes_yielded N K H M handle key value ctl s r s1 c1 h hr
  · intro s p key value kd M n hopen hdup hkey hM hn
    obtain ⟨s1, h1, h2, h3, h4, -⟩ :=
      getdel_solutions K hK H true s p key value kd M n hopen hdup hkey hM hn
    exact ⟨s1, h1, by simpa using h2, h3, h4⟩
  · intro s p key kd M n hopen hdup hkey hM hn hgrp
    obtain ⟨s1, h1, h2, h3, h4, -⟩ :=
      getdel_solutions K hK H true s p key .var kd M n hopen hdup hkey hM hn
    obtain ⟨f1, f2⟩ := filter_key_grouped kd.bytes _ hgrp
    refine ⟨_, s1, h1, ?_, ?_, h3, h4⟩
    · rw [List.map_map, f1]
      exact filterMap_all_some _ _ (fun r _ => unify_dbt_var H _ _)
    · rw [h2, f2]
      have hnone : (((s.world.recs (s.dbh_mem p).db).dropWhile
            (fun r => decide (r.key ≠ kd.bytes))).takeWhile
            (fun r => decide (r.key = kd.bytes))).filter
          (fun r => (unify_dbt H .var (s.dbh_mem p).value_type (DBT.of r.data)).isNone) = [] :=
        List.filter_eq_nil_iff.mpr (fun r _ => by
          have := unify_dbt_var H (s.dbh_mem p).value_type (DBT.of r.data)
          cases hh : unify_dbt H .var (s.dbh_mem p).value_type (DBT.of r.data) <;> simp_all)
      rw [if_pos rfl, hnone, List.append_nil]

/-- Witness of C10 on the example store: deleting under key `b` with `V`
unbound yields the two values stored under `b` and leaves the records of the
keys `a`, `b\0` and `c`; deleting with the value `3` removes only that
record. -/
theorem del3_deletes_what_it_yields_witness :
    (∃ ys s1,
      solutions (fun ctl s2 =>
          pl_bdb_del3 (refNative db53) db53 host64 6 (.blob 5) (.atom [98]) .var ctl s2)
          6 .PL_FIRST_CALL ex_state = some (ys, none, s1) ∧
      ys.map (fun y => some y.2) = [some (.atom [50]), some (.atom [51])] ∧
      s1.world.recs 1 = [⟨[97], [49]⟩, ⟨[98, 0], [53]⟩, ⟨[99], [52]⟩]) ∧
    (∃ s1,
      solutions (fun ctl s2 =>
          pl_bdb_del3 (refNative db53) db53 host64 6 (.blob 5) (.atom [98]) (.atom [51]) ctl s2)
          6 .PL_FIRST_CALL ex_state = some ([(.atom [98], .atom [51])], none, s1) ∧
      s1.world.recs 1 = [⟨[97], [49]⟩, ⟨[98], [50]⟩, ⟨[98, 0], [53]⟩, ⟨[99], [52]⟩]) := by
  have h := del3_deletes_what_it_yields (refNative db53) db53 (by decide) host64
  constructor
  · obtain ⟨ys, s1, h1, h2, h3, -⟩ := h.2.2 ex_state 5 (.atom [98]) ⟨[98, 0], 1⟩ 6 6
      (by decide) (by decide) (by decide) (by decide) (by decide) (by decide)
    exact ⟨ys, s1, h1, h2, h3⟩
  · obtain ⟨s1, h1, h2, -⟩ := h.2.1 ex_state 5 (.atom [98]) (.atom [51]) ⟨[98, 0], 1⟩ 6 6
      (by decide) (by decide) (by decide) (by decide) (by decide)
    exact ⟨s1, h1, h2⟩

/-- C14: `pl_bdb_getdel` on a handle with duplicates returns without closing
the cursor on two paths.  `bdb_get(H, 42, V)` with keys declared `atom`: the
cursor is opened, `get_dbt` refuses the key, and the call returns `FALSE` with
the type error while the only native call made is `cursor` and the cursor is
still open.  `bdb_del(H, b, V)` on a store whose `c_del` reports a deadlock:
the call returns `FALSE` with the deadlock error, no `c_close` and no release
in the trace, the cursor still open on the record. -/
theorem getdel_returns_with_cursor_open :
    (pl_bdb_get (refNative db53) db53 host64 6 (.blob 5) (.integer 42) .var
        .PL_FIRST_CALL ex_state).map (fun x => (x.1, x.2.trace, x.2.world.cursors 1))
      = some (⟨.FALSE, some (.type_error "atom" (.integer 42)), .integer 42, .var⟩,
              [.cursor 1 none], some ⟨1, .unset⟩) ∧
    (pl_bdb_del3 (del_deadlocks db53) db53 host64 6 (.blob 5) (.atom [98]) .var
        .PL_FIRST_CALL ex_state).map (fun x => (x.1, x.2.trace, x.2.world.cursors 1))
      = some (⟨.FALSE, some (.package_id "db" "deadlock" (.strerror db53.DB_LOCK_DEADLOCK)),
                .atom [98], .var⟩,
              [.cursor 1 none, .c_get 1 .DB_SET ⟨[98, 0], 1⟩, .c_del 1], some ⟨1, .on 1⟩) := by
  constructor <;> rfl

/-- C15: on a store whose advance reports `DB_LOCK_DEADLOCK` after the first
value of key `b` was collected, `bdb_getall(H, b, L)` succeeds with the one
value collected and raises nothing, although `db_status` turns that same
status into the deadlock error. -/
theorem getall_swallows_deadlock :
    (pl_bdb_getall (next_deadlocks db53) db53 host64 6 (.blob 5) (.atom [98]) .var
        ex_state).map (fun x => (x.1, x.2.1, x.2.2.trace))
      = some (Ret.TRUE, some (list_term [.atom [50]]),
              [.cursor 1 none, .c_get 1 .DB_SET ⟨[98, 0], 1⟩, .c_get 1 .DB_NEXT DBT.zero,
               .c_close 1, .free_dbt ⟨[98, 0], 1⟩]) ∧
    (∀ w c k d, ((next_deadlocks db53).c_get w c k d .DB_NEXT).1 = db53.DB_LOCK_DEADLOCK) ∧
    db_status db53 db53.DB_LOCK_DEADLOCK
      = ⟨false, some (.package_id "db" "deadlock" (.strerror db53.DB_LOCK_DEADLOCK))⟩ := by
  refine ⟨rfl, fun _ _ _ _ => rfl, rfl⟩

/-- C16: on the handle without duplicates whose values are declared `atom`,
key `b` holding the bytes `[1, 98]`: `bdb_get` yields the atom of those two
bytes, the buffer decoded as the declared encoding, while `bdb_getall` with
the list unbound returns a list whose element is what `PL_recorded_external`
makes of the buffer, here another atom; for key `a` holding `[49]` it returns
a list of an unbound variable where `bdb_get` yields the atom `1`. -/
theorem getall_unique_ignores_value_type :
    (solutions (pl_bdb_get (refNative db53) db53 host64 6 (.blob 6) (.atom [98]) .var) 6
        .PL_FIRST_CALL uniq_state).map (fun x => (x.1, x.2.1))
      = some ([(.atom [98], .atom [1, 98])], none) ∧
    (pl_bdb_getall (refNative db53) db53 host64 6 (.blob 6) (.atom [98]) .var
        uniq_state).map (fun x => (x.1, x.2.1))
      = some (Ret.TRUE, some (list_term [.atom [98]])) ∧
    (solutions (pl_bdb_get (refNative db53) db53 host64 6 (.blob 6) (.atom [97]) .var) 6
        .PL_FIRST_CALL uniq_state).map (fun x => (x.1, x.2.1))
      = some ([(.atom [97], .atom [49])], none) ∧
    (pl_bdb_getall (refNative db53) db53 host64 6 (.blob 6) (.atom [97]) .var
        uniq_state).map (fun x => (x.1, x.2.1))
      = some (Ret.TRUE, some (list_term [.var])) := by
  refine ⟨rfl, rfl, rfl, rfl⟩

/-- C17: key `b` of the example store holds the values `2`, `3` in cursor
order.  With the list unbound `bdb_getall` returns `[2, 3]`; with the bound
list `[2, 4]`, differing in the second element, and with the bound list `[2]`,
one element short, it succeeds all the same; the longer list `[2, 3, 4]` and
the list `[7, 3]` fail. -/
theorem getall_accepts_wrong_lists :
    (pl_bdb_getall (refNative db53) db53 host64 6 (.blob 5) (.atom [98]) .var
        ex_state).map (fun x => (x.1, x.2.1))
      = some (Ret.TRUE, some (list_term [.atom [50], .atom [51]])) ∧
    (pl_bdb_getall (refNative db53) db53 host64 6 (.blob 5) (.atom [98])
        (list_term [.atom [50], .atom [52]]) ex_state).map (fun x => x.1)
      = some Ret.TRUE ∧
    (pl_bdb_getall (refNative db53) db53 host64 6 (.blob 5) (.atom [98])
        (list_term [.atom [50]]) ex_state).map (fun x => x.1)
      = some Ret.TRUE ∧
    (pl_bdb_getall (refNative db53) db53 host64 6 (.blob 5) (.atom [98])
        (list_term [.atom [50], .atom [51], .atom [52]]) ex_state).map (fun x => x.1)
      = some Ret.FALSE ∧
    (pl_bdb_getall (refNative db53) db53 host64 6 (.blob 5) (.atom [98])
        (list_term [.atom [55], .atom [51]]) ex_state).map (fun x => x.1)
      = some Ret.FALSE := by
  refine ⟨rfl, rfl, rfl, rfl, rfl⟩

/-- The state `out:` leaves does not depend on the status it is entered
with. -/
theorem enum_out_state {W : Type} (N : Native W) (K : db_h) (c : dbget_ctx) (rval : Int)
    (key value : term_t) (s : State W) :
    enum_out N K c rval key value s =
      (⟨.FALSE, (db_status K (if rval = 0 then (N.c_close s.world c.cursor).1 else rval)).exc,
          key, value⟩,
       { s with world := (N.c_close s.world c.cursor).2,
                trace := s.trace ++ [.c_close c.cursor, .free_ctx c.cursor] }) := by
  simp [enum_out, call_c_close, release]

theorem getdel_out_state {W : Type} (N : Native W) (K : db_h) (c : dbget_ctx) (rval : Int)
    (key value : term_t) (s : State W) :
    getdel_out N K c rval key value s =
      (⟨.FALSE, (db_status K (if rval = 0 then (N.c_close s.world c.cursor).1 else rval)).exc,
          key, value⟩,
       { s with world := (N.c_close s.world c.cursor).2,
                trace := s.trace ++ [.c_close c.cursor, .free_dbt c.key, .free_ctx c.cursor] }) := by
  simp [getdel_out, call_c_close, release]

/-- C11: a prune of a context `c` of `bdb_enum`, `bdb_get` or `bdb_del/3`,
whatever the library, returns `FALSE` having made one native call, `c_close`
of the context's cursor, followed by the release of the key buffer (get and
delete) and of the context: no `c_get`, no `c_del`.  Exhaustion is a failed
advance followed by exactly that: a redo whose `DB_NEXT` ends the sequence
leaves the state a prune after that advance leaves.  On the reference store,
for a context whose cursor is open, the prune raises nothing, leaves the
records as they were and the cursor closed, and a fresh enumeration afterwards
runs over every record. -/
theorem prune_releases_as_exhaustion {W : Type} (N : Native W) (K : db_h) (hK : K.Valid)
    (H : Host) (fuel : Nat) (handle key value : term_t) (c : dbget_ctx) (s : State W) :
    pl_bdb_enum N K H fuel handle key value (.PL_PRUNED c) s =
      some (⟨.FALSE, (db_status K (N.c_close s.world c.cursor).1).exc, key, value⟩,
            { s with world := (N.c_close s.world c.cursor).2,
                     trace := s.trace ++ [.c_close c.cursor, .free_ctx c.cursor] }) ∧
    (∀ del, pl_bdb_getdel N K H fuel handle key value (.PL_PRUNED c) del s =
      some (⟨.FALSE, (db_status K (N.c_close s.world c.cursor).1).exc, key, value⟩,
            { s with world := (N.c_close s.world c.cursor).2,
                     trace := s.trace ++
                       [.c_close c.cursor, .free_dbt c.key, .free_ctx c.cursor] })) ∧
    ((call_c_get N s c.cursor c.k2 c.value .DB_NEXT).1 ≠ 0 →
      (pl_bdb_enum N K H (fuel + 1) handle key value (.PL_REDO c) s).map
          (fun x => (x.1.ret, x.2)) =
        (pl_bdb_enum N K H fuel handle key value
          (.PL_PRUNED ⟨c.db, c.cursor, c.key, (call_c_get N s c.cursor c.k2 c.value .DB_NEXT).2.1,
                      (call_c_get N s c.cursor c.k2 c.value .DB_NEXT).2.2.1⟩)
          (call_c_get N s c.cursor c.k2 c.value .DB_NEXT).2.2.2).map
          (fun x => (x.1.ret, x.2))) ∧
    (∀ del, ¬ ((call_c_get N s c.cursor c.k2 c.value .DB_NEXT).1 = 0 ∧
          equal_dbt c.key (call_c_get N s c.cursor c.k2 c.value .DB_NEXT).2.1 = true) →
      (pl_bdb_getdel N K H (fuel + 1) handle key value (.PL_REDO c) del s).map
          (fun x => (x.1.ret, x.2)) =
        (pl_bdb_getdel N K H fuel handle key value
          (.PL_PRUNED ⟨c.db, c.cursor, c.key, (call_c_get N s c.cursor c.k2 c.value .DB_NEXT).2.1,
                      (call_c_get N s c.cursor c.k2 c.value .DB_NEXT).2.2.1⟩)
          del (call_c_get N s c.cursor c.k2 c.value .DB_NEXT).2.2.2).map
          (fun x => (x.1.ret, x.2))) ∧
    (∀ (sr : State RefWorld) (cur : RefCursor) (p M n : Nat) (k1 v1 : term_t),
      sr.world.cursors c.cursor = some cur →
      (sr.dbh_mem p).symbol ≠ 0 →
      (sr.world.recs (sr.dbh_mem p).db).length < M →
      (sr.world.recs (sr.dbh_mem p).db).length < n →
      ∀ x ∈ [pl_bdb_enum (refNative K) K H fuel handle key value (.PL_PRUNED c) sr,
             pl_bdb_get (refNative K) K H fuel handle key value (.PL_PRUNED c) sr,
             pl_bdb_del3 (refNative K) K H fuel handle key value (.PL_PRUNED c) sr],
        ∃ s1 s2, x = some (⟨.FALSE, none, key, value⟩, s1) ∧
          s1.world.recs = sr.world.recs ∧
          s1.world.cursors c.cursor = none ∧
          solutions (fun ctl s3 => pl_bdb_enum (refNative K) K H M (.blob p) k1 v1 ctl s3)
              n .PL_FIRST_CALL s1 =
            some ((sr.world.recs (sr.dbh_mem p).db).filterMap (fun r =>
                    both (unify_dbt H k1 (sr.dbh_mem p).key_type (DBT.of r.key))
                      (unify_dbt H v1 (sr.dbh_mem p).value_type (DBT.of r.data))),
                  none, s2)) := by
  refine ⟨?_, ?_, ?_, ?_, ?_⟩
  · simp [pl_bdb_enum, enum_out_state]
  · intro del
    simp [pl_bdb_getdel, getdel_out_state]
  · intro h
    simp [pl_bdb_enum, enum_retry, h, enum_out_state]
  · intro del h
    simp only [pl_bdb_getdel, getdel_retry, if_neg h, getdel_out_state, Option.map_some']
  · intro sr cur p M n k1 v1 hc hopen hM hn x hx
    have hfresh : ∀ s1 : State RefWorld, s1.world.recs = sr.world.recs →
        s1.dbh_mem = sr.dbh_mem →
        ∃ s2, solutions (fun ctl s3 => pl_bdb_enum (refNative K) K H M (.blob p) k1 v1 ctl s3)
              n .PL_FIRST_CALL s1 =
            some ((sr.world.recs (sr.dbh_mem p).db).filterMap (fun r =>
                    both (unify_dbt H k1 (sr.dbh_mem p).key_type (DBT.of r.key))
                      (unify_dbt H v1 (sr.dbh_mem p).value_type (DBT.of r.data))),
                  none, s2) := by
      intro s1 e1 e2
      obtain ⟨s2, h1, -⟩ := enum_solutions K hK H s1 p k1 v1 M n (by rw [e2]; exact hopen)
        (by rw [e1, e2]; exact hM) (by rw [e1, e2]; exact hn)
      rw [e1, e2] at h1
      exact ⟨s2, h1⟩
    have hz : (db_status K 0).exc = none := by simp [db_status, Ret.TRUE]
    simp only [List.mem_cons, List.mem_singleton, List.not_mem_nil, or_false] at hx
    rcases hx with rfl | rfl | rfl
    · obtain ⟨s1, g1, g2, g3, g4⟩ := enum_out_ref K c 0 key value sr cur hc
      obtain ⟨s2, h2⟩ := hfresh s1 g2 g4
      exact ⟨s1, s2, by simp [pl_bdb_enum, g1, hz], g2, g3, h2⟩
    · obtain ⟨s1, g1, g2, g3, g4⟩ := getdel_out_ref K c 0 key value sr cur hc
      obtain ⟨s2, h2⟩ := hfresh s1 g2 g4
      exact ⟨s1, s2, by simp [pl_bdb_get, pl_bdb_getdel, g1, hz], g2, g3, h2⟩
    · obtain ⟨s1, g1, g2, g3, g4⟩ := getdel_out_ref K c 0 key value sr cur hc
      obtain ⟨s2, h2⟩ := hfresh s1 g2 g4
      exact ⟨s1, s2, by simp [pl_bdb_del3, pl_bdb_getdel, g1, hz], g2, g3, h2⟩

/-- Witness of C11 on the example store: `bdb_get(H, b, V)` pruned at its first
solution closes cursor `1`, and a fresh enumeration then yields all five
records; an enumeration of the empty database `2` is exhausted by its first
advance and ends as the prune after that advance does. -/
theorem prune_releases_as_exhaustion_witness :
    pl_bdb_get (refNative db53) db53 host64 6 (.blob 5) (.atom [98]) .var .PL_FIRST_CALL
        ex_state = some (⟨.retry ex_ctx, none, .atom [98], .atom [50]⟩, ex_mid) ∧
    ex_mid.world.cursors ex_ctx.cursor = some ⟨1, .on 1⟩ ∧
    (pl_bdb_get (refNative db53) db53 host64 6 (.blob 5) (.atom [98]) .var
        (.PL_PRUNED ex_ctx) ex_mid).map (fun x => (x.1.ret, x.2.trace.drop ex_mid.trace.length))
      = some (.FALSE, [.c_close 1, .free_dbt ⟨[98, 0], 1⟩, .free_ctx 1]) ∧
    (∃ s1 s2, pl_bdb_get (refNative db53) db53 host64 6 (.blob 5) (.atom [98]) .var
          (.PL_PRUNED ex_ctx) ex_mid = some (⟨.FALSE, none, .atom [98], .var⟩, s1) ∧
      s1.world.recs = ex_mid.world.recs ∧
      s1.world.cursors 1 = none ∧
      solutions (fun ctl s3 => pl_bdb_enum (refNative db53) db53 host64 6 (.blob 5) .var .var
          ctl s3) 6 .PL_FIRST_CALL s1 =
        some ([(.atom [97], .atom [49]), (.atom [98], .atom [50]), (.atom [98], .atom [51]),
               (.atom [98, 0], .atom [53]), (.atom [99], .atom [52])], none, s2)) ∧
    (call_c_get (refNative db53) (call_cursor (refNative db53) ex_state 2 none).2.2 1
        DBT.zero DBT.zero .DB_NEXT).1 ≠ 0 ∧
    (pl_bdb_enum (refNative db53) db53 host64 (6 + 1) (.blob 5) .var .var
        (.PL_REDO ⟨5, 1, DBT.zero, DBT.zero, DBT.zero⟩)
        (call_cursor (refNative db53) ex_state 2 none).2.2).map (fun x => (x.1.ret, x.2)) =
      (pl_bdb_enum (refNative db53) db53 host64 6 (.blob 5) .var .var
        (.PL_PRUNED ⟨5, 1, DBT.zero, DBT.zero, DBT.zero⟩)
        (call_c_get (refNative db53) (call_cursor (refNative db53) ex_state 2 none).2.2 1
          DBT.zero DBT.zero .DB_NEXT).2.2.2).map (fun x => (x.1.ret, x.2)) :=
  ⟨rfl, rfl,
   by
    rw [pl_bdb_get, (prune_releases_as_exhaustion (refNative db53) db53 (by decide) host64 6
      (.blob 5) (.atom [98]) .var ex_ctx ex_mid).2.1 false]
    rfl,
   (prune_releases_as_exhaustion (refNative db53) db53 (by decide) host64 6
      (.blob 5) (.atom [98]) .var ex_ctx ex_mid).2.2.2.2 ex_mid ⟨1, .on 1⟩ 5 6 6 .var .var
      rfl (by decide) (by decide) (by decide) _ (by simp),
   by decide,
   (prune_releases_as_exhaustion (refNative db53) db53 (by decide) host64 6
      (.blob 5) .var .var ⟨5, 1, DBT.zero, DBT.zero, DBT.zero⟩
      (call_cursor (refNative db53) ex_state 2 none).2.2).2.2.1 (by decide)⟩

theorem getElem?_takeWhile_length {α : Type} (q : α → Bool) (R : List α) :
    R[(R.takeWhile q).length]? = (R.dropWhile q).head? := by
  induction R with
  | nil => simp
  | cons a R ih =>
    by_cases h : q a = true
    · simp [List.takeWhile_cons, List.dropWhile_cons, h, ih]
    · simp [List.takeWhile_cons, List.dropWhile_cons, h]

theorem get_dbt_true (H : Host) (t : term_t) (ty : dtype)
    (h : (get_dbt H t ty).1.rc = true) : (get_dbt H t ty).1 = Ret.TRUE := by
  revert h
  cases ty <;> simp only [get_dbt]
  · simp
  all_goals split <;> simp [Ret.raise]

/-- The branch of `pl_bdb_getdel` for a handle without duplicates, on the
reference store: the record found by `get`, if its value unifies, is the one
solution, and `del` then removes the records of the key. -/
theorem getdel_unique_solutions (K : db_h) (hK : K.Valid) (H : Host) (del : Bool)
    (s : State RefWorld) (p : Nat) (key value : term_t) (kd : DBT) (M n : Nat)
    (hopen : (s.dbh_mem p).symbol ≠ 0) (hdup : (s.dbh_mem p).duplicates = false)
    (hkey : get_dbt H key (s.dbh_mem p).key_type = (Ret.TRUE, kd))
    (hn : 0 < n) :
    ∃ s1,
      solutions (fun ctl s2 => pl_bdb_getdel (refNative K) K H M (.blob p) key value ctl del s2)
          n .PL_FIRST_CALL s =
        some (((((s.world.recs (s.dbh_mem p).db).dropWhile
                  (fun r => decide (r.key ≠ kd.bytes))).head?.toList).filterMap
                (fun r => unify_dbt H value (s.dbh_mem p).value_type (DBT.of r.data))).map
                  (fun v => (key, v)),
              none, s1) ∧
      s1.world.recs (s.dbh_mem p).db =
        (if del = true ∧ ((((s.world.recs (s.dbh_mem p).db).dropWhile
                  (fun r => decide (r.key ≠ kd.bytes))).head?.toList).filterMap
                (fun r => unify_dbt H value (s.dbh_mem p).value_type (DBT.of r.data))) ≠ []
         then (s.world.recs (s.dbh_mem p).db).filter (fun r => decide (r.key ≠ kd.bytes))
         else s.world.recs (s.dbh_mem p).db) ∧
      (∀ d1, d1 ≠ (s.dbh_mem p).db → s1.world.recs d1 = s.world.recs d1) := by
  obtain ⟨n, rfl⟩ : ∃ n1, n = n1 + 1 := ⟨n - 1, by omega⟩
  have hg : ref_get K s.world (s.dbh_mem p).db kd =
      match ((s.world.recs (s.dbh_mem p).db).dropWhile
          (fun r => decide (r.key ≠ kd.bytes))).head? with
      | some r => (0, DBT.of r.data, s.world)
      | none => (K.DB_NOTFOUND, DBT.zero, s.world) := by
    simp only [ref_get, before_key, List.get?_eq_getElem?, getElem?_takeWhile_length]
  have hnz : K.DB_NOTFOUND ≠ 0 := hK.1.ne
  have hN : (refNative K).get = fun w db _ key => ref_get K w db key := rfl
  have hD : (refNative K).del = fun w db _ key => ref_del K w db key := rfl
  refine ⟨((solutions (fun ctl s2 => pl_bdb_getdel (refNative K) K H M (.blob p) key value
    ctl del s2) (n + 1) .PL_FIRST_CALL s).map (fun x => x.2.2)).getD s, ?_, ?_, ?_⟩
  all_goals rw [solutions_succ]
  all_goals cases hh : ((s.world.recs (s.dbh_mem p).db).dropWhile
      (fun r => decide (r.key ≠ kd.bytes))).head? with
    | none =>
      rw [hh] at hg
      by_cases ht : s.db_flags &&& K.DB_THREAD = 0 <;> simp [ht, pl_bdb_getdel, get_db, hopen, hdup, hkey, call_get, hN, hg, hnz,
        db_status_notfound K hK, Reply.of, resume, Ret.TRUE, release]
    | some r =>
      rw [hh] at hg
      obtain ⟨rest, hR⟩ : ∃ rest, (s.world.recs (s.dbh_mem p).db).dropWhile
          (fun r => decide (r.key ≠ kd.bytes)) = r :: rest := by
        cases hl : (s.world.recs (s.dbh_mem p).db).dropWhile
          (fun r => decide (r.key ≠ kd.bytes)) with
        | nil => rw [hl] at hh; simp at hh
        | cons a l => rw [hl] at hh; simp at hh; exact ⟨l, by rw [hh]⟩
      obtain ⟨hsplit, hrk⟩ := split_at_key _ _ _ _ hR
      have hany : (s.world.recs (s.dbh_mem p).db).any (fun r => decide (r.key = kd.bytes))
          = true := by
        rw [hsplit]; simp [hrk]
      cases hu : unify_dbt H value (s.dbh_mem p).value_type (DBT.of r.data) with
      | none =>
        by_cases ht : s.db_flags &&& K.DB_THREAD = 0 <;> simp [ht, pl_bdb_getdel, get_db, hopen, hdup, hkey, call_get, hN, hg, hu,
          Reply.of, resume, Ret.TRUE, release]
      | some v1 =>
        cases del
        · by_cases ht : s.db_flags &&& K.DB_THREAD = 0 <;> simp [ht, pl_bdb_getdel, get_db, hopen, hdup, hkey, call_get, hN, hg, hu,
            Reply.of, resume, Ret.TRUE, release]
        · have hany1 : ∃ x ∈ s.world.recs (s.dbh_mem p).db, x.key = kd.bytes := by
            simpa using hany
          by_cases ht : s.db_flags &&& K.DB_THREAD = 0 <;> simp [ht, pl_bdb_getdel, get_db, hopen, hdup, hkey, call_get, call_del, hN, hD, hg, hu,
              ref_del, hany1, ht, db_status_zero, Reply.of, resume, Ret.TRUE, release] <;>
            (intro d1 hd; exact Function.update_noteq hd _ _)

theorem nodup_key_run (kb : List Nat) (R : List Rec) (huniq : (R.map Rec.key).Nodup) :
    (R.dropWhile (fun r => decide (r.key ≠ kb))).takeWhile (fun r => decide (r.key = kb)) =
      (R.dropWhile (fun r => decide (r.key ≠ kb))).head?.toList ∧
    (R.dropWhile (fun r => decide (r.key ≠ kb))).dropWhile (fun r => decide (r.key = kb)) =
      (R.dropWhile (fun r => decide (r.key ≠ kb))).tail ∧
    ∀ r ∈ (R.dropWhile (fun r => decide (r.key ≠ kb))).tail, r.key ≠ kb := by
  cases hR : R.dropWhile (fun r => decide (r.key ≠ kb)) with
  | nil => simp
  | cons r rest =>
    obtain ⟨hsplit, hrk⟩ := split_at_key kb R r rest hR
    have hrest : ∀ x ∈ rest, x.key ≠ kb := by
      intro x hx hxk
      rw [hsplit, List.map_append, List.map_cons] at huniq
      have h2 := (List.nodup_cons.mp (List.nodup_append.mp huniq).2.1).1
      exact h2 (List.mem_map.mpr ⟨x, hx, by rw [hxk, hrk]⟩)
    have htw : rest.takeWhile (fun r => decide (r.key = kb)) = [] := by
      cases rest with
      | nil => rfl
      | cons a l => simp [List.takeWhile_cons, hrest a (List.mem_cons_self _ _)]
    have hdw : rest.dropWhile (fun r => decide (r.key = kb)) = rest := by
      cases rest with
      | nil => rfl
      | cons a l => simp [List.dropWhile_cons, hrest a (List.mem_cons_self _ _)]
    refine ⟨?_, ?_, ?_⟩
    · simp [List.takeWhile_cons, hrk, htw]
    · simp [List.dropWhile_cons, hrk, hdw]
    · simpa using hrest

/-- C12: on the reference store, for a handle without duplicates whose
database holds at most one record per key, `bdb_get` and `bdb_del/3` driven to
exhaustion give what the cursor branch gives on the same store (the same
handle with `duplicates` set): the same solutions, the same pending exception
and the same records afterwards.  There is at most one solution; get leaves
the records as they were, and a delete that yields removes the record of the
key. -/
theorem unique_branch_same_as_cursor_branch (K : db_h) (hK : K.Valid) (H : Host) (del : Bool)
    (s : State RefWorld) (p : Nat) (key value : term_t) (M n : Nat)
    (hopen : (s.dbh_mem p).symbol ≠ 0) (hdup : (s.dbh_mem p).duplicates = false)
    (huniq : ((s.world.recs (s.dbh_mem p).db).map Rec.key).Nodup)
    (hM : (s.world.recs (s.dbh_mem p).db).length < M)
    (hn : (s.world.recs (s.dbh_mem p).db).length < n) :
    ∃ ys e s1 s2,
      solutions (fun ctl s3 => pl_bdb_getdel (refNative K) K H M (.blob p) key value ctl del s3)
          n .PL_FIRST_CALL s = some (ys, e, s1) ∧
      solutions (fun ctl s3 => pl_bdb_getdel (refNative K) K H M (.blob p) key value ctl del s3)
          n .PL_FIRST_CALL (with_duplicates s p true) = some (ys, e, s2) ∧
      s1.world.recs = s2.world.recs ∧
      ys.length ≤ 1 ∧
      (del = false → s1.world.recs = s.world.recs) ∧
      (del = true → ys ≠ [] →
        s1.world.recs (s.dbh_mem p).db =
          (s.world.recs (s.dbh_mem p).db).filter (fun r =>
            decide (r.key ≠ (get_dbt H key (s.dbh_mem p).key_type).2.bytes))) := by
  have hm : (with_duplicates s p true).dbh_mem p = { s.dbh_mem p with duplicates := true } := by
    simp [with_duplicates]
  have hw : (with_duplicates s p true).world = s.world := rfl
  by_cases hk : (get_dbt H key (s.dbh_mem p).key_type).1.rc = true
  · have hkey : get_dbt H key (s.dbh_mem p).key_type =
        (Ret.TRUE, (get_dbt H key (s.dbh_mem p).key_type).2) :=
      Prod.ext (get_dbt_true H _ _ hk) rfl
    generalize (get_dbt H key (s.dbh_mem p).key_type).2 = kd at hkey ⊢
    obtain ⟨s1, u1, u2, u3⟩ := getdel_unique_solutions K hK H del s p key value kd M n
      hopen hdup hkey (by omega)
    obtain ⟨s2, c1, c2, c3, -, -⟩ := getdel_solutions K hK H del (with_duplicates s p true) p
      key value kd M n (by rw [hm]; exact hopen) (by rw [hm]) (by rw [hm]; exact hkey)
      (by rw [hm, hw]; exact hM) (by rw [hm, hw]; exact hn)
    simp only [hm, hw] at c1 c2 c3
    obtain ⟨r1, r2, r3⟩ := nodup_key_run kd.bytes _ huniq
    obtain ⟨-, f2⟩ := filter_key_grouped kd.bytes (s.world.recs (s.dbh_mem p).db)
      (by rw [r2]; exact r3)
    rw [r1] at c1 c2
    rw [r2] at c2 f2
    have hsplit := (List.takeWhile_append_dropWhile (fun r : Rec => decide (r.key ≠ kd.bytes))
      (s.world.recs (s.dbh_mem p).db)).symm
    refine ⟨_, none, s1, s2, u1, c1, ?_, ?_, ?_, ?_⟩
    · funext d1
      by_cases hd : d1 = (s.dbh_mem p).db
      · subst hd
        rw [u2, c2, f2]
        have hsp : s.world.recs (s.dbh_mem p).db =
            before_key kd.bytes (s.world.recs (s.dbh_mem p).db) ++
              (s.world.recs (s.dbh_mem p).db).dropWhile (fun r => decide (r.key ≠ kd.bytes)) :=
          hsplit
        generalize before_key kd.bytes (s.world.recs (s.dbh_mem p).db) = B at hsp ⊢
        generalize (s.world.recs (s.dbh_mem p).db).dropWhile
          (fun r => decide (r.key ≠ kd.bytes)) = L at hsp ⊢
        generalize s.world.recs (s.dbh_mem p).db = R0 at hsp ⊢
        subst hsp
        cases L with
        | nil => simp
        | cons r rest =>
          cases hu : unify_dbt H value (s.dbh_mem p).value_type (DBT.of r.data) <;>
            cases del <;> simp [hu]
      · rw [u3 d1 hd, c3 d1 hd]
    · cases (s.world.recs (s.dbh_mem p).db).dropWhile
          (fun r => decide (r.key ≠ kd.bytes)) with
      | nil => simp
      | cons r rest =>
        cases hu : unify_dbt H value (s.dbh_mem p).value_type (DBT.of r.data) <;> simp [hu]
    · intro hdel
      funext d1
      by_cases hd : d1 = (s.dbh_mem p).db
      · subst hd
        rw [u2]; simp [hdel]
      · exact u3 d1 hd
    · intro hdel hys
      rw [u2, if_pos ⟨hdel, by simpa using hys⟩]
  · have hk1 : (get_dbt H key (s.dbh_mem p).key_type).1.rc = false := by simpa using hk
    obtain ⟨n, rfl⟩ : ∃ n1, n = n1 + 1 := ⟨n - 1, by omega⟩
    obtain ⟨sc, hcr, -, -, c3, -⟩ := call_cursor_ref K (with_duplicates s p true)
      (s.dbh_mem p).db (current_transaction (with_duplicates s p true))
    refine ⟨[], (get_dbt H key (s.dbh_mem p).key_type).1.exc, s, sc, ?_, ?_, ?_, ?_, ?_, ?_⟩
    · rw [solutions_succ]
      simp [pl_bdb_getdel, get_db, hopen, hdup, hk1, resume]
    · rw [solutions_succ]
      simp [pl_bdb_getdel, get_db, hopen, hm, hcr, hk1, resume]
    · rw [c3]; rfl
    · simp
    · intro _; rfl
    · intro _ h; exact absurd rfl h

/-- Witness of C12 on the example store without duplicates: `bdb_del(H, a, V)`
through either branch. -/
theorem unique_branch_same_as_cursor_branch_witness :
    (uniq_state.dbh_mem 6).symbol ≠ 0 ∧ (uniq_state.dbh_mem 6).duplicates = false ∧
    ((uniq_state.world.recs (uniq_state.dbh_mem 6).db).map Rec.key).Nodup ∧
    ∃ ys e s1 s2,
      solutions (fun ctl s3 => pl_bdb_getdel (refNative db53) db53 host64 4 (.blob 6) (.atom [97])
          .var ctl true s3) 4 .PL_FIRST_CALL uniq_state = some (ys, e, s1) ∧
      solutions (fun ctl s3 => pl_bdb_getdel (refNative db53) db53 host64 4 (.blob 6) (.atom [97])
          .var ctl true s3) 4 .PL_FIRST_CALL (with_duplicates uniq_state 6 true)
        = some (ys, e, s2) ∧
      s1.world.recs = s2.world.recs ∧
      ys.length ≤ 1 ∧
      (true = false → s1.world.recs = uniq_state.world.recs) ∧
      (true = true → ys ≠ [] →
        s1.world.recs (uniq_state.dbh_mem 6).db =
          (uniq_state.world.recs (uniq_state.dbh_mem 6).db).filter (fun r =>
            decide (r.key ≠ (get_dbt host64 (.atom [97]) (uniq_state.dbh_mem 6).key_type).2.bytes))) :=
  ⟨by decide, rfl, by decide,
   unique_branch_same_as_cursor_branch db53 (by decide) host64 true uniq_state 6 (.atom [97]) .var
     4 4 (by decide) rfl (by decide) (by decide) (by decide)⟩

theorem utf8_cont_zero (b : Nat) (r : List Nat) :
    utf8_cont (b :: r) 0 = if 0x80 ≤ b ∧ b < 0xC0 then some (b - 0x80) else none := by
  simp [utf8_cont]

theorem utf8_cont_succ (b : Nat) (r : List Nat) (i : Nat) :
    utf8_cont (b :: r) (i + 1) = utf8_cont r i := by
  simp [utf8_cont]

theorem utf8_decode_fuel_nil (n : Nat) : utf8_decode_fuel n [] = [] := by
  cases n <;> rfl

theorem utf8_decode_one (n b : Nat) (rest : List Nat) (hb : b < 0x80) :
    utf8_decode_fuel (n + 1) (b :: rest) = b :: utf8_decode_fuel n rest := by
  have h1 : ¬ (0xF0 ≤ b ∧ b < 0xF8) := by omega
  have h2 : ¬ (0xE0 ≤ b ∧ b < 0xF0) := by omega
  have h3 : ¬ (0xC0 ≤ b ∧ b < 0xE0) := by omega
  simp only [utf8_decode_fuel]
  split <;> simp only [h1, h2, h3, if_false]

theorem utf8_decode_two (n b x : Nat) (rest : List Nat) (hb : 0xC0 ≤ b ∧ b < 0xE0)
    (hx : 0x80 ≤ x ∧ x < 0xC0) :
    utf8_decode_fuel (n + 1) (b :: x :: rest) =
      ((b - 0xC0) * 64 + (x - 0x80)) :: utf8_decode_fuel n rest := by
  have h1 : ¬ 0xF0 ≤ b := by omega
  have h2 : ¬ 0xE0 ≤ b := by omega
  cases h0 : utf8_cont rest 0 <;> cases h01 : utf8_cont rest 1 <;>
    simp [utf8_decode_fuel, utf8_cont_zero, utf8_cont_succ, hx, hb, h0, h01, h1, h2]

theorem utf8_decode_three (n b x y : Nat) (rest : List Nat) (hb : 0xE0 ≤ b ∧ b < 0xF0)
    (hx : 0x80 ≤ x ∧ x < 0xC0) (hy : 0x80 ≤ y ∧ y < 0xC0) :
    utf8_decode_fuel (n + 1) (b :: x :: y :: rest) =
      ((b - 0xE0) * 4096 + (x - 0x80) * 64 + (y - 0x80)) :: utf8_decode_fuel n rest := by
  have h1 : ¬ 0xF0 ≤ b := by omega
  cases h0 : utf8_cont rest 0 <;>
    simp [utf8_decode_fuel, utf8_cont_zero, utf8_cont_succ, hx, hy, hb, h0, h1]

theorem utf8_decode_four (n b x y z : Nat) (rest : List Nat) (hb : 0xF0 ≤ b ∧ b < 0xF8)
    (hx : 0x80 ≤ x ∧ x < 0xC0) (hy : 0x80 ≤ y ∧ y < 0xC0) (hz : 0x80 ≤ z ∧ z < 0xC0) :
    utf8_decode_fuel (n + 1) (b :: x :: y :: z :: rest) =
      ((b - 0xF0) * 262144 + (x - 0x80) * 4096 + (y - 0x80) * 64 + (z - 0x80)) ::
        utf8_decode_fuel n rest := by
  simp [utf8_decode_fuel, utf8_cont_zero, utf8_cont_succ, hx, hy, hz, hb]

theorem utf8_decode_put (n c : Nat) (rest : List Nat) (hc : c < 0x200000) :
    utf8_decode_fuel (n + 1) (utf8_put c ++ rest) = c :: utf8_decode_fuel n rest := by
  by_cases h1 : c < 0x80
  · have e : utf8_put c = [c] := by simp [utf8_put, h1]
    rw [e]
    exact utf8_decode_one n c rest h1
  by_cases h2 : c < 0x800
  · have e : utf8_put c = [0xC0 + c / 64, 0x80 + c % 64] := by simp [utf8_put, h1, h2]
    have h := utf8_decode_two n (0xC0 + c / 64) (0x80 + c % 64) rest (by omega) (by omega)
    have e2 : (0xC0 + c / 64 - 0xC0) * 64 + (0x80 + c % 64 - 0x80) = c := by omega
    rw [e2] at h
    rw [e]
    exact h
  by_cases h3 : c < 0x10000
  · have e : utf8_put c = [0xE0 + c / 4096, 0x80 + c / 64 % 64, 0x80 + c % 64] := by
      simp [utf8_put, h1, h2, h3]
    have h := utf8_decode_three n (0xE0 + c / 4096) (0x80 + c / 64 % 64) (0x80 + c % 64) rest
      (by omega) (by omega) (by omega)
    have e2 : (0xE0 + c / 4096 - 0xE0) * 4096 + (0x80 + c / 64 % 64 - 0x80) * 64 +
        (0x80 + c % 64 - 0x80) = c := by omega
    rw [e2] at h
    rw [e]
    exact h
  · have e : utf8_put c = [0xF0 + c / 262144 % 8, 0x80 + c / 4096 % 64, 0x80 + c / 64 % 64,
        0x80 + c % 64] := by
      simp [utf8_put, h1, h2, h3]
    have h := utf8_decode_four n (0xF0 + c / 262144 % 8) (0x80 + c / 4096 % 64)
      (0x80 + c / 64 % 64) (0x80 + c % 64) rest (by omega) (by omega) (by omega) (by omega)
    have e2 : (0xF0 + c / 262144 % 8 - 0xF0) * 262144 + (0x80 + c / 4096 % 64 - 0x80) * 4096 +
        (0x80 + c / 64 % 64 - 0x80) * 64 + (0x80 + c % 64 - 0x80) = c := by omega
    rw [e2] at h
    rw [e]
    exact h

theorem utf8_put_length_pos (c : Nat) : 0 < (utf8_put c).length := by
  unfold utf8_put
  split_ifs <;> simp

theorem utf8_encode_length (text : List Nat) : text.length ≤ (utf8_encode text).length := by
  induction text with
  | nil => simp [utf8_encode]
  | cons c t ih =>
    have := utf8_put_length_pos c
    simp only [utf8_encode, List.flatMap_cons, List.length_append, List.length_cons] at ih ⊢
    omega

theorem utf8_decode_fuel_encode (text : List Nat) (h : ∀ c ∈ text, c < 0x200000) :
    ∀ n, text.length ≤ n → utf8_decode_fuel n (utf8_encode text) = text := by
  induction text with
  | nil => intro n _; simp [utf8_encode, utf8_decode_fuel_nil]
  | cons c t ih =>
    intro n hn
    obtain ⟨n, rfl⟩ : ∃ n1, n = n1 + 1 := ⟨n - 1, by simp at hn; omega⟩
    have e : utf8_encode (c :: t) = utf8_put c ++ utf8_encode t := by
      simp [utf8_encode]
    rw [e, utf8_decode_put n c _ (h c (List.mem_cons_self _ _)),
      ih (fun x hx => h x (List.mem_cons_of_mem _ hx)) n (by simp at hn; omega)]

/-- Decoding the UTF-8 bytes of a text of code points gives the text back. -/
theorem utf8_decode_encode (text : List Nat) (h : ∀ c ∈ text, c < 0x200000) :
    utf8_decode (utf8_encode text) = text :=
  utf8_decode_fuel_encode text h _ (utf8_encode_length text)

theorem utf8_put_nonzero (c : Nat) (hc : c ≠ 0) : ∀ b ∈ utf8_put c, b ≠ 0 := by
  intro b hb
  unfold utf8_put at hb
  split_ifs at hb <;> simp at hb <;> omega

/-- The bytes before the first `0` byte of an encoded text are the encoding of
the text before its first NUL. -/
theorem takeWhile_utf8_encode (text rest : List Nat) :
    (utf8_encode text ++ 0 :: rest).takeWhile (fun b => decide (b ≠ 0)) =
      utf8_encode (text.takeWhile (fun c => decide (c ≠ 0))) := by
  induction text with
  | nil => simp [utf8_encode]
  | cons c t ih =>
    have e : ∀ l, utf8_encode (c :: l) = utf8_put c ++ utf8_encode l := fun l => by
      simp [utf8_encode]
    by_cases hc : c = 0
    · subst hc
      simp [utf8_encode, utf8_put]
    · have hp : ∀ b ∈ utf8_put c, decide (b ≠ 0) = true := fun b hb => by
        simpa using utf8_put_nonzero c hc b hb
      rw [e, List.append_assoc, List.takeWhile_append_of_pos hp, ih]
      simp [List.takeWhile_cons, hc, e]

theorem sum_digits (u : Nat) (w : Nat) :
    ((((List.range w).map (fun i => u / 256 ^ i % 256)).enum).map
      (fun p => p.2 * 256 ^ p.1)).sum = u % 256 ^ w := by
  induction w with
  | zero => simp [Nat.mod_one]
  | succ w ih =>
    rw [List.range_succ, List.map_append, List.enum, List.enumFrom_append, List.map_append,
      List.sum_append]
    rw [List.enum] at ih
    rw [ih, Nat.mod_pow_succ]
    simp [Nat.mul_comm]

theorem range_map_get (L : List Nat) (hL : ∀ b ∈ L, b < 256) :
    (List.range L.length).map (fun i => (L.get? i).getD 0 % 256) = L := by
  apply List.ext_getElem
  · simp
  · intro i h1 h2
    simp only [List.getElem_map, List.getElem_range, List.get?_eq_getElem?]
    rw [List.getElem?_eq_getElem h2]
    simp only [Option.getD_some]
    exact Nat.mod_eq_of_lt (hL _ (List.getElem_mem h2))

/-- The native `long` read back from the bytes written for `v` is `v`, for
every `v` the native `long` holds. -/
theorem long_value_bytes (H : Host) (hl : 0 < H.sizeof_long) (v : Int)
    (hv : -(2 ^ (8 * H.sizeof_long - 1) : Int) ≤ v ∧ v < (2 ^ (8 * H.sizeof_long - 1) : Int)) :
    long_value H (long_bytes H v) = v := by
  have hle : ∀ u : Nat, ∀ b ∈ (List.range H.sizeof_long).map (fun i => u / 256 ^ i % 256),
      b < 256 := by
    intro u b hb
    obtain ⟨i, -, rfl⟩ := List.mem_map.mp hb
    exact Nat.mod_lt _ (by norm_num)
  have hrt : ∀ u : Nat,
      (if H.big_endian = true then
        ((List.range H.sizeof_long).map (fun i =>
          ((if H.big_endian = true then
              ((List.range H.sizeof_long).map (fun i => u / 256 ^ i % 256)).reverse
            else (List.range H.sizeof_long).map (fun i => u / 256 ^ i % 256)).get? i).getD 0
            % 256)).reverse
      else
        (List.range H.sizeof_long).map (fun i =>
          ((if H.big_endian = true then
              ((List.range H.sizeof_long).map (fun i => u / 256 ^ i % 256)).reverse
            else (List.range H.sizeof_long).map (fun i => u / 256 ^ i % 256)).get? i).getD 0
            % 256)) =
      (List.range H.sizeof_long).map (fun i => u / 256 ^ i % 256) := by
    intro u
    by_cases hb : H.big_endian = true
    · simp only [hb, if_true]
      have h := range_map_get ((List.range H.sizeof_long).map (fun i => u / 256 ^ i % 256)).reverse
        (fun b hb => hle u b (List.mem_reverse.mp hb))
      simp only [List.length_reverse, List.length_map, List.length_range] at h
      rw [h, List.reverse_reverse]
    · simp only [hb, if_false]
      have h := range_map_get ((List.range H.sizeof_long).map (fun i => u / 256 ^ i % 256))
        (hle u)
      simp only [List.length_map, List.length_range] at h
      exact h
  have hpow : (256 : Nat) ^ H.sizeof_long = 2 ^ (8 * H.sizeof_long) := by
    rw [show (256 : Nat) = 2 ^ 8 by norm_num, ← pow_mul]
  have hdbl : (2 : Nat) ^ (8 * H.sizeof_long) = 2 * 2 ^ (8 * H.sizeof_long - 1) := by
    rw [← pow_succ']
    congr 1; omega
  unfold long_value long_bytes
  simp only [hrt, sum_digits, hpow]
  generalize hP : (2 : Nat) ^ (8 * H.sizeof_long - 1) = P at hdbl
  have hPi : (2 : Int) ^ (8 * H.sizeof_long - 1) = (P : Int) := by
    rw [← hP]; push_cast; rfl
  have hQi : (2 : Int) ^ (8 * H.sizeof_long) = 2 * (P : Int) := by
    have := congrArg (fun x : Nat => (x : Int)) hdbl
    simpa using this
  rw [hPi] at hv
  rw [hdbl, hQi]
  have hPpos : 0 < P := by rw [← hP]; positivity
  by_cases h0 : 0 ≤ v
  · have e : v % (2 * (P : Int)) = v := Int.emod_eq_of_lt h0 (by omega)
    rw [e]
    have e2 : v.toNat % (2 * P) = v.toNat := Nat.mod_eq_of_lt (by omega)
    rw [e2, if_pos (by omega)]
    omega
  · have e : v % (2 * (P : Int)) = v + 2 * P := by
      rw [← Int.add_emod_self]
      exact Int.emod_eq_of_lt (by omega) (by omega)
    rw [e]
    have e2 : (v + 2 * (P : Int)).toNat % (2 * P) = (v + 2 * (P : Int)).toNat :=
      Nat.mod_eq_of_lt (by omega)
    rw [e2, if_neg (by omega)]
    omega

/-- C13, counterexample: three values `get_dbt` accepts do not come back from
`unify_dbt`.  Under `c_blob` the atom `a` is encoded and decodes to the string
`a`; under `c_string` the string `a` is encoded and decodes to the atom `a`,
and the atom `a\0b` decodes to the atom `a`, the text cut at its NUL. -/
theorem cblob_cstring_not_round_trip :
    (get_dbt host64 (.atom [97]) .D_CBLOB).1 = Ret.TRUE ∧
    unify_dbt host64 .var .D_CBLOB (get_dbt host64 (.atom [97]) .D_CBLOB).2
      = some (.string [97]) ∧
    (get_dbt host64 (.string [97]) .D_CSTRING).1 = Ret.TRUE ∧
    unify_dbt host64 .var .D_CSTRING (get_dbt host64 (.string [97]) .D_CSTRING).2
      = some (.atom [97]) ∧
    (get_dbt host64 (.atom [97, 0, 98]) .D_CSTRING).1 = Ret.TRUE ∧
    unify_dbt host64 .var .D_CSTRING (get_dbt host64 (.atom [97, 0, 98]) .D_CSTRING).2
      = some (.atom [97]) := by
  refine ⟨rfl, rfl, rfl, rfl, rfl, rfl⟩

/-- C13, amended: what `unify_dbt` makes of the buffer `get_dbt` produced, on
any platform whose `long` has at least one byte and for texts of code points.
`atom`: only atoms are accepted, and every atom comes back as itself, NUL and
non-ASCII characters included.  `c_blob`: every accepted atom or string comes
back as the string of the same text, so a string round-trips and an atom
changes kind.  `c_string`: every atom or string is accepted and comes back as
the atom of its text up to the first NUL, so an atom without NUL round-trips.
`c_long`: every integer accepted comes back as itself. -/
theorem codec_round_trip (H : Host) (hl : 0 < H.sizeof_long) (x : List Nat) (v : Int)
    (hx : ∀ c ∈ x, c ≤ 0x10FFFF) :
    ((get_dbt H (.atom x) .D_ATOM).1 = Ret.TRUE ∧
      unify_dbt H .var .D_ATOM (get_dbt H (.atom x) .D_ATOM).2 = some (.atom x)) ∧
    (∀ t, (get_dbt H t .D_ATOM).1.rc = true → ∃ y, t = .atom y) ∧
    (∀ t, t = .atom x ∨ t = .string x → (get_dbt H t .D_CBLOB).1.rc = true →
      unify_dbt H .var .D_CBLOB (get_dbt H t .D_CBLOB).2 = some (.string x)) ∧
    (∀ t, t = .atom x ∨ t = .string x →
      (get_dbt H t .D_CSTRING).1 = Ret.TRUE ∧
      unify_dbt H .var .D_CSTRING (get_dbt H t .D_CSTRING).2
        = some (.atom (x.takeWhile (fun c => decide (c ≠ 0))))) ∧
    (0 ∉ x → unify_dbt H .var .D_CSTRING (get_dbt H (.atom x) .D_CSTRING).2 = some (.atom x)) ∧
    ((get_dbt H (.integer v) .D_CLONG).1.rc = true →
      unify_dbt H .var .D_CLONG (get_dbt H (.integer v) .D_CLONG).2 = some (.integer v)) := by
  have hx1 : ∀ c ∈ x, c < 0x200000 := fun c hc => by have := hx c hc; omega
  have htw : ∀ c ∈ x.takeWhile (fun c => decide (c ≠ 0)), c < 0x200000 := fun c hc =>
    hx1 c ((List.takeWhile_sublist _).subset hc)
  have hcs : ∀ t, t = .atom x ∨ t = .string x →
      (get_dbt H t .D_CSTRING).1 = Ret.TRUE ∧
      unify_dbt H .var .D_CSTRING (get_dbt H t .D_CSTRING).2
        = some (.atom (x.takeWhile (fun c => decide (c ≠ 0)))) := by
    intro t ht
    have h2 := utf8_decode_encode _ htw
    rw [← takeWhile_utf8_encode x []] at h2
    rcases ht with rfl | rfl <;>
    · simp only [get_dbt, unify_dbt, PL_get_nchars, PL_unify_chars, PL_unify, if_true, h2]
      exact ⟨trivial, trivial⟩
  refine ⟨?_, ?_, ?_, hcs, ?_, ?_⟩
  · simp [get_dbt, unify_dbt, PL_get_nchars, PL_unify_chars, PL_unify,
      utf8_decode_encode x hx1]
  · intro t ht
    cases t <;> simp [get_dbt, PL_get_nchars, Ret.raise] at ht ⊢
  · intro t ht hrc
    rcases ht with rfl | rfl <;>
    · by_cases hall : x.all (fun c => decide (c < 256)) = true
      · simp [get_dbt, unify_dbt, PL_get_nchars, PL_unify_chars, PL_unify, hall]
      · simp [get_dbt, PL_get_nchars, hall, Ret.raise] at hrc
  · intro h0
    have e : x.takeWhile (fun c => decide (c ≠ 0)) = x :=
      List.takeWhile_eq_self_iff.mpr (fun c hc => by
        simp only [decide_eq_true_eq]; rintro rfl; exact h0 hc)
    have := (hcs (.atom x) (Or.inl rfl)).2
    rw [e] at this
    exact this
  · intro hrc
    by_cases hv : -(2 ^ (8 * H.sizeof_long - 1) : Int) ≤ v ∧ v < (2 ^ (8 * H.sizeof_long - 1) : Int)
    · simp [get_dbt, unify_dbt, PL_get_long_ex, hv, PL_unify, long_value_bytes H hl v hv]
    · simp [get_dbt, PL_get_long_ex, hv, Ret.raise] at hrc

/-- Witness of the amended C13 on the 64-bit host: an atom with NUL, a Latin-1
and a 4-byte character under `atom`, the least native `long` under `c_long`, a
string under `c_blob`, an atom without NUL under `c_string`. -/
theorem codec_round_trip_witness :
    0 < host64.sizeof_long ∧ (∀ c ∈ [97, 0, 233, 128512], c ≤ 0x10FFFF) ∧
    unify_dbt host64 .var .D_ATOM (get_dbt host64 (.atom [97, 0, 233, 128512]) .D_ATOM).2
      = some (.atom [97, 0, 233, 128512]) ∧
    (get_dbt host64 (.integer (-9223372036854775808)) .D_CLONG).1.rc = true ∧
    unify_dbt host64 .var .D_CLONG (get_dbt host64 (.integer (-9223372036854775808)) .D_CLONG).2
      = some (.integer (-9223372036854775808)) ∧
    (get_dbt host64 (.string [97, 0, 233]) .D_CBLOB).1.rc = true ∧
    unify_dbt host64 .var .D_CBLOB (get_dbt host64 (.string [97, 0, 233]) .D_CBLOB).2
      = some (.string [97, 0, 233]) ∧
    0 ∉ [97, 233, 128512] ∧
    unify_dbt host64 .var .D_CSTRING (get_dbt host64 (.atom [97, 233, 128512]) .D_CSTRING).2
      = some (.atom [97, 233, 128512]) :=
  ⟨by decide, by decide,
   (codec_round_trip host64 (by decide) [97, 0, 233, 128512] (-9223372036854775808)
      (by decide)).1.2,
   by decide,
   (codec_round_trip host64 (by decide) [97, 0, 233, 128512] (-9223372036854775808)
      (by decide)).2.2.2.2.2 (by decide),
   by decide,
   (codec_round_trip host64 (by decide) [97, 0, 233] 0 (by decide)).2.2.1 (.string [97, 0, 233])
      (Or.inr rfl) (by decide),
   by decide,
   (codec_round_trip host64 (by decide) [97, 233, 128512] 0 (by decide)).2.2.2.2.1 (by decide)⟩

end Bdb4pl
